import Mathlib

/-! # SymNMF numeric core (`symnmf.c`)

A shallow embedding of the matrix routines of `symnmf.c` and of the
multiplicative-update optimizer built on them.

Modelling conventions

* A `double**` matrix is a list of rows (`Mat α`).  The row and column counts
  travel next to the matrix as separate `Nat` arguments, exactly as the C
  functions take them.  `Mat.get` is the read `M[i][j]`, `Mat.set` the write
  `M[i][j] = v`.
* `double` is an arbitrary carrier `α` with the arithmetic operations the code
  uses.  The definitions assume no law about these operations; the theorems
  state which laws they need.  Arithmetic is exact (no rounding, no overflow).
  `Dbl α` below extends a field with `+∞`, `-∞` and `NaN`, so that the outcome
  of a division by zero can be followed through the code.
* `exp` and `sqrt` come from the C library, not from this repository: they are
  parameters of the functions that call them.
* A counting loop `for (i = 0; i < n; i++) body` is `forLoop n body`.
* The definitions of `section Code` follow the path on which every
  `create_matrix` call returns a matrix, i.e. `calloc` never returns `NULL`.
  The definitions of `namespace Mem` follow `create_matrix`, `free_matrix`,
  `mat_mult`, `transpose_matrix`, `forb`, `calcul` and `opt_mat_with_H` with
  their `NULL` tests and releases, on a heap whose allocations may fail.
-/

set_option autoImplicit false

namespace SymNMF

/-! ## Matrices and loops -/

/-- A `double**` matrix, stored as the list of its rows. -/
abbrev Mat (α : Type) := List (List α)

/-- The read `M[i][j]`. -/
def Mat.get {α : Type} [Zero α] (M : Mat α) (i j : Nat) : α :=
  (M.getD i []).getD j 0

/-- The write `M[i][j] = v`. -/
def Mat.set {α : Type} (M : Mat α) (i j : Nat) (v : α) : Mat α :=
  List.set M i ((M.getD i []).set j v)

/-- `M` has `n` rows of `k` entries each. -/
def Mat.Shape {α : Type} (M : Mat α) (n k : Nat) : Prop :=
  M.length = n ∧ ∀ r ∈ M, r.length = k

instance {α : Type} (M : Mat α) (n k : Nat) : Decidable (M.Shape n k) := by
  unfold Mat.Shape
  exact inferInstance

/-- The loop `for (i = 0; i < n; i++) s = body i s`. -/
def forLoop {σ : Type} (n : Nat) (body : Nat → σ → σ) (s : σ) : σ :=
  match n with
  | 0 => s
  | n + 1 => body n (forLoop n body s)

section Code

variable {α : Type}

/-! ## `create_matrix`, `mat_mult`, `transpose_matrix`, `forb` -/

/-- `create_matrix(n, k)`: `n` rows of `k` zeros (`calloc` zero-fills). -/
def create_matrix [Zero α] (n k : Nat) : Mat α :=
  List.replicate n (List.replicate k 0)

/-- `mat_mult(M1, M2, n, m, q)`: allocate `M3`, clear it, then accumulate
`M3[i][j] += M1[i][t] * M2[t][j]` in the three nested loops. -/
def mat_mult [Zero α] [Add α] [Mul α] (M1 M2 : Mat α) (n m q : Nat) : Mat α :=
  let M3 : Mat α := create_matrix n q
  let M3 := forLoop n (fun i M3 => forLoop q (fun j M3 => M3.set i j 0) M3) M3
  forLoop n (fun i M3 =>
    forLoop q (fun j M3 =>
      forLoop m (fun t M3 => M3.set i j (M3.get i j + M1.get i t * M2.get t j)) M3) M3) M3

/-- `transpose_matrix(M, n, m)`: allocate an `m × n` matrix and fill
`trans[j][i] = M[i][j]`. -/
def transpose_matrix [Zero α] (M : Mat α) (n m : Nat) : Mat α :=
  let trans : Mat α := create_matrix m n
  forLoop n (fun i trans => forLoop m (fun j trans => trans.set j i (M.get i j)) trans) trans

/-- `forb(M, n, m)`: the trace of `transpose(M) * M`. -/
def forb [Zero α] [Add α] [Mul α] (M : Mat α) (n m : Nat) : α :=
  let trans_mat := transpose_matrix M n m
  let temp_mat := mat_mult trans_mat M m n m
  forLoop m (fun i trace => trace + temp_mat.get i i) 0

/-! ## `squared_euc_dis`, `sym_mat`, `diag_mat`, `norm_mat` -/

/-- `squared_euc_dis(point1, point2, dim)`: the `while (counter < dim)` loop adds
`pow(point1[counter] - point2[counter], 2)` to `accu`; `pow(x, 2)` is the
square `x ^ 2`. -/
def squared_euc_dis [Zero α] [Add α] [Sub α] [HPow α Nat α] (point1 point2 : List α)
    (dim : Nat) : α :=
  forLoop dim (fun counter accu => accu + (point1.getD counter 0 - point2.getD counter 0) ^ 2) 0

/-- `sym_mat(points, n, dim)`: `A[i][j] = exp(-0.5 * squared_euc_dis(...))` off
the diagonal and `A[i][j] = 0.0` on it. -/
def sym_mat [Zero α] [Add α] [Sub α] [Mul α] [Neg α] [OfScientific α] [HPow α Nat α]
    (exp : α → α) (points : Mat α) (n dim : Nat) : Mat α :=
  let A : Mat α := create_matrix n n
  forLoop n (fun i A =>
    forLoop n (fun j A =>
      if i ≠ j then
        A.set i j (exp ((-0.5) * squared_euc_dis (points.getD i []) (points.getD j []) dim))
      else
        A.set i j 0) A) A

/-- `diag_mat(A, n)`: the loop state is the pair `(row_sum, D)`; each outer
iteration adds row `i` of `A` into `row_sum`, stores it in `D[i][i]` and
resets `row_sum` to `0.0`. -/
def diag_mat [Zero α] [Add α] (A : Mat α) (n : Nat) : Mat α :=
  let D : Mat α := create_matrix n n
  (forLoop n (fun i (st : α × Mat α) =>
    let row_sum := forLoop n (fun j row_sum => row_sum + A.get i j) st.1
    let D := st.2.set i i row_sum
    (0, D)) (0, D)).2

/-- `norm_mat(D, A, n)`: build the diagonal matrix `rev_sqr_D[i][i] =
1 / sqrt(D[i][i])`, then `res = (rev_sqr_D * A) * rev_sqr_D`. -/
def norm_mat [Zero α] [One α] [Add α] [Mul α] [Div α] (sqrt : α → α) (D A : Mat α)
    (n : Nat) : Mat α :=
  let rev_sqr_D : Mat α := create_matrix n n
  let rev_sqr_D := forLoop n (fun i R => R.set i i (1 / sqrt (D.get i i))) rev_sqr_D
  let temp_res := mat_mult rev_sqr_D A n n n
  let res := mat_mult temp_res rev_sqr_D n n n
  res

/-! ## The optimizer: `calcul` and `opt_mat_with_H` -/

/-- `#define EPSILON 0.0001` -/
def EPSILON [OfScientific α] : α := 0.0001

/-- `#define MAXITER 300` -/
def MAXITER : Nat := 300

/-- The body of the `for (m ...)` loop of `calcul`, up to but not including the
convergence test: copy `H` into `old_H`, compute `mone` and `mechane`, update
`H`, and overwrite `old_H` with `H - old_H`.  Returns the new `(H, old_H)`. -/
def calcul_iter [Zero α] [Add α] [Sub α] [Mul α] [Div α] [OfScientific α]
    (H W old_H : Mat α) (n k : Nat) : Mat α × Mat α :=
  let old_H := forLoop n (fun i old_H =>
    forLoop k (fun j old_H => old_H.set i j (H.get i j)) old_H) old_H
  let mone := mat_mult W old_H n n k
  let mechane := mat_mult (mat_mult old_H (transpose_matrix old_H n k) n k n) old_H n n k
  let H := forLoop n (fun i H =>
    forLoop k (fun j H =>
      H.set i j (old_H.get i j * (0.5 + 0.5 * (mone.get i j / mechane.get i j)))) H) H
  let old_H := forLoop n (fun i old_H =>
    forLoop k (fun j old_H => old_H.set i j (H.get i j - old_H.get i j)) old_H) old_H
  (H, old_H)

/-- The state of `calcul` when its loop is left: the matrices `H` and `old_H`,
the loop counter `m` (`MAXITER` when the loop ran out, the index of the
breaking iteration otherwise) and whether the loop was left by `break`. -/
structure CalculExit (α : Type) where
  H : Mat α
  old_H : Mat α
  m : Nat
  broke : Bool

/-- The loop `for (m = m0; m < MAXITER; m++) { ...; if (forb(old_H, n, k) <
EPSILON) break; }` with `fuel = MAXITER - m0` iterations left. -/
def calcul_loop [Zero α] [Add α] [Sub α] [Mul α] [Div α] [OfScientific α] [LT α]
    [DecidableRel (fun (x y : α) => x < y)]
    (fuel m : Nat) (H W old_H : Mat α) (n k : Nat) : CalculExit α :=
  match fuel with
  | 0 => { H := H, old_H := old_H, m := m, broke := false }
  | fuel + 1 =>
    let r := calcul_iter H W old_H n k
    if forb r.2 n k < EPSILON then
      { H := r.1, old_H := r.2, m := m, broke := true }
    else
      calcul_loop fuel (m + 1) r.1 W r.2 n k

/-- `calcul(H, W, n, k, mone, mechane, old_H)`: run the loop from `m = 0` and
`return 1`.  The result pairs the return value with the exit state, whose `H`
is the caller's matrix after the in-place updates.  The incoming `mone` and
`mechane` pointers are overwritten before any use and play no role. -/
def calcul [Zero α] [Add α] [Sub α] [Mul α] [Div α] [OfScientific α] [LT α]
    [DecidableRel (fun (x y : α) => x < y)]
    (H W : Mat α) (n k : Nat) (old_H : Mat α) : Nat × CalculExit α :=
  (1, calcul_loop MAXITER 0 H W old_H n k)

/-- `opt_mat_with_H(H, W, n, k)`: allocate `old_H`, call `calcul`, and return
`H` unless `calcul` returned `0` (then `NULL`, here `none`). -/
def opt_mat_with_H [Zero α] [Add α] [Sub α] [Mul α] [Div α] [OfScientific α] [LT α]
    [DecidableRel (fun (x y : α) => x < y)]
    (H W : Mat α) (n k : Nat) : Option (Mat α) :=
  let old_H : Mat α := create_matrix n k
  let r := calcul H W n k old_H
  if r.1 = 0 then none else some r.2.H

end Code

/-! ## Doubles with infinities and NaN

`Dbl α` adds `+∞`, `-∞` and `NaN` to the finite values `α`, with the IEEE 754
rules for them: a non-zero finite value divided by zero is an infinity, `0/0`,
`∞ - ∞`, `0 * ∞` and `∞/∞` are `NaN`, `NaN` propagates through every operation
and every comparison with `NaN` is false.  Zero is unsigned (it behaves as
`+0`), and finite arithmetic is exact. -/

/-- A double: a finite value, `+∞`, `-∞` or `NaN`. -/
inductive Dbl (α : Type) where
  | fin (x : α)
  | pinf
  | ninf
  | nan
  deriving DecidableEq

namespace Dbl

variable {α : Type} [LinearOrderedField α]

/-- The product of `+∞` with the finite value `x`. -/
def scaleInf (x : α) : Dbl α :=
  if 0 < x then pinf else if x < 0 then ninf else nan

/-- Addition of doubles. -/
def add : Dbl α → Dbl α → Dbl α
  | fin x, fin y => fin (x + y)
  | fin _, pinf => pinf
  | fin _, ninf => ninf
  | pinf, fin _ => pinf
  | pinf, pinf => pinf
  | pinf, ninf => nan
  | ninf, fin _ => ninf
  | ninf, pinf => nan
  | ninf, ninf => ninf
  | nan, _ => nan
  | fin _, nan => nan
  | pinf, nan => nan
  | ninf, nan => nan

/-- Negation of doubles. -/
def neg : Dbl α → Dbl α
  | fin x => fin (-x)
  | pinf => ninf
  | ninf => pinf
  | nan => nan

/-- Multiplication of doubles. -/
def mul : Dbl α → Dbl α → Dbl α
  | fin x, fin y => fin (x * y)
  | fin x, pinf => scaleInf x
  | fin x, ninf => scaleInf (-x)
  | pinf, fin y => scaleInf y
  | ninf, fin y => scaleInf (-y)
  | pinf, pinf => pinf
  | pinf, ninf => ninf
  | ninf, pinf => ninf
  | ninf, ninf => pinf
  | nan, _ => nan
  | fin _, nan => nan
  | pinf, nan => nan
  | ninf, nan => nan

/-- Division of doubles. -/
def div : Dbl α → Dbl α → Dbl α
  | fin x, fin y => if y = 0 then scaleInf x else fin (x / y)
  | fin _, pinf => fin 0
  | fin _, ninf => fin 0
  | pinf, fin y => if y < 0 then ninf else pinf
  | ninf, fin y => if y < 0 then pinf else ninf
  | pinf, pinf => nan
  | pinf, ninf => nan
  | ninf, pinf => nan
  | ninf, ninf => nan
  | nan, _ => nan
  | fin _, nan => nan
  | pinf, nan => nan
  | ninf, nan => nan

/-- The comparison `a < b` of doubles, false whenever `NaN` is involved. -/
def blt : Dbl α → Dbl α → Bool
  | fin x, fin y => decide (x < y)
  | fin _, pinf => true
  | ninf, fin _ => true
  | ninf, pinf => true
  | _, _ => false

/-- The power `x ^ n` by repeated multiplication. -/
def npow (x : Dbl α) : Nat → Dbl α
  | 0 => fin 1
  | n + 1 => mul (npow x n) x

instance : Zero (Dbl α) := ⟨fin 0⟩
instance : One (Dbl α) := ⟨fin 1⟩
instance : Add (Dbl α) := ⟨add⟩
instance : Neg (Dbl α) := ⟨neg⟩
instance : Sub (Dbl α) := ⟨fun a b => add a (neg b)⟩
instance : Mul (Dbl α) := ⟨mul⟩
instance : Div (Dbl α) := ⟨div⟩
instance : HPow (Dbl α) Nat (Dbl α) := ⟨npow⟩
instance : LT (Dbl α) := ⟨fun a b => blt a b = true⟩
instance : DecidableRel (fun (a b : Dbl α) => a < b) :=
  fun a b => inferInstanceAs (Decidable (blt a b = true))
instance : OfScientific (Dbl α) :=
  ⟨fun m s e => fin (OfScientific.ofScientific m s e)⟩

/-- Addition of doubles is a commutative monoid, so a sum of doubles does not
depend on the order of its terms. -/
instance : AddCommMonoid (Dbl α) where
  add_assoc a b c := by
    cases a <;> cases b <;> cases c <;>
      first
        | rfl
        | exact congrArg fin (add_assoc _ _ _)
  zero_add a := by
    cases a <;> first | rfl | exact congrArg fin (zero_add _)
  add_zero a := by
    cases a <;> first | rfl | exact congrArg fin (add_zero _)
  add_comm a b := by
    cases a <;> cases b <;> first | rfl | exact congrArg fin (add_comm _ _)
  nsmul := nsmulRec

end Dbl

/-- A matrix of finite values, read as a matrix of doubles. -/
def Mat.lift {α : Type} (M : Mat α) : Mat (Dbl α) :=
  M.map (List.map Dbl.fin)

/-- An exit state of `calcul` over finite values, read over doubles. -/
def CalculExit.lift {α : Type} (e : CalculExit α) : CalculExit (Dbl α) :=
  { H := e.H.lift, old_H := e.old_H.lift, m := e.m, broke := e.broke }

/-! ## The optimizer as the specification words it

These definitions follow the text of the specification (section 4.5), not the
code; `opt_mat_with_H` is compared with them below. -/

section SpecSide

variable {α : Type} [AddCommMonoid α] [Sub α] [Mul α] [Div α] [OfScientific α]

/-- Spec, step 2: entry `(i, j)` of `numerator = W · H`. -/
def spec_numerator (W H : Mat α) (n : Nat) (i j : Nat) : α :=
  ∑ t in Finset.range n, W.get i t * H.get t j

/-- Spec, step 3: entry `(i, j)` of `denominator = (H · Hᵗ) · H`. -/
def spec_denominator (H : Mat α) (n k : Nat) (i j : Nat) : α :=
  ∑ l in Finset.range n, (∑ c in Finset.range k, H.get i c * H.get l c) * H.get l j

/-- Spec, step 4: one multiplicative update of the `n × k` matrix `H`. -/
def spec_step (W : Mat α) (n k : Nat) (H : Mat α) : Mat α :=
  (List.range n).map fun i => (List.range k).map fun j =>
    H.get i j * (0.5 + 0.5 * (spec_numerator W H n i j / spec_denominator H n k i j))

/-- Spec, step 5: the squared Frobenius norm of `A - B`, the sum of the squared
entries of the difference (no square root). -/
def spec_sq_norm_diff (A B : Mat α) (n k : Nat) : α :=
  ∑ i in Finset.range n, ∑ j in Finset.range k,
    (A.get i j - B.get i j) * (A.get i j - B.get i j)

/-- The squared change of `H` made by the `s`-th update (`s ≥ 1`) when the
updates start from `H0`. -/
def spec_sq_change (W : Mat α) (n k : Nat) (H0 : Mat α) (s : Nat) : α :=
  spec_sq_norm_diff ((spec_step W n k)^[s] H0) ((spec_step W n k)^[s - 1] H0) n k

end SpecSide

/-- Whether a double is a finite value (neither an infinity nor `NaN`). -/
def Dbl.isFin {α : Type} : Dbl α → Bool
  | Dbl.fin _ => true
  | _ => false

/-! ## Allocation and release: the matrices as heap objects

The definitions above follow the path on which every allocation succeeds.  The
definitions of this section follow the same C functions with their `NULL`
tests and `free_matrix` calls.  A matrix is an object of a heap; a `double**`
value is `NULL` or the number of an object; `create_matrix` succeeds or fails
as the heap's allocation plan says; indexing `NULL` or a released matrix, and
releasing a matrix twice, are faults that end the run. -/

namespace Mem

/-- A `double**` value: `none` is `NULL`, `some a` points to matrix object `a`. -/
abbrev Ptr := Option Nat

/-- The ways a run leaves defined behaviour. -/
inductive Fault where
  | nullIndex
  | useAfterFree
  | doubleFree
  deriving DecidableEq

/-- The heap: object `a` is `some M` while it is live with contents `M` and
`none` once released; `plan` lists the outcomes of the coming `create_matrix`
calls (`false`: `calloc` returns `NULL`), and allocation succeeds once the plan
is used up. -/
structure Heap (α : Type) where
  objs : List (Option (Mat α))
  plan : List Bool

variable {α : Type}

/-- The contents of object `a`, `none` when it is released or was never allocated. -/
def Heap.content (h : Heap α) (a : Nat) : Option (Mat α) :=
  h.objs.getD a none

/-- The heap with the contents of object `a` replaced. -/
def Heap.put (h : Heap α) (a : Nat) (c : Mat α) : Heap α :=
  { h with objs := h.objs.set a (some c) }

/-- The heap with object `a` released. -/
def Heap.release (h : Heap α) (a : Nat) : Heap α :=
  { h with objs := h.objs.set a none }

/-- The heap after a successful allocation of a new object with contents `c`. -/
def Heap.alloc (h : Heap α) (c : Mat α) : Heap α :=
  { objs := h.objs ++ [some c], plan := h.plan.tail }

/-- The heap after a failed allocation. -/
def Heap.refuse (h : Heap α) : Heap α :=
  { h with plan := h.plan.tail }

/-- A run: from a heap to a fault, or to a result and the heap it leaves. -/
def Exec (α β : Type) : Type :=
  Heap α → Except Fault (β × Heap α)

instance : Monad (Exec α) where
  pure x := fun h => Except.ok (x, h)
  bind m f := fun h =>
    match m h with
    | Except.error e => Except.error e
    | Except.ok (x, h') => f x h'

/-- The read `p[i][j]`. -/
def readCell [Zero α] (p : Ptr) (i j : Nat) : Exec α α := fun h =>
  match p with
  | none => Except.error Fault.nullIndex
  | some a =>
    match h.content a with
    | none => Except.error Fault.useAfterFree
    | some M => Except.ok (M.get i j, h)

/-- The write `p[i][j] = v`. -/
def writeCell (p : Ptr) (i j : Nat) (v : α) : Exec α Unit := fun h =>
  match p with
  | none => Except.error Fault.nullIndex
  | some a =>
    match h.content a with
    | none => Except.error Fault.useAfterFree
    | some M => Except.ok ((), h.put a (M.set i j v))

/-- The loop `for (i = 0; i < n; i++) body(i)`. -/
def forEach (n : Nat) (body : Nat → Exec α Unit) : Exec α Unit :=
  match n with
  | 0 => pure ()
  | n + 1 => do
    forEach n body
    body n

/-- The loop `for (i = 0; i < n; i++) s = body(i, s)` with a local variable `s`. -/
def forAcc {σ : Type} (n : Nat) (body : Nat → σ → Exec α σ) (s : σ) : Exec α σ :=
  match n with
  | 0 => pure s
  | n + 1 => do
    let s' ← forAcc n body s
    body n s'

/-- `create_matrix(n, k)`: `NULL` when the allocation fails (rows already
obtained are released inside the function), a new zero matrix otherwise. -/
def create_matrix [Zero α] (n k : Nat) : Exec α Ptr := fun h =>
  if h.plan.head? = some false then
    Except.ok (none, h.refuse)
  else
    Except.ok (some h.objs.length, h.alloc (SymNMF.create_matrix n k))

/-- `free_matrix(matrix, n)`: nothing for `NULL`, otherwise the rows and the
row table of the matrix are released. -/
def free_matrix (matrix : Ptr) (_n : Nat) : Exec α Unit := fun h =>
  match matrix with
  | none => Except.ok ((), h)
  | some a =>
    match h.content a with
    | none => Except.error Fault.doubleFree
    | some _ => Except.ok ((), h.release a)

/-- `mat_mult(M1, M2, n, m, q)` with its `NULL` test: when `create_matrix`
fails it releases `M1` and `M2` and returns `NULL`. -/
def mat_mult [Zero α] [Add α] [Mul α] (M1 M2 : Ptr) (n m q : Nat) : Exec α Ptr := do
  let M3 ← create_matrix n q
  if M3 = none then
    free_matrix M1 n
    free_matrix M2 m
    return none
  else
    forEach n fun i => forEach q fun j => writeCell M3 i j 0
    forEach n fun i => forEach q fun j => forEach m fun t => do
      let x ← readCell M3 i j
      let a ← readCell M1 i t
      let b ← readCell M2 t j
      writeCell M3 i j (x + a * b)
    return M3

/-- `transpose_matrix(M, n, m)` with its `NULL` test: when `create_matrix`
fails it releases `M` and returns `NULL`. -/
def transpose_matrix [Zero α] (M : Ptr) (n m : Nat) : Exec α Ptr := do
  let trans ← create_matrix m n
  if trans = none then
    free_matrix M n
    return none
  else
    forEach n fun i => forEach m fun j => do
      let x ← readCell M i j
      writeCell trans j i x
    return trans

/-- `forb(M, n, m)`: neither result is tested for `NULL` before it is used. -/
def forb [Zero α] [Add α] [Mul α] (M : Ptr) (n m : Nat) : Exec α α := do
  let trans_mat ← transpose_matrix M n m
  let temp_mat ← mat_mult trans_mat M m n m
  forAcc m (fun i trace => do
    let x ← readCell temp_mat i i
    return trace + x) 0

/-- The loop of `calcul` with `fuel = MAXITER - m` iterations left; the result
is the value `calcul` returns, `0` or `1`. -/
def calcul_loop [Zero α] [Add α] [Sub α] [Mul α] [Div α] [OfScientific α] [LT α]
    [DecidableRel (fun (x y : α) => x < y)]
    (fuel : Nat) (H W : Ptr) (n k : Nat) (_mone mechane old_H : Ptr) : Exec α Nat :=
  match fuel with
  | 0 => return 1
  | fuel + 1 => do
    forEach n fun i => forEach k fun j => do
      let x ← readCell H i j
      writeCell old_H i j x
    let mone ← mat_mult W old_H n n k
    if mone = none then
      (if H ≠ none then free_matrix H n else pure ())
      (if mechane ≠ none then free_matrix mechane n else pure ())
      return 0
    else
      let trans ← transpose_matrix old_H n k
      let prod ← mat_mult old_H trans n k n
      let mechane ← mat_mult prod old_H n n k
      if mechane = none then
        free_matrix H n
        free_matrix mone n
        return 0
      else
        forEach n fun i => forEach k fun j => do
          let o ← readCell old_H i j
          let a ← readCell mone i j
          let b ← readCell mechane i j
          writeCell H i j (o * (0.5 + 0.5 * (a / b)))
        forEach n fun i => forEach k fun j => do
          let x ← readCell H i j
          let o ← readCell old_H i j
          writeCell old_H i j (x - o)
        let f ← forb old_H n k
        if f < EPSILON then
          return 1
        else
          calcul_loop fuel H W n k mone mechane old_H

/-- `calcul(H, W, n, k, mone, mechane, old_H)`. -/
def calcul [Zero α] [Add α] [Sub α] [Mul α] [Div α] [OfScientific α] [LT α]
    [DecidableRel (fun (x y : α) => x < y)]
    (H W : Ptr) (n k : Nat) (mone mechane old_H : Ptr) : Exec α Nat :=
  calcul_loop MAXITER H W n k mone mechane old_H

/-- `opt_mat_with_H(H, W, n, k)` with its `NULL` tests. -/
def opt_mat_with_H [Zero α] [Add α] [Sub α] [Mul α] [Div α] [OfScientific α] [LT α]
    [DecidableRel (fun (x y : α) => x < y)]
    (H W : Ptr) (n k : Nat) : Exec α Ptr := do
  let mone : Ptr := none
  let mechane : Ptr := none
  let old_H ← create_matrix n k
  if old_H = none then
    free_matrix H n
    free_matrix W n
    return none
  else
    let r ← calcul H W n k mone mechane old_H
    if r = 0 then
      return none
    else
      free_matrix old_H n
      free_matrix mone n
      free_matrix mechane n
      return H

end Mem

/-! ## Generic facts about reads, writes and loops -/

section Basics

variable {α : Type}

theorem forLoop_succ {σ : Type} (n : Nat) (body : Nat → σ → σ) (s : σ) :
    forLoop (n + 1) body s = body n (forLoop n body s) := rfl

theorem forLoop_zero {σ : Type} (body : Nat → σ → σ) (s : σ) :
    forLoop 0 body s = s := rfl

theorem Mat.shape_create [Zero α] (n k : Nat) : (create_matrix n k : Mat α).Shape n k := by
  refine ⟨by simp [create_matrix], ?_⟩
  intro r hr
  simp only [create_matrix, List.mem_replicate] at hr
  rw [hr.2, List.length_replicate]

theorem Mat.get_create [Zero α] (n k i j : Nat) : (create_matrix n k : Mat α).get i j = 0 := by
  unfold Mat.get create_matrix
  rw [List.getD_eq_getElem?_getD, List.getD_eq_getElem?_getD, List.getElem?_replicate]
  by_cases hi : i < n
  · simp only [hi, if_true, Option.getD_some, List.getElem?_replicate]
    by_cases hj : j < k <;> simp [hj]
  · simp [hi]

theorem Mat.shape_set (M : Mat α) (n k i j : Nat) (v : α) (h : M.Shape n k) :
    (M.set i j v).Shape n k := by
  obtain ⟨hl, hr⟩ := h
  refine ⟨by simp [Mat.set, hl], ?_⟩
  intro r hmem
  unfold Mat.set at hmem
  by_cases hi : i < M.length
  · rcases List.mem_or_eq_of_mem_set hmem with h1 | h1
    · exact hr r h1
    · rw [h1, List.length_set, List.getD_eq_getElem?_getD, List.getElem?_eq_getElem hi,
        Option.getD_some]
      exact hr _ (List.getElem_mem hi)
  · rw [List.set_eq_of_length_le (Nat.le_of_not_lt hi)] at hmem
    exact hr r hmem

/-- Reading back after a write: the written cell holds the new value when the
write was in range, every other cell is unchanged. -/
theorem Mat.get_set [Zero α] (M : Mat α) (n k i j a b : Nat) (v : α) (h : M.Shape n k) :
    (M.set i j v).get a b = if a = i ∧ b = j ∧ i < n ∧ j < k then v else M.get a b := by
  obtain ⟨hl, hr⟩ := h
  unfold Mat.get Mat.set
  simp only [List.getD_eq_getElem?_getD, List.getElem?_set]
  by_cases hai : i = a
  · subst hai
    by_cases hi : i < M.length
    · have hrow : (M[i]).length = k := hr _ (List.getElem_mem hi)
      simp only [hi, if_true, Option.getD_some, List.getElem?_eq_getElem hi, List.getElem?_set,
        hrow]
      by_cases hbj : j = b
      · subst hbj
        by_cases hj : j < k
        · simp [hj, hl ▸ hi]
        · have : M[i][j]? = none := by
            rw [List.getElem?_eq_none_iff]; omega
          simp [hj, this]
      · have : ¬ b = j := fun h => hbj h.symm
        simp [hbj, this]
    · have hn : ¬ i < n := hl ▸ hi
      simp [hi, hn, List.getElem?_eq_none_iff.mpr (Nat.le_of_not_lt hi)]
  · have : ¬ a = i := fun h => hai h.symm
    simp [hai, this]

/-- Loops with bodies that agree on the indices below the bound agree. -/
theorem forLoop_congr {σ : Type} (n : Nat) (f g : Nat → σ → σ) (s : σ)
    (h : ∀ i, i < n → ∀ s, f i s = g i s) : forLoop n f s = forLoop n g s := by
  induction n with
  | zero => rfl
  | succ n ih =>
    rw [forLoop_succ, forLoop_succ, ih (fun i hi s => h i (Nat.lt_succ_of_lt hi) s),
      h n (Nat.lt_succ_self n)]

theorem forLoop_id {σ : Type} (n : Nat) (s : σ) : forLoop n (fun _ x => x) s = s := by
  induction n with
  | zero => rfl
  | succ n ih => rw [forLoop_succ, ih]

/-- A body guarded by a condition that does not depend on the index. -/
theorem forLoop_ite_const {σ : Type} (n : Nat) (c : Prop) [Decidable c] (F : Nat → σ → σ)
    (s : σ) :
    forLoop n (fun t x => if c then F t x else x) s = if c then forLoop n F s else s := by
  by_cases hc : c
  · simp only [hc, if_true]
  · simp only [hc, if_false]; exact forLoop_id n s

/-- A body that acts at one index only. -/
theorem forLoop_ite_eq {σ : Type} (n τ : Nat) (F : Nat → σ → σ) (s : σ) :
    forLoop n (fun t x => if t = τ then F t x else x) s = if τ < n then F τ s else s := by
  induction n with
  | zero => simp [forLoop_zero]
  | succ n ih =>
    rw [forLoop_succ, ih]
    by_cases h1 : n = τ
    · subst h1; simp
    · by_cases h2 : τ < n
      · simp [h1, h2, Nat.lt_succ_of_lt h2]
      · have h3 : ¬ τ < n + 1 := by omega
        simp [h1, h2, h3]

/-- A loop whose every iteration acts cell by cell acts cell by cell: the final
value of a cell is obtained by running the per-cell effects on its initial
value. -/
theorem forLoop_pointwise [Zero α] (n k cnt : Nat) (body : Nat → Mat α → Mat α)
    (E : Nat → Nat → Nat → α → α) (M : Mat α) (hM : M.Shape n k)
    (hbody : ∀ t, t < cnt → ∀ M : Mat α, M.Shape n k →
      (body t M).Shape n k ∧ ∀ a b, (body t M).get a b = E t a b (M.get a b)) :
    (forLoop cnt body M).Shape n k ∧
      ∀ a b, (forLoop cnt body M).get a b = forLoop cnt (fun t x => E t a b x) (M.get a b) := by
  induction cnt with
  | zero => exact ⟨hM, fun a b => rfl⟩
  | succ c ih =>
    have ih1 := ih (fun t ht M hM => hbody t (Nat.lt_succ_of_lt ht) M hM)
    have hb := hbody c (Nat.lt_succ_self c) _ ih1.1
    refine ⟨hb.1, fun a b => ?_⟩
    rw [forLoop_succ, forLoop_succ, hb.2 a b, ih1.2 a b]

/-- Two nested loops over the rows `i < n1` and the columns `j < k1` whose body
rewrites cell `(i, j)` from its own old value: every visited cell is rewritten
once, every other cell is kept. -/
theorem forLoop_cells [Zero α] (n k n1 k1 : Nat) (cell : Nat → Nat → Mat α → Mat α)
    (G : Nat → Nat → α → α) (M : Mat α) (hM : M.Shape n k)
    (hcell : ∀ i j, ∀ M : Mat α, M.Shape n k →
      (cell i j M).Shape n k ∧ ∀ a b, (cell i j M).get a b =
        if a = i ∧ b = j ∧ i < n ∧ j < k then G i j (M.get a b) else M.get a b) :
    (forLoop n1 (fun i M => forLoop k1 (fun j M => cell i j M) M) M).Shape n k ∧
      ∀ a b, (forLoop n1 (fun i M => forLoop k1 (fun j M => cell i j M) M) M).get a b =
        if (a < n1 ∧ b < k1) ∧ a < n ∧ b < k then G a b (M.get a b) else M.get a b := by
  have inner : ∀ i, ∀ M : Mat α, M.Shape n k →
      (forLoop k1 (fun j M => cell i j M) M).Shape n k ∧
        ∀ a b, (forLoop k1 (fun j M => cell i j M) M).get a b =
          if a = i then (if b < k1 ∧ a < n ∧ b < k then G a b (M.get a b) else M.get a b)
          else M.get a b := by
    intro i M hM
    have h := forLoop_pointwise n k k1 (fun j M => cell i j M)
      (fun j a b x => if a = i ∧ b = j ∧ i < n ∧ j < k then G i j x else x) M hM
      (fun j _ M hM => hcell i j M hM)
    refine ⟨h.1, fun a b => ?_⟩
    rw [h.2 a b]
    by_cases hai : a = i
    · subst hai
      rw [if_pos rfl]
      have : (fun (t : Nat) (x : α) => if a = a ∧ b = t ∧ a < n ∧ t < k then G a t x else x)
          = (fun t x => if t = b then (fun t x => if a < n ∧ b < k then G a b x else x) t x
              else x) := by
        funext t x
        by_cases htb : t = b
        · subst htb; simp
        · have : ¬ b = t := fun h => htb h.symm
          simp [htb, this]
      rw [this, forLoop_ite_eq]
      by_cases h1 : b < k1 <;> simp [h1]
    · rw [if_neg hai]
      have : (fun (t : Nat) (x : α) => if a = i ∧ b = t ∧ i < n ∧ t < k then G i t x else x)
          = (fun _ x => x) := by
        funext t x; simp [hai]
      rw [this, forLoop_id]
  have h := forLoop_pointwise n k n1 (fun i M => forLoop k1 (fun j M => cell i j M) M)
    (fun i a b x => if a = i then (if b < k1 ∧ a < n ∧ b < k then G a b x else x) else x)
    M hM (fun i _ M hM => inner i M hM)
  refine ⟨h.1, fun a b => ?_⟩
  rw [h.2 a b]
  have : (fun (t : Nat) (x : α) =>
      if a = t then (if b < k1 ∧ a < n ∧ b < k then G a b x else x) else x)
      = (fun t x => if t = a then
          (fun _ x => if b < k1 ∧ a < n ∧ b < k then G a b x else x) t x else x) := by
    funext t x
    by_cases hta : t = a
    · subst hta; simp
    · have : ¬ a = t := fun h => hta h.symm
      simp [hta, this]
  rw [this, forLoop_ite_eq]
  by_cases h1 : a < n1 <;> by_cases h2 : b < k1 <;> simp [h1, h2]

/-- The variant of `forLoop_cells` for a body that rewrites the mirrored cell
`(j, i)`, as the transposition loop does. -/
theorem forLoop_cells_swap [Zero α] (n k n1 k1 : Nat) (cell : Nat → Nat → Mat α → Mat α)
    (G : Nat → Nat → α → α) (M : Mat α) (hM : M.Shape n k)
    (hcell : ∀ i j, ∀ M : Mat α, M.Shape n k →
      (cell i j M).Shape n k ∧ ∀ a b, (cell i j M).get a b =
        if a = j ∧ b = i ∧ j < n ∧ i < k then G i j (M.get a b) else M.get a b) :
    (forLoop n1 (fun i M => forLoop k1 (fun j M => cell i j M) M) M).Shape n k ∧
      ∀ a b, (forLoop n1 (fun i M => forLoop k1 (fun j M => cell i j M) M) M).get a b =
        if (b < n1 ∧ a < k1) ∧ a < n ∧ b < k then G b a (M.get a b) else M.get a b := by
  have inner : ∀ i, ∀ M : Mat α, M.Shape n k →
      (forLoop k1 (fun j M => cell i j M) M).Shape n k ∧
        ∀ a b, (forLoop k1 (fun j M => cell i j M) M).get a b =
          if b = i then (if a < k1 ∧ a < n ∧ b < k then G b a (M.get a b) else M.get a b)
          else M.get a b := by
    intro i M hM
    have h := forLoop_pointwise n k k1 (fun j M => cell i j M)
      (fun j a b x => if a = j ∧ b = i ∧ j < n ∧ i < k then G i j x else x) M hM
      (fun j _ M hM => hcell i j M hM)
    refine ⟨h.1, fun a b => ?_⟩
    rw [h.2 a b]
    by_cases hbi : b = i
    · subst hbi
      rw [if_pos rfl]
      have : (fun (t : Nat) (x : α) => if a = t ∧ b = b ∧ t < n ∧ b < k then G b t x else x)
          = (fun t x => if t = a then (fun _ x => if a < n ∧ b < k then G b a x else x) t x
              else x) := by
        funext t x
        by_cases hta : t = a
        · subst hta; simp
        · have : ¬ a = t := fun h => hta h.symm
          simp [hta, this]
      rw [this, forLoop_ite_eq]
      by_cases h1 : a < k1 <;> simp [h1]
    · rw [if_neg hbi]
      have : (fun (t : Nat) (x : α) => if a = t ∧ b = i ∧ t < n ∧ i < k then G i t x else x)
          = (fun _ x => x) := by
        funext t x; simp [hbi]
      rw [this, forLoop_id]
  have h := forLoop_pointwise n k n1 (fun i M => forLoop k1 (fun j M => cell i j M) M)
    (fun i a b x => if b = i then (if a < k1 ∧ a < n ∧ b < k then G b a x else x) else x)
    M hM (fun i _ M hM => inner i M hM)
  refine ⟨h.1, fun a b => ?_⟩
  rw [h.2 a b]
  have : (fun (t : Nat) (x : α) =>
      if b = t then (if a < k1 ∧ a < n ∧ b < k then G b a x else x) else x)
      = (fun t x => if t = b then
          (fun _ x => if a < k1 ∧ a < n ∧ b < k then G b a x else x) t x else x) := by
    funext t x
    by_cases htb : t = b
    · subst htb; simp
    · have : ¬ b = t := fun h => htb h.symm
      simp [htb, this]
  rw [this, forLoop_ite_eq]
  by_cases h1 : b < n1 <;> by_cases h2 : a < k1 <;> simp [h1, h2]

/-- A single write, in the form the loop lemmas ask for. -/
theorem Mat.set_cell [Zero α] (M : Mat α) (n k i j : Nat) (v : α) (h : M.Shape n k) :
    (M.set i j v).Shape n k ∧ ∀ a b, (M.set i j v).get a b =
      if a = i ∧ b = j ∧ i < n ∧ j < k then (fun _ => v) (M.get a b) else M.get a b :=
  ⟨Mat.shape_set M n k i j v h, fun a b => Mat.get_set M n k i j a b v h⟩

end Basics

/-! ## What the matrix routines compute, for any arithmetic -/

section Routines

variable {α : Type}

/-- The running sum `((s + c 0) + c 1) + ... + c (m-1)` that an accumulation
loop leaves in its accumulator. -/
theorem forLoop_acc_eq_sum [AddCommMonoid α] (m : Nat) (c : Nat → α) (s : α) :
    forLoop m (fun t x => x + c t) s = s + ∑ t in Finset.range m, c t := by
  induction m with
  | zero => simp [forLoop_zero]
  | succ m ih => rw [forLoop_succ, ih, Finset.sum_range_succ, add_assoc]

/-- The entries of `mat_mult`, as the accumulation loop leaves them. -/
theorem mat_mult_spec [Zero α] [Add α] [Mul α] (M1 M2 : Mat α) (n m q : Nat) :
    (mat_mult M1 M2 n m q).Shape n q ∧
      ∀ a b, (mat_mult M1 M2 n m q).get a b =
        if a < n ∧ b < q then forLoop m (fun t x => x + M1.get a t * M2.get t b) 0 else 0 := by
  have hz := forLoop_cells n q n q (fun i j (M : Mat α) => M.set i j 0) (fun _ _ _ => 0)
    (create_matrix n q) (Mat.shape_create n q)
    (fun i j M hM => Mat.set_cell M n q i j 0 hM)
  have hacc := forLoop_cells n q n q
    (fun i j (M : Mat α) =>
      forLoop m (fun t M3 => M3.set i j (M3.get i j + M1.get i t * M2.get t j)) M)
    (fun i j x => forLoop m (fun t x => x + M1.get i t * M2.get t j) x)
    _ hz.1
    (by
      intro i j M hM
      have h := forLoop_pointwise n q m
        (fun t (M3 : Mat α) => M3.set i j (M3.get i j + M1.get i t * M2.get t j))
        (fun t a b x => if a = i ∧ b = j ∧ i < n ∧ j < q then x + M1.get i t * M2.get t j else x)
        M hM
        (by
          intro t _ M hM
          refine ⟨Mat.shape_set M n q i j _ hM, fun a b => ?_⟩
          rw [Mat.get_set M n q i j a b _ hM]
          beta_reduce
          by_cases hc : a = i ∧ b = j ∧ i < n ∧ j < q
          · rw [if_pos hc, if_pos hc, hc.1, hc.2.1]
          · rw [if_neg hc, if_neg hc])
      refine ⟨h.1, fun a b => ?_⟩
      rw [h.2 a b, forLoop_ite_const])
  refine ⟨hacc.1, fun a b => ?_⟩
  unfold mat_mult
  rw [hacc.2 a b, hz.2 a b, Mat.get_create]
  by_cases h : a < n ∧ b < q
  · simp [h]
  · have : ¬ ((a < n ∧ b < q) ∧ a < n ∧ b < q) := fun hh => h hh.1
    simp [h, this]

/-- The entries of `transpose_matrix`. -/
theorem transpose_matrix_spec [Zero α] (M : Mat α) (n m : Nat) :
    (transpose_matrix M n m).Shape m n ∧
      ∀ a b, (transpose_matrix M n m).get a b = if a < m ∧ b < n then M.get b a else 0 := by
  have h := forLoop_cells_swap m n n m (fun i j (T : Mat α) => T.set j i (M.get i j))
    (fun i j _ => M.get i j) (create_matrix m n) (Mat.shape_create m n)
    (fun i j T hT => ⟨Mat.shape_set T m n j i _ hT, fun a b => Mat.get_set T m n j i a b _ hT⟩)
  refine ⟨h.1, fun a b => ?_⟩
  unfold transpose_matrix
  rw [h.2 a b, Mat.get_create]
  by_cases h1 : a < m <;> by_cases h2 : b < n <;> simp [h1, h2]

/-- The state of the outer loop of `diag_mat` after `cnt` rows: `row_sum` is
back to zero and the first `cnt` diagonal cells hold their row sums. -/
theorem diag_mat_loop [Zero α] [Add α] (A : Mat α) (n cnt : Nat) :
    let st := forLoop cnt (fun i (st : α × Mat α) =>
      ((0 : α), st.2.set i i (forLoop n (fun j row_sum => row_sum + A.get i j) st.1)))
      ((0 : α), (create_matrix n n : Mat α))
    st.1 = 0 ∧ st.2.Shape n n ∧
      ∀ a b, st.2.get a b =
        if a = b ∧ a < cnt ∧ a < n then forLoop n (fun j s => s + A.get a j) 0 else 0 := by
  induction cnt with
  | zero =>
    refine ⟨rfl, Mat.shape_create n n, fun a b => ?_⟩
    simp only [forLoop_zero, Mat.get_create]
    simp
  | succ c ih =>
    obtain ⟨h1, h2, h3⟩ := ih
    refine ⟨rfl, ?_, fun a b => ?_⟩
    · simp only [forLoop_succ]
      exact Mat.shape_set _ n n c c _ h2
    · simp only [forLoop_succ]
      rw [Mat.get_set _ n n c c a b _ h2, h1, h3 a b]
      by_cases hac : a = c
      · subst hac
        by_cases hab : b = a
        · subst hab
          by_cases hn : b < n
          · simp [hn]
          · simp [hn]
        · have : ¬ a = b := fun h => hab h.symm
          simp [hab, this]
      · by_cases hab : a = b
        · subst hab
          have : (a < c + 1) ↔ a < c := by omega
          simp [hac, this]
        · simp [hac, hab]

/-- The entries of `diag_mat`. -/
theorem diag_mat_spec [Zero α] [Add α] (A : Mat α) (n : Nat) :
    (diag_mat A n).Shape n n ∧
      ∀ a b, (diag_mat A n).get a b =
        if a = b ∧ a < n then forLoop n (fun j s => s + A.get a j) 0 else 0 := by
  have h := diag_mat_loop A n n
  refine ⟨h.2.1, fun a b => ?_⟩
  have h3 := h.2.2 a b
  unfold diag_mat
  rw [h3]
  by_cases h1 : a = b <;> by_cases h2 : a < n <;> simp [h1, h2]

/-- The trace loop of `forb`, for any arithmetic. -/
theorem forb_spec [Zero α] [Add α] [Mul α] (M : Mat α) (n m : Nat) :
    forb M n m = forLoop m (fun j trace =>
      trace + forLoop n (fun t x => x + M.get t j * M.get t j) 0) 0 := by
  unfold forb
  apply forLoop_congr
  intro j hj trace
  rw [(mat_mult_spec (transpose_matrix M n m) M m n m).2 j j, if_pos ⟨hj, hj⟩]
  congr 1
  apply forLoop_congr
  intro t ht x
  rw [(transpose_matrix_spec M n m).2 j t, if_pos ⟨hj, ht⟩]

/-- The entries of `sym_mat`, for any arithmetic and any `exp`. -/
theorem sym_mat_spec [Zero α] [Add α] [Sub α] [Mul α] [Neg α] [OfScientific α] [HPow α Nat α]
    (exp : α → α) (points : Mat α) (n dim : Nat) :
    (sym_mat exp points n dim).Shape n n ∧
      ∀ a b, (sym_mat exp points n dim).get a b =
        if a < n ∧ b < n then
          (if a ≠ b then
            exp ((-0.5) * squared_euc_dis (points.getD a []) (points.getD b []) dim)
          else 0)
        else 0 := by
  have h := forLoop_cells n n n n
    (fun i j (A : Mat α) =>
      if i ≠ j then
        A.set i j (exp ((-0.5) * squared_euc_dis (points.getD i []) (points.getD j []) dim))
      else A.set i j 0)
    (fun i j _ =>
      if i ≠ j then exp ((-0.5) * squared_euc_dis (points.getD i []) (points.getD j []) dim)
      else 0)
    (create_matrix n n) (Mat.shape_create n n)
    (by
      intro i j M hM
      by_cases hij : i ≠ j
      · simp only [if_pos hij]
        exact ⟨Mat.shape_set M n n i j _ hM, fun a b => Mat.get_set M n n i j a b _ hM⟩
      · simp only [if_neg hij]
        exact ⟨Mat.shape_set M n n i j _ hM, fun a b => Mat.get_set M n n i j a b _ hM⟩)
  refine ⟨h.1, fun a b => ?_⟩
  unfold sym_mat
  rw [h.2 a b, Mat.get_create]
  by_cases h1 : a < n <;> by_cases h2 : b < n <;> simp [h1, h2]

/-- A loop that writes `v i` into the diagonal cell `(i, i)` of a fresh zero
matrix, as `norm_mat` does to build `rev_sqr_D`. -/
theorem diag_fill_spec [Zero α] (v : Nat → α) (n cnt : Nat) :
    (forLoop cnt (fun i (R : Mat α) => R.set i i (v i)) (create_matrix n n)).Shape n n ∧
      ∀ a b, (forLoop cnt (fun i (R : Mat α) => R.set i i (v i)) (create_matrix n n)).get a b =
        if a = b ∧ a < cnt ∧ a < n then v a else 0 := by
  induction cnt with
  | zero =>
    refine ⟨Mat.shape_create n n, fun a b => ?_⟩
    simp [forLoop_zero, Mat.get_create]
  | succ c ih =>
    obtain ⟨h2, h3⟩ := ih
    refine ⟨Mat.shape_set _ n n c c _ h2, fun a b => ?_⟩
    rw [forLoop_succ, Mat.get_set _ n n c c a b _ h2, h3 a b]
    by_cases hac : a = c
    · subst hac
      by_cases hab : b = a
      · subst hab
        by_cases hn : b < n <;> simp [hn]
      · have : ¬ a = b := fun h => hab h.symm
        simp [hab, this]
    · by_cases hab : a = b
      · subst hab
        have : (a < c + 1) ↔ a < c := by omega
        simp [hac, this]
      · simp [hac, hab]

/-- The entries of `norm_mat` over a field: the two products with the diagonal
matrix `rev_sqr_D` scale entry `(i, j)` of `A` by `1/sqrt(D[i][i])` from the
left and by `1/sqrt(D[j][j])` from the right. -/
theorem norm_mat_spec [Field α] (sqrt : α → α) (D A : Mat α) (n : Nat) :
    (norm_mat sqrt D A n).Shape n n ∧
      ∀ i j, i < n → j < n → (norm_mat sqrt D A n).get i j =
        1 / sqrt (D.get i i) * A.get i j * (1 / sqrt (D.get j j)) := by
  have hR := diag_fill_spec (fun i => 1 / sqrt (D.get i i)) n n
  have hT := mat_mult_spec
    (forLoop n (fun i (R : Mat α) => R.set i i (1 / sqrt (D.get i i))) (create_matrix n n)) A n n n
  have hW := mat_mult_spec
    (mat_mult (forLoop n (fun i (R : Mat α) => R.set i i (1 / sqrt (D.get i i)))
      (create_matrix n n)) A n n n)
    (forLoop n (fun i (R : Mat α) => R.set i i (1 / sqrt (D.get i i))) (create_matrix n n)) n n n
  refine ⟨hW.1, fun i j hi hj => ?_⟩
  unfold norm_mat
  rw [hW.2 i j, if_pos ⟨hi, hj⟩, forLoop_acc_eq_sum, zero_add,
    Finset.sum_eq_single j]
  · rw [hT.2 i j, if_pos ⟨hi, hj⟩, forLoop_acc_eq_sum, zero_add, Finset.sum_eq_single i]
    · rw [hR.2 i i, hR.2 j j, if_pos ⟨rfl, hi, hi⟩, if_pos ⟨rfl, hj, hj⟩]
    · intro s _ hsi
      rw [hR.2 i s, if_neg (fun hh => hsi hh.1.symm), zero_mul]
    · intro hni
      exact absurd (Finset.mem_range.mpr hi) hni
  · intro t _ htj
    rw [hR.2 t j, if_neg (fun hh => htj hh.1), mul_zero]
  · intro hnj
    exact absurd (Finset.mem_range.mpr hj) hnj

end Routines


/-! ## The optimizer, for any arithmetic -/

section Optimizer

variable {α : Type}

/-- Two matrices of the same shape with the same entries are the same list. -/
theorem Mat.ext [Zero α] (M N : Mat α) (n k : Nat) (hM : M.Shape n k) (hN : N.Shape n k)
    (h : ∀ i j, i < n → j < k → M.get i j = N.get i j) : M = N := by
  obtain ⟨hMl, hMr⟩ := hM
  obtain ⟨hNl, hNr⟩ := hN
  apply List.ext_getElem (by rw [hMl, hNl])
  intro i hi1 hi2
  have hr1 : (M[i]).length = k := hMr _ (List.getElem_mem hi1)
  have hr2 : (N[i]).length = k := hNr _ (List.getElem_mem hi2)
  apply List.ext_getElem (by rw [hr1, hr2])
  intro j hj1 hj2
  have := h i j (hMl ▸ hi1) (hr1 ▸ hj1)
  unfold Mat.get at this
  simpa [List.getD_eq_getElem?_getD, List.getElem?_eq_getElem hi1,
    List.getElem?_eq_getElem hi2, List.getElem?_eq_getElem hj1,
    List.getElem?_eq_getElem hj2] using this

/-- The copy loop at the head of an iteration of `calcul` leaves `old_H` equal
to `H`. -/
theorem copy_loop_eq [Zero α] (H old_H : Mat α) (n k : Nat) (hH : H.Shape n k)
    (hO : old_H.Shape n k) :
    forLoop n (fun i old_H =>
      forLoop k (fun j (old_H : Mat α) => old_H.set i j (H.get i j)) old_H) old_H = H := by
  have h := forLoop_cells n k n k (fun i j (O : Mat α) => O.set i j (H.get i j))
    (fun i j _ => H.get i j) old_H hO
    (fun i j O hO => ⟨Mat.shape_set O n k i j _ hO, fun a b => Mat.get_set O n k i j a b _ hO⟩)
  apply Mat.ext _ _ n k h.1 hH
  intro i j hi hj
  rw [h.2 i j, if_pos ⟨⟨hi, hj⟩, hi, hj⟩]

/-- What one iteration of `calcul` leaves in `H` and `old_H`: every cell of `H`
is rescaled by `0.5 + 0.5 * (mone / mechane)`, and `old_H` holds the change. -/
theorem calcul_iter_spec [Zero α] [Add α] [Sub α] [Mul α] [Div α] [OfScientific α]
    (H W old_H : Mat α) (n k : Nat) (hH : H.Shape n k) (hO : old_H.Shape n k) :
    (calcul_iter H W old_H n k).1.Shape n k ∧ (calcul_iter H W old_H n k).2.Shape n k ∧
    (∀ i j, i < n → j < k →
      (calcul_iter H W old_H n k).1.get i j =
        H.get i j * (0.5 + 0.5 * ((mat_mult W H n n k).get i j /
          (mat_mult (mat_mult H (transpose_matrix H n k) n k n) H n n k).get i j))) ∧
    (∀ i j, i < n → j < k →
      (calcul_iter H W old_H n k).2.get i j =
        (calcul_iter H W old_H n k).1.get i j - H.get i j) := by
  unfold calcul_iter
  simp only [copy_loop_eq H old_H n k hH hO]
  have hU := forLoop_cells n k n k
    (fun i j (X : Mat α) => X.set i j (H.get i j * (0.5 + 0.5 * ((mat_mult W H n n k).get i j /
      (mat_mult (mat_mult H (transpose_matrix H n k) n k n) H n n k).get i j))))
    (fun i j _ => H.get i j * (0.5 + 0.5 * ((mat_mult W H n n k).get i j /
      (mat_mult (mat_mult H (transpose_matrix H n k) n k n) H n n k).get i j)))
    H hH
    (fun i j X hX => ⟨Mat.shape_set X n k i j _ hX, fun a b => Mat.get_set X n k i j a b _ hX⟩)
  have hD := forLoop_cells n k n k
    (fun i j (X : Mat α) => X.set i j
      ((forLoop n (fun i H' =>
        forLoop k (fun j (H' : Mat α) =>
          H'.set i j (H.get i j * (0.5 + 0.5 * ((mat_mult W H n n k).get i j /
            (mat_mult (mat_mult H (transpose_matrix H n k) n k n) H n n k).get i j)))) H')
        H).get i j - X.get i j))
    (fun i j x => (forLoop n (fun i H' =>
        forLoop k (fun j (H' : Mat α) =>
          H'.set i j (H.get i j * (0.5 + 0.5 * ((mat_mult W H n n k).get i j /
            (mat_mult (mat_mult H (transpose_matrix H n k) n k n) H n n k).get i j)))) H')
        H).get i j - x)
    H hH
    (by
      intro i j X hX
      refine ⟨Mat.shape_set X n k i j _ hX, fun a b => ?_⟩
      rw [Mat.get_set X n k i j a b _ hX]
      by_cases hc : a = i ∧ b = j ∧ i < n ∧ j < k
      · rw [if_pos hc, if_pos hc, hc.1, hc.2.1]
      · rw [if_neg hc, if_neg hc])
  refine ⟨hU.1, hD.1, fun i j hi hj => ?_, fun i j hi hj => ?_⟩
  · rw [hU.2 i j, if_pos ⟨⟨hi, hj⟩, hi, hj⟩]
  · rw [hD.2 i j, if_pos ⟨⟨hi, hj⟩, hi, hj⟩]

/-- The trace that `forb` returns, as a sum over all entries. -/
theorem forb_sum [AddCommMonoid α] [Mul α] (M : Mat α) (n m : Nat) :
    forb M n m = ∑ i in Finset.range n, ∑ j in Finset.range m, M.get i j * M.get i j := by
  rw [forb_spec, forLoop_acc_eq_sum, zero_add, Finset.sum_comm]
  apply Finset.sum_congr rfl
  intro j _
  rw [forLoop_acc_eq_sum, zero_add]

/-- The entries of `mone`: the numerator of the specification. -/
theorem mone_entry [AddCommMonoid α] [Mul α] (W H : Mat α) (n k i j : Nat)
    (hi : i < n) (hj : j < k) :
    (mat_mult W H n n k).get i j = ∑ t in Finset.range n, W.get i t * H.get t j := by
  rw [(mat_mult_spec W H n n k).2 i j, if_pos ⟨hi, hj⟩, forLoop_acc_eq_sum, zero_add]

/-- The entries of `mechane`: the denominator of the specification. -/
theorem mechane_entry [AddCommMonoid α] [Mul α] (H : Mat α) (n k i j : Nat)
    (hi : i < n) (hj : j < k) :
    (mat_mult (mat_mult H (transpose_matrix H n k) n k n) H n n k).get i j
      = ∑ l in Finset.range n, (∑ c in Finset.range k, H.get i c * H.get l c) * H.get l j := by
  rw [(mat_mult_spec _ H n n k).2 i j, if_pos ⟨hi, hj⟩, forLoop_acc_eq_sum, zero_add]
  apply Finset.sum_congr rfl
  intro l hl
  have hl' : l < n := Finset.mem_range.mp hl
  rw [(mat_mult_spec H (transpose_matrix H n k) n k n).2 i l, if_pos ⟨hi, hl'⟩,
    forLoop_acc_eq_sum, zero_add]
  congr 1
  apply Finset.sum_congr rfl
  intro c hc
  rw [(transpose_matrix_spec H n k).2 c l, if_pos ⟨Finset.mem_range.mp hc, hl'⟩]

/-- The entries of `H` after one iteration of `calcul`, with the two products
written out. -/
theorem calcul_iter_entry [AddCommMonoid α] [Sub α] [Mul α] [Div α] [OfScientific α]
    (H W old_H : Mat α) (n k : Nat) (hH : H.Shape n k) (hO : old_H.Shape n k)
    (i j : Nat) (hi : i < n) (hj : j < k) :
    (calcul_iter H W old_H n k).1.get i j =
      H.get i j * (0.5 + 0.5 * ((∑ t in Finset.range n, W.get i t * H.get t j) /
        (∑ l in Finset.range n, (∑ c in Finset.range k, H.get i c * H.get l c) * H.get l j))) := by
  rw [(calcul_iter_spec H W old_H n k hH hO).2.2.1 i j hi hj, mone_entry W H n k i j hi hj,
    mechane_entry H n k i j hi hj]

theorem spec_step_shape [AddCommMonoid α] [Sub α] [Mul α] [Div α] [OfScientific α]
    (W H : Mat α) (n k : Nat) : (spec_step W n k H).Shape n k := by
  refine ⟨by simp [spec_step], ?_⟩
  intro r hr
  simp only [spec_step, List.mem_map] at hr
  obtain ⟨i, _, rfl⟩ := hr
  simp

theorem spec_step_get [AddCommMonoid α] [Sub α] [Mul α] [Div α] [OfScientific α]
    (W H : Mat α) (n k i j : Nat) (hi : i < n) (hj : j < k) :
    (spec_step W n k H).get i j =
      H.get i j * (0.5 + 0.5 * (spec_numerator W H n i j / spec_denominator H n k i j)) := by
  unfold spec_step Mat.get
  simp [List.getD_eq_getElem?_getD, hi, hj]

/-- One iteration of `calcul` performs the update of the specification and
leaves the change in `old_H`. -/
theorem calcul_iter_eq_spec [AddCommMonoid α] [Sub α] [Mul α] [Div α] [OfScientific α]
    (H W old_H : Mat α) (n k : Nat) (hH : H.Shape n k) (hO : old_H.Shape n k) :
    (calcul_iter H W old_H n k).1 = spec_step W n k H ∧
      (calcul_iter H W old_H n k).2.Shape n k ∧
      forb (calcul_iter H W old_H n k).2 n k = spec_sq_norm_diff (spec_step W n k H) H n k := by
  have h := calcul_iter_spec H W old_H n k hH hO
  have e1 : (calcul_iter H W old_H n k).1 = spec_step W n k H := by
    apply Mat.ext _ _ n k h.1 (spec_step_shape W H n k)
    intro i j hi hj
    rw [calcul_iter_entry H W old_H n k hH hO i j hi hj, spec_step_get W H n k i j hi hj]
    rfl
  refine ⟨e1, h.2.1, ?_⟩
  rw [forb_sum]
  unfold spec_sq_norm_diff
  apply Finset.sum_congr rfl
  intro i hi
  apply Finset.sum_congr rfl
  intro j hj
  rw [h.2.2.2 i j (Finset.mem_range.mp hi) (Finset.mem_range.mp hj), e1]

/-- The change made by update `s + 1` from `H` is the change made by update
`s` from the once-updated matrix. -/
theorem spec_sq_change_shift [AddCommMonoid α] [Sub α] [Mul α] [Div α] [OfScientific α]
    (W H : Mat α) (n k s : Nat) (hs : 1 ≤ s) :
    spec_sq_change W n k H (s + 1) = spec_sq_change W n k (spec_step W n k H) s := by
  unfold spec_sq_change
  have e : s + 1 - 1 = (s - 1) + 1 := by omega
  rw [e, Function.iterate_succ_apply, Function.iterate_succ_apply]

/-- The loop of `calcul` against the specification: started with `fuel`
iterations left, it performs some number `t` of updates of the specification,
none of the first `t - 1` of which met the threshold, and it either left by
`break` at an update that met the threshold or ran all `fuel` iterations. -/
theorem calcul_loop_spec [AddCommMonoid α] [Sub α] [Mul α] [Div α] [OfScientific α] [LT α]
    [DecidableRel (fun (x y : α) => x < y)] (W : Mat α) (n k : Nat) :
    ∀ (fuel m : Nat) (H old_H : Mat α), H.Shape n k → old_H.Shape n k →
      ∃ t, t ≤ fuel ∧ (0 < fuel → 1 ≤ t) ∧
        (calcul_loop fuel m H W old_H n k).H = (spec_step W n k)^[t] H ∧
        (∀ s, 1 ≤ s → s < t → ¬ spec_sq_change W n k H s < EPSILON) ∧
        (((calcul_loop fuel m H W old_H n k).broke = true ∧ 1 ≤ t ∧
            spec_sq_change W n k H t < EPSILON ∧
            (calcul_loop fuel m H W old_H n k).m + 1 = m + t) ∨
          ((calcul_loop fuel m H W old_H n k).broke = false ∧ t = fuel ∧
            (1 ≤ t → ¬ spec_sq_change W n k H t < EPSILON) ∧
            (calcul_loop fuel m H W old_H n k).m = m + fuel)) := by
  intro fuel
  induction fuel with
  | zero =>
    intro m H old_H _ _
    refine ⟨0, Nat.le_refl 0, fun h => absurd h (Nat.lt_irrefl 0), rfl, ?_, Or.inr ?_⟩
    · intro s h1 h2; omega
    · exact ⟨rfl, rfl, fun h => absurd h (by omega), rfl⟩
  | succ fuel ih =>
    intro m H old_H hH hO
    obtain ⟨e1, e2, e3⟩ := calcul_iter_eq_spec H W old_H n k hH hO
    have hchg1 : spec_sq_change W n k H 1 = spec_sq_norm_diff (spec_step W n k H) H n k := rfl
    by_cases hc : forb (calcul_iter H W old_H n k).2 n k < EPSILON
    · have hl : calcul_loop (fuel + 1) m H W old_H n k =
          { H := (calcul_iter H W old_H n k).1, old_H := (calcul_iter H W old_H n k).2,
            m := m, broke := true } := by
        simp only [calcul_loop, if_pos hc]
      rw [hl]
      refine ⟨1, by omega, fun _ => Nat.le_refl 1, ?_, ?_, Or.inl ⟨rfl, Nat.le_refl 1, ?_, rfl⟩⟩
      · simpa using e1
      · intro s h1 h2; omega
      · rw [hchg1, ← e3]; exact hc
    · have hl : calcul_loop (fuel + 1) m H W old_H n k =
          calcul_loop fuel (m + 1) (calcul_iter H W old_H n k).1 W
            (calcul_iter H W old_H n k).2 n k := by
        simp only [calcul_loop, if_neg hc]
      rw [hl]
      have hS : (calcul_iter H W old_H n k).1.Shape n k := e1 ▸ spec_step_shape W H n k
      obtain ⟨t, ht1, ht2, ht3, ht4, ht5⟩ := ih (m + 1) _ _ hS e2
      have hn1 : ¬ spec_sq_change W n k H 1 < EPSILON := by
        rw [hchg1, ← e3]; exact hc
      refine ⟨t + 1, by omega, fun _ => by omega, ?_, ?_, ?_⟩
      · rw [ht3, e1, Function.iterate_succ_apply]
      · intro s h1 h2
        by_cases hs1 : s = 1
        · rw [hs1]; exact hn1
        · obtain ⟨s', rfl⟩ : ∃ s', s = s' + 1 := ⟨s - 1, by omega⟩
          rw [spec_sq_change_shift W H n k s' (by omega), ← e1]
          exact ht4 s' (by omega) (by omega)
      · rcases ht5 with ⟨hb, hb1, hb2, hb3⟩ | ⟨hb, hb1, hb2, hb3⟩
        · refine Or.inl ⟨hb, by omega, ?_, by omega⟩
          rw [spec_sq_change_shift W H n k t hb1, ← e1]
          exact hb2
        · refine Or.inr ⟨hb, by omega, ?_, by omega⟩
          intro _
          by_cases ht0 : t = 0
          · rw [ht0]; exact hn1
          · rw [spec_sq_change_shift W H n k t (by omega), ← e1]
            exact hb2 (by omega)

/-- One turn of the loop of `calcul`. -/
theorem calcul_loop_unfold [Zero α] [Add α] [Sub α] [Mul α] [Div α] [OfScientific α] [LT α]
    [DecidableRel (fun (x y : α) => x < y)] (fuel m : Nat) (H W old_H : Mat α) (n k : Nat) :
    calcul_loop (fuel + 1) m H W old_H n k =
      if forb (calcul_iter H W old_H n k).2 n k < EPSILON then
        { H := (calcul_iter H W old_H n k).1, old_H := (calcul_iter H W old_H n k).2,
          m := m, broke := true }
      else
        calcul_loop fuel (m + 1) (calcul_iter H W old_H n k).1 W
          (calcul_iter H W old_H n k).2 n k := rfl

/-- Running the loop of `calcul` for one more iteration: a run that has left by
`break` stays as it is, any other run performs one further iteration from
where it stands.  So `calcul_loop t 0 ...` is the state of `calcul` after its
first `t` iterations (or at its `break`, if that came earlier). -/
theorem calcul_loop_succ [Zero α] [Add α] [Sub α] [Mul α] [Div α] [OfScientific α] [LT α]
    [DecidableRel (fun (x y : α) => x < y)] (W : Mat α) (n k : Nat) :
    ∀ (t m : Nat) (H old_H : Mat α),
      calcul_loop (t + 1) m H W old_H n k =
        if (calcul_loop t m H W old_H n k).broke = true then calcul_loop t m H W old_H n k
        else
          { H := (calcul_iter (calcul_loop t m H W old_H n k).H W
              (calcul_loop t m H W old_H n k).old_H n k).1,
            old_H := (calcul_iter (calcul_loop t m H W old_H n k).H W
              (calcul_loop t m H W old_H n k).old_H n k).2,
            m := if forb (calcul_iter (calcul_loop t m H W old_H n k).H W
                (calcul_loop t m H W old_H n k).old_H n k).2 n k < EPSILON
              then (calcul_loop t m H W old_H n k).m
              else (calcul_loop t m H W old_H n k).m + 1,
            broke := decide (forb (calcul_iter (calcul_loop t m H W old_H n k).H W
                (calcul_loop t m H W old_H n k).old_H n k).2 n k < EPSILON) } := by
  intro t
  induction t with
  | zero =>
    intro m H old_H
    by_cases hc : forb (calcul_iter H W old_H n k).2 n k < EPSILON
    · simp [calcul_loop, hc]
    · simp [calcul_loop, hc]
  | succ t ih =>
    intro m H old_H
    by_cases hc : forb (calcul_iter H W old_H n k).2 n k < EPSILON
    · have h1 : ∀ f, calcul_loop (f + 1) m H W old_H n k =
          { H := (calcul_iter H W old_H n k).1, old_H := (calcul_iter H W old_H n k).2,
            m := m, broke := true } := by
        intro f; simp only [calcul_loop, if_pos hc]
      rw [h1 (t + 1), h1 t]
      simp
    · have h1 : ∀ f, calcul_loop (f + 1) m H W old_H n k =
          calcul_loop f (m + 1) (calcul_iter H W old_H n k).1 W
            (calcul_iter H W old_H n k).2 n k := by
        intro f; simp only [calcul_loop, if_neg hc]
      rw [h1 (t + 1), h1 t]
      exact ih (m + 1) _ _

/-- Over an ordered field, one iteration of `calcul` keeps a non-negative `H`
non-negative when `W` is non-negative and every denominator is positive. -/
theorem calcul_iter_nonneg [LinearOrderedField α] (H W old_H : Mat α) (n k : Nat)
    (hH : H.Shape n k) (hO : old_H.Shape n k)
    (hH0 : ∀ i j, i < n → j < k → 0 ≤ H.get i j)
    (hW : ∀ i t, i < n → t < n → 0 ≤ W.get i t)
    (hden : ∀ i j, i < n → j < k →
      0 < (mat_mult (mat_mult H (transpose_matrix H n k) n k n) H n n k).get i j) :
    ∀ i j, i < n → j < k → 0 ≤ (calcul_iter H W old_H n k).1.get i j := by
  intro i j hi hj
  rw [(calcul_iter_spec H W old_H n k hH hO).2.2.1 i j hi hj]
  have hnum : 0 ≤ (mat_mult W H n n k).get i j := by
    rw [mone_entry W H n k i j hi hj]
    apply Finset.sum_nonneg
    intro t ht
    exact mul_nonneg (hW i t hi (Finset.mem_range.mp ht)) (hH0 t j (Finset.mem_range.mp ht) hj)
  have hq := div_nonneg hnum (le_of_lt (hden i j hi hj))
  have h5 : (0 : α) ≤ 0.5 := by norm_num
  exact mul_nonneg (hH0 i j hi hj) (add_nonneg h5 (mul_nonneg h5 hq))

/-- The matrices of `calcul` keep their shape through the loop. -/
theorem calcul_loop_shape [Zero α] [Add α] [Sub α] [Mul α] [Div α] [OfScientific α] [LT α]
    [DecidableRel (fun (x y : α) => x < y)] (W : Mat α) (n k : Nat) :
    ∀ (fuel m : Nat) (H old_H : Mat α), H.Shape n k → old_H.Shape n k →
      (calcul_loop fuel m H W old_H n k).H.Shape n k ∧
        (calcul_loop fuel m H W old_H n k).old_H.Shape n k := by
  intro fuel
  induction fuel with
  | zero => intro m H old_H hH hO; exact ⟨hH, hO⟩
  | succ fuel ih =>
    intro m H old_H hH hO
    have h := calcul_iter_spec H W old_H n k hH hO
    by_cases hc : forb (calcul_iter H W old_H n k).2 n k < EPSILON
    · simp only [calcul_loop, if_pos hc]
      exact ⟨h.1, h.2.1⟩
    · simp only [calcul_loop, if_neg hc]
      exact ih (m + 1) _ _ h.1 h.2.1

/-- Non-negativity of `H` along the run of `calcul`, over an ordered field:
if the denominators of every iteration that is executed are positive, `H` is
non-negative after each of the first `t` iterations. -/
theorem calcul_loop_nonneg [LinearOrderedField α] (W H0 old_H : Mat α) (n k bound : Nat)
    (hH : H0.Shape n k) (hO : old_H.Shape n k)
    (hH0 : ∀ i j, i < n → j < k → 0 ≤ H0.get i j)
    (hW : ∀ i t, i < n → t < n → 0 ≤ W.get i t)
    (hden : ∀ t, t < bound → (calcul_loop t 0 H0 W old_H n k).broke = false →
      ∀ i j, i < n → j < k →
        0 < (mat_mult (mat_mult (calcul_loop t 0 H0 W old_H n k).H
          (transpose_matrix (calcul_loop t 0 H0 W old_H n k).H n k) n k n)
          (calcul_loop t 0 H0 W old_H n k).H n n k).get i j) :
    ∀ t, t ≤ bound → ∀ i j, i < n → j < k →
      0 ≤ (calcul_loop t 0 H0 W old_H n k).H.get i j := by
  intro t
  induction t with
  | zero => intro _ i j hi hj; exact hH0 i j hi hj
  | succ t ih =>
    intro ht i j hi hj
    have ih' := ih (by omega)
    have hs := calcul_loop_shape W n k t 0 H0 old_H hH hO
    rw [calcul_loop_succ W n k t 0 H0 old_H]
    by_cases hb : (calcul_loop t 0 H0 W old_H n k).broke = true
    · rw [if_pos hb]; exact ih' i j hi hj
    · rw [if_neg hb]
      have hb' : (calcul_loop t 0 H0 W old_H n k).broke = false := by
        simpa using hb
      exact calcul_iter_nonneg _ W _ n k hs.1 hs.2 ih' hW (hden t (by omega) hb') i j hi hj

/-- Over an ordered field, when `W` is exactly `H · Hᵗ` and no denominator
is zero, one iteration of `calcul` leaves `H` as it is and the change it
records has squared norm zero. -/
theorem calcul_iter_exact [LinearOrderedField α] (H W old_H : Mat α) (n k : Nat)
    (hH : H.Shape n k) (hO : old_H.Shape n k)
    (hW : W = mat_mult H (transpose_matrix H n k) n k n)
    (hden : ∀ i j, i < n → j < k →
      (mat_mult (mat_mult H (transpose_matrix H n k) n k n) H n n k).get i j ≠ 0) :
    (calcul_iter H W old_H n k).1 = H ∧ forb (calcul_iter H W old_H n k).2 n k = 0 := by
  have h := calcul_iter_spec H W old_H n k hH hO
  have e1 : (calcul_iter H W old_H n k).1 = H := by
    apply Mat.ext _ _ n k h.1 hH
    intro i j hi hj
    rw [h.2.2.1 i j hi hj, hW, div_self (hden i j hi hj)]
    norm_num
  refine ⟨e1, ?_⟩
  rw [forb_sum]
  apply Finset.sum_eq_zero
  intro i hi
  apply Finset.sum_eq_zero
  intro j hj
  rw [h.2.2.2 i j (Finset.mem_range.mp hi) (Finset.mem_range.mp hj), e1, sub_self, mul_zero]

/-- Under the conditions of `calcul_iter_exact` the loop of `calcul` leaves by
`break` in its first iteration. -/
theorem calcul_loop_exact [LinearOrderedField α] (H W old_H : Mat α) (n k fuel m : Nat)
    (hH : H.Shape n k) (hO : old_H.Shape n k)
    (hW : W = mat_mult H (transpose_matrix H n k) n k n)
    (hden : ∀ i j, i < n → j < k →
      (mat_mult (mat_mult H (transpose_matrix H n k) n k n) H n n k).get i j ≠ 0) :
    calcul_loop (fuel + 1) m H W old_H n k =
      { H := H, old_H := (calcul_iter H W old_H n k).2, m := m, broke := true } := by
  have h := calcul_iter_exact H W old_H n k hH hO hW hden
  have hc : forb (calcul_iter H W old_H n k).2 n k < EPSILON := by
    rw [h.2]; unfold EPSILON; norm_num
  simp only [calcul_loop, if_pos hc, h.1]

end Optimizer

/-! ## Arithmetic of `Dbl` on finite values and on `NaN` -/

section DblFacts

variable {α : Type} [LinearOrderedField α]

open Dbl

theorem Dbl.zero_def : (0 : Dbl α) = fin 0 := rfl

theorem Dbl.fin_add (x y : α) : (fin x + fin y : Dbl α) = fin (x + y) := rfl

theorem Dbl.fin_sub (x y : α) : (fin x - fin y : Dbl α) = fin (x + -y) := rfl

theorem Dbl.fin_mul (x y : α) : (fin x * fin y : Dbl α) = fin (x * y) := rfl

theorem Dbl.fin_div (x y : α) :
    (fin x / fin y : Dbl α) = if y = 0 then scaleInf x else fin (x / y) := rfl

theorem Dbl.scaleInf_zero : scaleInf (0 : α) = nan := by simp [scaleInf]

theorem Dbl.nan_add (a : Dbl α) : (nan + a : Dbl α) = nan := rfl

theorem Dbl.add_nan (a : Dbl α) : (a + nan : Dbl α) = nan := by cases a <;> rfl

theorem Dbl.nan_sub (a : Dbl α) : (nan - a : Dbl α) = nan := rfl

theorem Dbl.sub_nan (a : Dbl α) : (a - nan : Dbl α) = nan := by cases a <;> rfl

theorem Dbl.nan_mul (a : Dbl α) : (nan * a : Dbl α) = nan := rfl

theorem Dbl.mul_nan (a : Dbl α) : (a * nan : Dbl α) = nan := by cases a <;> rfl

theorem Dbl.nan_div (a : Dbl α) : (nan / a : Dbl α) = nan := rfl

theorem Dbl.div_nan (a : Dbl α) : (a / nan : Dbl α) = nan := by cases a <;> rfl

/-- No comparison with `NaN` on the left holds. -/
theorem Dbl.not_nan_lt (a : Dbl α) : ¬ (nan < a) := by
  intro h; exact Bool.noConfusion h

theorem Dbl.ofScientific_def (m : Nat) (s : Bool) (e : Nat) :
    (OfScientific.ofScientific m s e : Dbl α) = fin (OfScientific.ofScientific m s e) := rfl

end DblFacts

/-! ## Finite runs: doubles against the ordered field

On finite values, and as long as no divisor is zero, the arithmetic of `Dbl α`
is the arithmetic of `α`.  The lemmas below carry this through the routines:
the run of the optimizer on the doubles `M.lift` is the lift of its run over
`α`, provided the denominators of the executed iterations are non-zero. -/

section Finite

variable {α : Type} [LinearOrderedField α]

open Dbl

theorem Mat.lift_shape {β : Type} (M : Mat β) (n k : Nat) (h : M.Shape n k) :
    M.lift.Shape n k := by
  obtain ⟨hl, hr⟩ := h
  refine ⟨by simp [Mat.lift, hl], ?_⟩
  intro r hmem
  simp only [Mat.lift, List.mem_map] at hmem
  obtain ⟨r', hr', rfl⟩ := hmem
  rw [List.length_map]
  exact hr r' hr'

theorem Mat.lift_get (M : Mat α) (i j : Nat) : M.lift.get i j = fin (M.get i j) := by
  unfold Mat.get Mat.lift
  rw [List.getD_eq_getElem?_getD, List.getD_eq_getElem?_getD, List.getD_eq_getElem?_getD,
    List.getD_eq_getElem?_getD, List.getElem?_map]
  cases h1 : M[i]? with
  | none => rfl
  | some r =>
    simp only [Option.map_some', Option.getD_some, List.getElem?_map]
    cases h2 : r[j]? with
    | none => rfl
    | some x => rfl

/-- Lifting commutes with any matrix built cell by cell from finite values. -/
theorem Mat.lift_eq_of_get (M : Mat α) (N : Mat (Dbl α)) (n k : Nat) (hM : M.Shape n k)
    (hN : N.Shape n k) (h : ∀ i j, i < n → j < k → N.get i j = fin (M.get i j)) :
    N = M.lift := by
  apply Mat.ext N M.lift n k hN (Mat.lift_shape M n k hM)
  intro i j hi hj
  rw [h i j hi hj, Mat.lift_get]

theorem forLoop_acc_fin (m : Nat) (a b : Nat → α) (s : α) :
    forLoop m (fun t (x : Dbl α) => x + fin (a t) * fin (b t)) (fin s)
      = fin (forLoop m (fun t x => x + a t * b t) s) := by
  induction m with
  | zero => rfl
  | succ m ih => rw [forLoop_succ, forLoop_succ, ih]; rfl

theorem mat_mult_lift (M1 M2 : Mat α) (n m q : Nat) :
    mat_mult M1.lift M2.lift n m q = (mat_mult M1 M2 n m q).lift := by
  have h1 := mat_mult_spec M1.lift M2.lift n m q
  have h2 := mat_mult_spec M1 M2 n m q
  apply Mat.lift_eq_of_get _ _ n q h2.1 h1.1
  intro i j hi hj
  rw [h1.2 i j, h2.2 i j, if_pos ⟨hi, hj⟩, if_pos ⟨hi, hj⟩]
  simp only [Mat.lift_get]
  exact forLoop_acc_fin m _ _ 0

theorem transpose_matrix_lift (M : Mat α) (n m : Nat) :
    transpose_matrix M.lift n m = (transpose_matrix M n m).lift := by
  have h1 := transpose_matrix_spec M.lift n m
  have h2 := transpose_matrix_spec M n m
  apply Mat.lift_eq_of_get _ _ m n h2.1 h1.1
  intro i j hi hj
  rw [h1.2 i j, h2.2 i j, if_pos ⟨hi, hj⟩, if_pos ⟨hi, hj⟩, Mat.lift_get]

theorem forLoop_trace_fin (m : Nat) (a : Nat → α) (s : α) :
    forLoop m (fun t (x : Dbl α) => x + fin (a t)) (fin s)
      = fin (forLoop m (fun t x => x + a t) s) := by
  induction m with
  | zero => rfl
  | succ m ih => rw [forLoop_succ, forLoop_succ, ih]; rfl

theorem forb_lift (M : Mat α) (n m : Nat) : forb M.lift n m = fin (forb M n m) := by
  simp only [forb, transpose_matrix_lift, mat_mult_lift, Mat.lift_get]
  exact forLoop_trace_fin m _ 0

theorem Dbl.fin_lt_fin (x y : α) : (fin x < fin y) ↔ x < y := by
  show (blt (fin x) (fin y) = true) ↔ x < y
  simp [blt]

/-- One iteration of `calcul` on finite doubles, all denominators non-zero, is
the lift of the iteration over the field. -/
theorem calcul_iter_lift (H W old_H : Mat α) (n k : Nat) (hH : H.Shape n k)
    (hO : old_H.Shape n k)
    (hden : ∀ i j, i < n → j < k →
      (mat_mult (mat_mult H (transpose_matrix H n k) n k n) H n n k).get i j ≠ 0) :
    calcul_iter H.lift W.lift old_H.lift n k =
      ((calcul_iter H W old_H n k).1.lift, (calcul_iter H W old_H n k).2.lift) := by
  have h1 := calcul_iter_spec H.lift W.lift old_H.lift n k (Mat.lift_shape H n k hH)
    (Mat.lift_shape old_H n k hO)
  have h2 := calcul_iter_spec H W old_H n k hH hO
  have e1 : (calcul_iter H.lift W.lift old_H.lift n k).1 = (calcul_iter H W old_H n k).1.lift := by
    apply Mat.lift_eq_of_get _ _ n k h2.1 h1.1
    intro i j hi hj
    rw [h1.2.2.1 i j hi hj, h2.2.2.1 i j hi hj, transpose_matrix_lift, mat_mult_lift,
      mat_mult_lift, mat_mult_lift]
    simp only [Mat.lift_get, Dbl.fin_div, if_neg (hden i j hi hj)]
    rfl
  have e2 : (calcul_iter H.lift W.lift old_H.lift n k).2 = (calcul_iter H W old_H n k).2.lift := by
    apply Mat.lift_eq_of_get _ _ n k h2.2.1 h1.2.1
    intro i j hi hj
    rw [h1.2.2.2 i j hi hj, h2.2.2.2 i j hi hj, e1]
    simp only [Mat.lift_get, Dbl.fin_sub, sub_eq_add_neg]
  exact Prod.ext e1 e2

/-- The whole loop of `calcul` on finite doubles is the lift of the loop over
the field, when the denominators of every executed iteration are non-zero. -/
theorem calcul_loop_lift (W : Mat α) (n k : Nat) :
    ∀ (fuel m : Nat) (H old_H : Mat α), H.Shape n k → old_H.Shape n k →
      (∀ t, t < fuel → (calcul_loop t m H W old_H n k).broke = false →
        ∀ i j, i < n → j < k →
          (mat_mult (mat_mult (calcul_loop t m H W old_H n k).H
            (transpose_matrix (calcul_loop t m H W old_H n k).H n k) n k n)
            (calcul_loop t m H W old_H n k).H n n k).get i j ≠ 0) →
      calcul_loop fuel m H.lift W.lift old_H.lift n k
        = (calcul_loop fuel m H W old_H n k).lift := by
  intro fuel
  induction fuel with
  | zero => intro m H old_H _ _ _; rfl
  | succ fuel ih =>
    intro m H old_H hH hO hden
    have h0 := hden 0 (Nat.succ_pos fuel) rfl
    have hs := calcul_iter_spec H W old_H n k hH hO
    rw [calcul_loop_unfold, calcul_loop_unfold, calcul_iter_lift H W old_H n k hH hO h0]
    simp only [forb_lift]
    have heps : (EPSILON : Dbl α) = fin EPSILON := rfl
    rw [heps]
    by_cases hc : forb (calcul_iter H W old_H n k).2 n k < EPSILON
    · rw [if_pos hc, if_pos ((Dbl.fin_lt_fin _ _).mpr hc)]
      rfl
    · rw [if_neg hc, if_neg (fun h => hc ((Dbl.fin_lt_fin _ _).mp h))]
      apply ih (m + 1) _ _ hs.1 hs.2.1
      intro t ht hb
      have hu : calcul_loop (t + 1) m H W old_H n k =
          calcul_loop t (m + 1) (calcul_iter H W old_H n k).1 W
            (calcul_iter H W old_H n k).2 n k := by
        rw [calcul_loop_unfold, if_neg hc]
      have := hden (t + 1) (by omega)
      rw [hu] at this
      exact this hb

/-- `norm_mat` on finite doubles with positive degrees is the lift of
`norm_mat` over the field: the square roots are positive, so no division by
zero takes place. -/
theorem norm_mat_lift (sqrt : α → α) (sqrtD : Dbl α → Dbl α) (D A : Mat α) (n : Nat)
    (hsqrt : ∀ x, 0 < x → 0 < sqrt x) (hsqrtD : ∀ x, 0 < x → sqrtD (fin x) = fin (sqrt x))
    (hD : ∀ i, i < n → 0 < D.get i i) :
    norm_mat sqrtD D.lift A.lift n = (norm_mat sqrt D A n).lift := by
  have h1 := diag_fill_spec (fun i => (1 : Dbl α) / sqrtD (D.lift.get i i)) n n
  have h2 := diag_fill_spec (fun i => 1 / sqrt (D.get i i)) n n
  have e : forLoop n (fun i (R : Mat (Dbl α)) => R.set i i (1 / sqrtD (D.lift.get i i)))
      (create_matrix n n)
      = (forLoop n (fun i (R : Mat α) => R.set i i (1 / sqrt (D.get i i)))
          (create_matrix n n)).lift := by
    apply Mat.lift_eq_of_get _ _ n n h2.1 h1.1
    intro i j hi _
    rw [h1.2 i j, h2.2 i j]
    by_cases hc : i = j ∧ i < n ∧ i < n
    · rw [if_pos hc, if_pos hc, Mat.lift_get, hsqrtD _ (hD i hi)]
      have hne : sqrt (D.get i i) ≠ 0 := ne_of_gt (hsqrt _ (hD i hi))
      show (fin 1 / fin (sqrt (D.get i i)) : Dbl α) = _
      rw [Dbl.fin_div, if_neg hne]
    · rw [if_neg hc, if_neg hc]
      rfl
  simp only [norm_mat, e, mat_mult_lift]

theorem create_matrix_lift (n k : Nat) :
    (create_matrix n k : Mat α).lift = (create_matrix n k : Mat (Dbl α)) := by
  simp only [create_matrix, Mat.lift, List.map_replicate]
  rfl

end Finite

/-! ## A run of the optimizer that meets a zero denominator

`H0` is the column `(1, 0)` and `W = H0 · H0ᵗ`.  The denominator of entry
`(1, 0)` is `0`, so the first update computes `0/0 = NaN` there. -/

section NanRun

open Dbl

/-- `H0 · H0ᵗ` for the column `H0 = (1, 0)`. -/
theorem nan_run_gram :
    mat_mult ([[fin 1], [fin 0]] : Mat (Dbl ℚ)) (transpose_matrix [[fin 1], [fin 0]] 2 1) 2 1 2
      = [[fin 1, fin 0], [fin 0, fin 0]] := by
  simp [mat_mult, transpose_matrix, create_matrix, forLoop, Mat.set, Mat.get,
    Dbl.zero_def, Dbl.fin_add, Dbl.fin_mul]

/-- The first iteration: entry `(1, 0)` of `H` becomes `NaN`. -/
theorem nan_run_iter1 :
    calcul_iter ([[fin 1], [fin 0]] : Mat (Dbl ℚ)) [[fin 1, fin 0], [fin 0, fin 0]]
      (create_matrix 2 1) 2 1 = ([[fin 1], [nan]], [[fin 0], [nan]]) := by
  simp [calcul_iter, mat_mult, transpose_matrix, create_matrix, forLoop, Mat.set, Mat.get,
    Dbl.zero_def, Dbl.fin_add, Dbl.fin_sub, Dbl.fin_mul, Dbl.fin_div, Dbl.scaleInf_zero,
    Dbl.nan_add, Dbl.add_nan, Dbl.nan_sub, Dbl.sub_nan, Dbl.nan_mul, Dbl.mul_nan, Dbl.nan_div,
    Dbl.div_nan, Dbl.ofScientific_def]
  norm_num

/-- The second iteration: `NaN` spreads to the whole of `H`. -/
theorem nan_run_iter2 :
    calcul_iter ([[fin 1], [nan]] : Mat (Dbl ℚ)) [[fin 1, fin 0], [fin 0, fin 0]]
      [[fin 0], [nan]] 2 1 = ([[nan], [nan]], [[nan], [nan]]) := by
  simp [calcul_iter, mat_mult, transpose_matrix, create_matrix, forLoop, Mat.set, Mat.get,
    Dbl.zero_def, Dbl.fin_add, Dbl.fin_sub, Dbl.fin_mul, Dbl.fin_div, Dbl.scaleInf_zero,
    Dbl.nan_add, Dbl.add_nan, Dbl.nan_sub, Dbl.sub_nan, Dbl.nan_mul, Dbl.mul_nan, Dbl.nan_div,
    Dbl.div_nan, Dbl.ofScientific_def]

/-- Every later iteration: `H` stays `NaN`. -/
theorem nan_run_iter3 :
    calcul_iter ([[nan], [nan]] : Mat (Dbl ℚ)) [[fin 1, fin 0], [fin 0, fin 0]]
      [[nan], [nan]] 2 1 = ([[nan], [nan]], [[nan], [nan]]) := by
  simp [calcul_iter, mat_mult, transpose_matrix, create_matrix, forLoop, Mat.set, Mat.get,
    Dbl.zero_def, Dbl.fin_add, Dbl.fin_sub, Dbl.fin_mul, Dbl.fin_div, Dbl.scaleInf_zero,
    Dbl.nan_add, Dbl.add_nan, Dbl.nan_sub, Dbl.sub_nan, Dbl.nan_mul, Dbl.mul_nan, Dbl.nan_div,
    Dbl.div_nan, Dbl.ofScientific_def]

/-- The squared norm of a change that contains `NaN` is `NaN`. -/
theorem nan_run_forb (x : Dbl ℚ) : forb ([[x], [nan]] : Mat (Dbl ℚ)) 2 1 = nan := by
  simp [forb, mat_mult, transpose_matrix, create_matrix, forLoop, Mat.set, Mat.get,
    Dbl.zero_def, Dbl.nan_add, Dbl.add_nan, Dbl.nan_mul, Dbl.mul_nan]

/-- Once `H` is all `NaN` the loop never breaks. -/
theorem nan_run_loop (fuel m : Nat) :
    calcul_loop fuel m ([[nan], [nan]] : Mat (Dbl ℚ)) [[fin 1, fin 0], [fin 0, fin 0]]
      [[nan], [nan]] 2 1
      = { H := [[nan], [nan]], old_H := [[nan], [nan]], m := m + fuel, broke := false } := by
  induction fuel generalizing m with
  | zero => rfl
  | succ fuel ih =>
    rw [calcul_loop_unfold, nan_run_iter3]
    simp only [nan_run_forb, if_neg (Dbl.not_nan_lt _)]
    rw [ih (m + 1)]
    simp only [CalculExit.mk.injEq, true_and, and_true]
    omega

/-- The whole run: no `break` in 300 iterations. -/
theorem nan_run_calcul :
    calcul_loop 300 0 ([[fin 1], [fin 0]] : Mat (Dbl ℚ)) [[fin 1, fin 0], [fin 0, fin 0]]
      (create_matrix 2 1) 2 1
      = { H := [[nan], [nan]], old_H := [[nan], [nan]], m := 300, broke := false } := by
  have h : (300 : Nat) = 298 + 1 + 1 := rfl
  rw [h, calcul_loop_unfold, nan_run_iter1]
  simp only [nan_run_forb, if_neg (Dbl.not_nan_lt _)]
  rw [calcul_loop_unfold, nan_run_iter2]
  simp only [nan_run_forb, if_neg (Dbl.not_nan_lt _)]
  rw [nan_run_loop]

end NanRun

/-! ## The three-point scenario -/

section Scenario

variable {α : Type} [LinearOrderedField α]

/-- `sym_mat` on the points `(0,0)`, `(1,0)`, `(0,1)`. -/
theorem sym_mat_three_points (exp : α → α) :
    sym_mat exp [[0, 0], [1, 0], [0, 1]] 3 2
      = [[0, exp (-0.5), exp (-0.5)],
         [exp (-0.5), 0, exp (-1.0)],
         [exp (-0.5), exp (-1.0), 0]] := by
  have e1 : (-0.5 : α) * (0 + (0 - 1) ^ 2 + (0 - 0) ^ 2) = -0.5 := by norm_num
  have e2 : (-0.5 : α) * (0 + (1 - 0) ^ 2 + (0 - 0) ^ 2) = -0.5 := by norm_num
  have e3 : (-0.5 : α) * (0 + (0 - 0) ^ 2 + (0 - 1) ^ 2) = -0.5 := by norm_num
  have e4 : (-0.5 : α) * (0 + (0 - 0) ^ 2 + (1 - 0) ^ 2) = -0.5 := by norm_num
  have e5 : (-0.5 : α) * (0 + (1 - 0) ^ 2 + (0 - 1) ^ 2) = -1.0 := by norm_num
  have e6 : (-0.5 : α) * (0 + (0 - 1) ^ 2 + (1 - 0) ^ 2) = -1.0 := by norm_num
  simp only [sym_mat, create_matrix, forLoop, Mat.set, squared_euc_dis, List.getD_cons_zero,
    List.getD_cons_succ, List.replicate, List.set_cons_zero, List.set_cons_succ, ne_eq,
    e1, e2, e3, e4, e5, e6]
  simp

/-- `diag_mat` on the affinity matrix of the three points. -/
theorem diag_mat_three (a b : α) :
    diag_mat [[0, a, a], [a, 0, b], [a, b, 0]] 3
      = [[a + a, 0, 0], [0, a + b, 0], [0, 0, a + b]] := by
  simp [diag_mat, create_matrix, forLoop, Mat.set, Mat.get]

/-- `norm_mat` on the degree and affinity matrices of the three points. -/
theorem norm_mat_three (a b : α) (sqrt : α → α) :
    norm_mat sqrt [[a + a, 0, 0], [0, a + b, 0], [0, 0, a + b]] [[0, a, a], [a, 0, b], [a, b, 0]] 3
      = [[0, a / (sqrt (a + a) * sqrt (a + b)), a / (sqrt (a + a) * sqrt (a + b))],
         [a / (sqrt (a + b) * sqrt (a + a)), 0, b / (sqrt (a + b) * sqrt (a + b))],
         [a / (sqrt (a + b) * sqrt (a + a)), b / (sqrt (a + b) * sqrt (a + b)), 0]] := by
  simp [norm_mat, mat_mult, create_matrix, forLoop, Mat.set, Mat.get]
  refine ⟨?_, ?_, ?_⟩ <;> ring

end Scenario

/-! ## A worked example: an exact rank-one factor over the rationals -/

section Example

/-- `H · Hᵗ` for the column `H = (1, 2)`. -/
theorem example_gram :
    mat_mult ([[1], [2]] : Mat ℚ) (transpose_matrix [[1], [2]] 2 1) 2 1 2
      = [[1, 2], [2, 4]] := by
  simp [mat_mult, transpose_matrix, create_matrix, forLoop, Mat.set, Mat.get]
  norm_num

/-- The denominators `(H · Hᵗ) · H` for the column `H = (1, 2)`. -/
theorem example_mechane :
    mat_mult (mat_mult ([[1], [2]] : Mat ℚ) (transpose_matrix [[1], [2]] 2 1) 2 1 2)
      [[1], [2]] 2 2 1 = [[5], [10]] := by
  rw [example_gram]
  simp [mat_mult, create_matrix, forLoop, Mat.set, Mat.get]
  norm_num

theorem example_shape : Mat.Shape ([[1], [2]] : Mat ℚ) 2 1 := by
  decide

theorem example_mechane_pos (i j : Nat) (hi : i < 2) (hj : j < 1) :
    0 < (mat_mult (mat_mult ([[1], [2]] : Mat ℚ) (transpose_matrix [[1], [2]] 2 1) 2 1 2)
      [[1], [2]] 2 2 1).get i j := by
  rw [example_mechane]
  interval_cases i <;> interval_cases j <;> simp [Mat.get]

end Example

/-! ## Distances, affinities and degrees over an ordered field -/

section PointFacts
variable {α : Type} [LinearOrderedField α]

/-- The loop of `squared_euc_dis` as a sum of squares. -/
theorem squared_euc_dis_sum (p q : List α) (dim : Nat) :
    squared_euc_dis p q dim = ∑ c in Finset.range dim, (p.getD c 0 - q.getD c 0) ^ 2 := by
  unfold squared_euc_dis
  rw [forLoop_acc_eq_sum, zero_add]

theorem squared_euc_dis_nonneg (p q : List α) (dim : Nat) : 0 ≤ squared_euc_dis p q dim := by
  rw [squared_euc_dis_sum]
  exact Finset.sum_nonneg (fun c _ => sq_nonneg _)

theorem squared_euc_dis_comm (p q : List α) (dim : Nat) :
    squared_euc_dis p q dim = squared_euc_dis q p dim := by
  rw [squared_euc_dis_sum, squared_euc_dis_sum]
  exact Finset.sum_congr rfl (fun c _ => by ring)

theorem squared_euc_dis_eq_zero (p q : List α) (dim : Nat) :
    squared_euc_dis p q dim = 0 ↔ ∀ c, c < dim → p.getD c 0 = q.getD c 0 := by
  rw [squared_euc_dis_sum, Finset.sum_eq_zero_iff_of_nonneg (fun c _ => sq_nonneg _)]
  constructor
  · intro h c hc
    have := h c (Finset.mem_range.mpr hc)
    exact sub_eq_zero.mp (pow_eq_zero_iff (two_ne_zero) |>.mp this)
  · intro h c hc
    rw [h c (Finset.mem_range.mp hc), sub_self]
    norm_num

/-- An off-diagonal entry of `sym_mat`. -/
theorem sym_mat_get_off (exp : α → α) (points : Mat α) (n dim i j : Nat)
    (hi : i < n) (hj : j < n) (hij : i ≠ j) :
    (sym_mat exp points n dim).get i j
      = exp ((-0.5) * squared_euc_dis (points.getD i []) (points.getD j []) dim) := by
  rw [(sym_mat_spec exp points n dim).2 i j, if_pos ⟨hi, hj⟩, if_pos hij]

/-- A diagonal entry of `sym_mat`. -/
theorem sym_mat_get_diag (exp : α → α) (points : Mat α) (n dim i : Nat) :
    (sym_mat exp points n dim).get i i = 0 := by
  rw [(sym_mat_spec exp points n dim).2 i i]
  by_cases hi : i < n
  · rw [if_pos ⟨hi, hi⟩, if_neg (fun h => h rfl)]
  · rw [if_neg (fun h => hi h.1)]

/-- The entries of `sym_mat` are symmetric. -/
theorem sym_mat_get_comm (exp : α → α) (points : Mat α) (n dim i j : Nat)
    (hi : i < n) (hj : j < n) :
    (sym_mat exp points n dim).get i j = (sym_mat exp points n dim).get j i := by
  by_cases hij : i = j
  · subst hij; rfl
  · rw [sym_mat_get_off exp points n dim i j hi hj hij,
      sym_mat_get_off exp points n dim j i hj hi (fun h => hij h.symm), squared_euc_dis_comm]

/-- The degree of point `i`: the sum of row `i` of the affinity matrix. -/
theorem degree_get (exp : α → α) (points : Mat α) (n dim i : Nat) (hi : i < n) :
    (diag_mat (sym_mat exp points n dim) n).get i i
      = ∑ j in Finset.range n, (sym_mat exp points n dim).get i j := by
  rw [(diag_mat_spec _ n).2 i i, if_pos ⟨rfl, hi⟩, forLoop_acc_eq_sum, zero_add]

end PointFacts

/-! ## A run that never meets the threshold: repeated halving -/

section Halving

/-- With `W = 0` one update of a `1 × 1` factor halves it. -/
theorem halving_step (x : ℚ) : spec_step ([[0]] : Mat ℚ) 1 1 [[x]] = [[x / 2]] := by
  have hr : List.range 1 = [0] := rfl
  simp [spec_step, spec_numerator, spec_denominator, Mat.get, hr]
  norm_num
  ring

theorem halving_iterate (x : ℚ) (s : Nat) :
    (spec_step ([[0]] : Mat ℚ) 1 1)^[s] [[x]] = [[x / 2 ^ s]] := by
  induction s with
  | zero => simp
  | succ s ih =>
    rw [Function.iterate_succ_apply', ih, halving_step, pow_succ, div_div]

/-- Started from `2 ^ 300`, none of the first 300 halvings changes the factor
by less than the threshold. -/
theorem halving_never_converges (s : Nat) (h1 : 1 ≤ s) (h2 : s ≤ 300) :
    ¬ spec_sq_change ([[0]] : Mat ℚ) 1 1 [[2 ^ 300]] s < 0.0001 := by
  obtain ⟨r, rfl⟩ : ∃ r, s = r + 1 := ⟨s - 1, by omega⟩
  unfold spec_sq_change spec_sq_norm_diff
  rw [halving_iterate, Nat.add_sub_cancel, halving_iterate]
  simp only [Finset.sum_range_one, Mat.get, List.getD_cons_zero]
  have hr : (2 : ℚ) ^ (r + 1) ≤ 2 ^ 300 := pow_le_pow_right₀ (by norm_num) h2
  have hp : (0 : ℚ) < 2 ^ (r + 1) := by positivity
  have e : (2 : ℚ) ^ 300 / 2 ^ (r + 1) - 2 ^ 300 / 2 ^ r = - (2 ^ 300 / 2 ^ (r + 1)) := by
    rw [pow_succ]; field_simp; ring
  rw [e, neg_mul_neg]
  have hge : (1 : ℚ) ≤ 2 ^ 300 / 2 ^ (r + 1) := by
    rw [le_div_iff₀ hp]; simpa using hr
  have : (1 : ℚ) ≤ 2 ^ 300 / 2 ^ (r + 1) * (2 ^ 300 / 2 ^ (r + 1)) := by nlinarith
  intro hlt
  have h3 : (0.0001 : ℚ) < 1 := by norm_num
  linarith

end Halving

/-! ## Divisions by zero on doubles -/

section NonFinite

variable {α : Type} [LinearOrderedField α]

open Dbl

theorem Dbl.one_def : (1 : Dbl α) = fin 1 := rfl

theorem Dbl.scaleInf_not_fin (x : α) : (scaleInf x).isFin = false := by
  unfold scaleInf
  split_ifs <;> rfl

/-- A sum is finite only if both terms are. -/
theorem Dbl.isFin_add (a b : Dbl α) (h : (a + b).isFin = true) :
    a.isFin = true ∧ b.isFin = true := by
  cases a <;> cases b <;> first | exact ⟨rfl, rfl⟩ | exact absurd h Bool.false_ne_true

/-- A product is finite only if both factors are. -/
theorem Dbl.isFin_mul (a b : Dbl α) (h : (a * b).isFin = true) :
    a.isFin = true ∧ b.isFin = true := by
  cases a <;> cases b <;>
    first
      | exact ⟨rfl, rfl⟩
      | exact absurd h Bool.false_ne_true
      | exact absurd ((Dbl.scaleInf_not_fin _).symm.trans h) Bool.false_ne_true

/-- A quotient by zero is never finite. -/
theorem Dbl.div_zero_not_fin (a : Dbl α) : (a / (0 : Dbl α)).isFin = false := by
  cases a with
  | fin x =>
    show (if (0 : α) = 0 then scaleInf x else fin (x / 0)).isFin = false
    rw [if_pos rfl, Dbl.scaleInf_not_fin]
  | pinf =>
    show (if (0 : α) < 0 then (ninf : Dbl α) else pinf).isFin = false
    rw [if_neg (lt_irrefl _)]; rfl
  | ninf =>
    show (if (0 : α) < 0 then (pinf : Dbl α) else ninf).isFin = false
    rw [if_neg (lt_irrefl _)]; rfl
  | nan => rfl

/-- `1 / 0` is `+∞`. -/
theorem Dbl.one_div_zero : ((1 : Dbl α) / (0 : Dbl α)) = pinf := by
  show (if (0 : α) = 0 then scaleInf (1 : α) else fin (1 / 0)) = pinf
  rw [if_pos rfl]
  unfold scaleInf
  rw [if_pos zero_lt_one]

/-- An accumulated sum with a non-finite term is not finite. -/
theorem forLoop_acc_not_fin (m : Nat) (c : Nat → Dbl α) (s : Dbl α) (t : Nat) (ht : t < m)
    (hc : (c t).isFin = false) : (forLoop m (fun t x => x + c t) s).isFin = false := by
  induction m with
  | zero => omega
  | succ m ih =>
    rw [forLoop_succ]
    by_contra hfin
    have h := Dbl.isFin_add _ _ (by simpa using hfin)
    by_cases htm : t = m
    · subst htm
      rw [hc] at h
      exact absurd h.2 (by decide)
    · rw [ih (by omega)] at h
      exact absurd h.1 (by decide)

/-- The update of `calcul` at a cell whose denominator is zero yields a
non-finite value. -/
theorem calcul_iter_zero_denominator (H W old_H : Mat (Dbl α)) (n k i j : Nat)
    (hH : H.Shape n k) (hO : old_H.Shape n k) (hi : i < n) (hj : j < k)
    (hden : (mat_mult (mat_mult H (transpose_matrix H n k) n k n) H n n k).get i j = 0) :
    ((calcul_iter H W old_H n k).1.get i j).isFin = false := by
  rw [(calcul_iter_spec H W old_H n k hH hO).2.2.1 i j hi hj, hden]
  by_contra hfin
  have h1 := (Dbl.isFin_mul _ _ (by simpa using hfin)).2
  have h2 := (Dbl.isFin_add _ _ h1).2
  have h3 := (Dbl.isFin_mul _ _ h2).2
  rw [Dbl.div_zero_not_fin] at h3
  exact absurd h3 (by decide)

/-- The diagonal entry `(i, i)` of `norm_mat` is not finite when `D[i][i]` is
zero. -/
theorem norm_mat_zero_degree (sqrtD : Dbl α → Dbl α) (D A : Mat (Dbl α)) (n i : Nat)
    (hi : i < n) (hsqrt : sqrtD 0 = 0) (hD : D.get i i = 0) :
    ((norm_mat sqrtD D A n).get i i).isFin = false := by
  have hR := diag_fill_spec (fun i => (1 : Dbl α) / sqrtD (D.get i i)) n n
  unfold norm_mat
  rw [(mat_mult_spec _ _ n n n).2 i i, if_pos ⟨hi, hi⟩]
  apply forLoop_acc_not_fin n _ 0 i hi
  rw [hR.2 i i, if_pos ⟨rfl, hi, hi⟩, hD, hsqrt, Dbl.one_div_zero]
  by_contra hfin
  have h := (Dbl.isFin_mul _ _ (by simpa using hfin)).2
  exact absurd h Bool.false_ne_true

end NonFinite

/-! ## A `1 × 1` run with a zero denominator -/

section ZeroRun

open Dbl

/-- The denominator of the only cell is zero. -/
theorem zero_run_mechane :
    mat_mult (mat_mult ([[fin 0]] : Mat (Dbl ℚ)) (transpose_matrix [[fin 0]] 1 1) 1 1 1)
      [[fin 0]] 1 1 1 = [[fin 0]] := by
  simp [mat_mult, transpose_matrix, create_matrix, forLoop, Mat.set, Mat.get,
    Dbl.zero_def, Dbl.fin_add, Dbl.fin_mul]

/-- The first iteration divides `0` by `0`. -/
theorem zero_run_iter1 :
    calcul_iter ([[fin 0]] : Mat (Dbl ℚ)) [[fin 1]] (create_matrix 1 1) 1 1
      = ([[nan]], [[nan]]) := by
  simp [calcul_iter, mat_mult, transpose_matrix, create_matrix, forLoop, Mat.set, Mat.get,
    Dbl.zero_def, Dbl.fin_add, Dbl.fin_sub, Dbl.fin_mul, Dbl.fin_div, Dbl.scaleInf_zero,
    Dbl.nan_add, Dbl.add_nan, Dbl.nan_sub, Dbl.sub_nan, Dbl.nan_mul, Dbl.mul_nan, Dbl.nan_div,
    Dbl.div_nan, Dbl.ofScientific_def]

theorem zero_run_iter2 :
    calcul_iter ([[nan]] : Mat (Dbl ℚ)) [[fin 1]] [[nan]] 1 1 = ([[nan]], [[nan]]) := by
  simp [calcul_iter, mat_mult, transpose_matrix, create_matrix, forLoop, Mat.set, Mat.get,
    Dbl.zero_def, Dbl.fin_add, Dbl.fin_sub, Dbl.fin_mul, Dbl.fin_div, Dbl.scaleInf_zero,
    Dbl.nan_add, Dbl.add_nan, Dbl.nan_sub, Dbl.sub_nan, Dbl.nan_mul, Dbl.mul_nan, Dbl.nan_div,
    Dbl.div_nan, Dbl.ofScientific_def]

theorem zero_run_forb : forb ([[nan]] : Mat (Dbl ℚ)) 1 1 = nan := by
  simp [forb, mat_mult, transpose_matrix, create_matrix, forLoop, Mat.set, Mat.get,
    Dbl.zero_def, Dbl.nan_add, Dbl.add_nan, Dbl.nan_mul, Dbl.mul_nan]

theorem zero_run_loop (fuel m : Nat) :
    calcul_loop fuel m ([[nan]] : Mat (Dbl ℚ)) [[fin 1]] [[nan]] 1 1
      = { H := [[nan]], old_H := [[nan]], m := m + fuel, broke := false } := by
  induction fuel generalizing m with
  | zero => rfl
  | succ fuel ih =>
    rw [calcul_loop_unfold, zero_run_iter2]
    simp only [zero_run_forb, if_neg (Dbl.not_nan_lt _)]
    rw [ih (m + 1)]
    simp only [CalculExit.mk.injEq, true_and, and_true]
    omega

theorem zero_run_calcul :
    calcul_loop 300 0 ([[fin 0]] : Mat (Dbl ℚ)) [[fin 1]] (create_matrix 1 1) 1 1
      = { H := [[nan]], old_H := [[nan]], m := 300, broke := false } := by
  have h : (300 : Nat) = 299 + 1 := rfl
  rw [h, calcul_loop_unfold, zero_run_iter1]
  simp only [zero_run_forb, if_neg (Dbl.not_nan_lt _)]
  rw [zero_run_loop]

end ZeroRun

/-! ## Runs on the heap -/

namespace Mem

/-! ### Facts about heaps and runs -/

section HeapFacts

variable {α : Type}

theorem Exec.bind_apply {β γ : Type} (m : Exec α β) (f : β → Exec α γ) (h : Heap α) :
    (m >>= f) h =
      match m h with
      | Except.error e => Except.error e
      | Except.ok (x, h') => f x h' := rfl

theorem Exec.bind_ok {β γ : Type} (m : Exec α β) (f : β → Exec α γ) (h h' : Heap α) (x : β)
    (hm : m h = Except.ok (x, h')) : (m >>= f) h = f x h' := by
  rw [Exec.bind_apply, hm]

theorem Exec.bind_error {β γ : Type} (m : Exec α β) (f : β → Exec α γ) (h : Heap α)
    (e : Fault) (hm : m h = Except.error e) : (m >>= f) h = Except.error e := by
  rw [Exec.bind_apply, hm]

theorem Exec.pure_apply {β : Type} (x : β) (h : Heap α) :
    (pure x : Exec α β) h = Except.ok (x, h) := rfl

theorem Heap.content_lt (h : Heap α) (a : Nat) (c : Mat α) (hc : h.content a = some c) :
    a < h.objs.length := by
  by_contra hlt
  unfold Heap.content at hc
  rw [List.getD_eq_getElem?_getD, List.getElem?_eq_none_iff.mpr (Nat.le_of_not_lt hlt)] at hc
  exact absurd hc (by simp)

theorem Heap.content_put_same (h : Heap α) (a : Nat) (c : Mat α) (ha : a < h.objs.length) :
    (h.put a c).content a = some c := by
  unfold Heap.content Heap.put
  simp [List.getD_eq_getElem?_getD, List.getElem?_set, ha]

theorem Heap.content_put_other (h : Heap α) (a b : Nat) (c : Mat α) (hab : a ≠ b) :
    (h.put a c).content b = h.content b := by
  unfold Heap.content Heap.put
  simp [List.getD_eq_getElem?_getD, List.getElem?_set, hab]

theorem Heap.put_put (h : Heap α) (a : Nat) (c c' : Mat α) :
    (h.put a c).put a c' = h.put a c' := by
  unfold Heap.put
  simp [List.set_set]

theorem Heap.put_content (h : Heap α) (a : Nat) (c : Mat α) (hc : h.content a = some c) :
    h.put a c = h := by
  have hlt := Heap.content_lt h a c hc
  unfold Heap.content at hc
  rw [List.getD_eq_getElem?_getD, List.getElem?_eq_getElem hlt] at hc
  unfold Heap.put
  cases h with
  | mk objs plan =>
    simp only [Heap.mk.injEq, and_true]
    apply List.ext_getElem (by simp)
    intro i h1 h2
    rw [List.getElem_set]
    by_cases hai : a = i
    · subst hai; simpa using hc.symm
    · simp [hai]

theorem Heap.content_alloc_old (h : Heap α) (a : Nat) (c : Mat α) (ha : a < h.objs.length) :
    (h.alloc c).content a = h.content a := by
  unfold Heap.content Heap.alloc
  simp [List.getD_eq_getElem?_getD, List.getElem?_append_left ha]

theorem Heap.content_alloc_new (h : Heap α) (c : Mat α) :
    (h.alloc c).content h.objs.length = some c := by
  unfold Heap.content Heap.alloc
  simp [List.getD_eq_getElem?_getD]

theorem Heap.alloc_put (h : Heap α) (c c' : Mat α) :
    (h.alloc c).put h.objs.length c' = h.alloc c' := by
  unfold Heap.put Heap.alloc
  simp

theorem Heap.length_alloc (h : Heap α) (c : Mat α) :
    (h.alloc c).objs.length = h.objs.length + 1 := by
  simp [Heap.alloc]

theorem Heap.length_put (h : Heap α) (a : Nat) (c : Mat α) :
    (h.put a c).objs.length = h.objs.length := by
  simp [Heap.put]

theorem Heap.content_release_same (h : Heap α) (a : Nat) :
    (h.release a).content a = none := by
  unfold Heap.content Heap.release
  by_cases ha : a < h.objs.length <;>
    simp [List.getD_eq_getElem?_getD, List.getElem?_set, ha]

theorem Heap.content_release_other (h : Heap α) (a b : Nat) (hab : a ≠ b) :
    (h.release a).content b = h.content b := by
  unfold Heap.content Heap.release
  simp [List.getD_eq_getElem?_getD, List.getElem?_set, hab]

theorem readCell_ok [Zero α] (h : Heap α) (a i j : Nat) (c : Mat α)
    (hc : h.content a = some c) : readCell (some a) i j h = Except.ok (c.get i j, h) := by
  simp only [readCell, hc]

theorem writeCell_ok (h : Heap α) (a i j : Nat) (c : Mat α) (v : α)
    (hc : h.content a = some c) :
    writeCell (some a) i j v h = Except.ok ((), h.put a (c.set i j v)) := by
  simp only [writeCell, hc]

/-- A loop whose every iteration rewrites one object, as a function of that
object's contents, rewrites that object by the corresponding loop on
contents.  `hp c` is the heap in which the object has contents `c`. -/
theorem forEach_sim (hp : Mat α → Heap α) (cnt : Nat) (body : Nat → Exec α Unit)
    (f : Nat → Mat α → Mat α)
    (hb : ∀ t, t < cnt → ∀ c, body t (hp c) = Except.ok ((), hp (f t c))) :
    ∀ c, forEach cnt body (hp c) = Except.ok ((), hp (forLoop cnt f c)) := by
  induction cnt with
  | zero => intro c; rfl
  | succ cnt ih =>
    intro c
    have h1 := ih (fun t ht c => hb t (Nat.lt_succ_of_lt ht) c) c
    show (forEach cnt body >>= fun _ => body cnt) (hp c) = _
    rw [Exec.bind_ok _ _ _ _ _ h1, hb cnt (Nat.lt_succ_self cnt), forLoop_succ]

/-- A loop that only reads the heap. -/
theorem forAcc_sim {σ : Type} (h : Heap α) (cnt : Nat) (body : Nat → σ → Exec α σ)
    (g : Nat → σ → σ) (hb : ∀ t, t < cnt → ∀ s, body t s h = Except.ok (g t s, h)) :
    ∀ s, forAcc cnt body s h = Except.ok (forLoop cnt g s, h) := by
  induction cnt with
  | zero => intro s; rfl
  | succ cnt ih =>
    intro s
    have h1 := ih (fun t ht s => hb t (Nat.lt_succ_of_lt ht) s) s
    show (forAcc cnt body s >>= fun s' => body cnt s') h = _
    rw [Exec.bind_ok _ _ _ _ _ h1, hb cnt (Nat.lt_succ_self cnt), forLoop_succ]

end HeapFacts

/-! ### The routines on the heap against the routines on contents -/

section HeapRoutines

variable {α : Type}

theorem create_matrix_ok [Zero α] (h : Heap α) (n k : Nat) (hp : h.plan.head? ≠ some false) :
    create_matrix n k h
      = Except.ok (some h.objs.length, h.alloc (SymNMF.create_matrix n k)) := by
  simp only [create_matrix, if_neg hp]

theorem create_matrix_fails [Zero α] (h : Heap α) (n k : Nat) (hp : h.plan.head? = some false) :
    create_matrix n k h = Except.ok (none, h.refuse) := by
  simp only [create_matrix, if_pos hp]

theorem free_matrix_ok (h : Heap α) (a n : Nat) (c : Mat α) (hc : h.content a = some c) :
    free_matrix (some a) n h = Except.ok ((), h.release a) := by
  simp only [free_matrix, hc]

/-- `mat_mult` when the allocation succeeds and both arguments are live: the
result is a new object holding the product; nothing else changes. -/
theorem mat_mult_ok [Zero α] [Add α] [Mul α] (h : Heap α) (a1 a2 : Nat) (c1 c2 : Mat α)
    (n m q : Nat) (h1 : h.content a1 = some c1) (h2 : h.content a2 = some c2)
    (hp : h.plan.head? ≠ some false) :
    mat_mult (some a1) (some a2) n m q h
      = Except.ok (some h.objs.length, h.alloc (SymNMF.mat_mult c1 c2 n m q)) := by
  have l1 := Heap.content_lt h a1 c1 h1
  have l2 := Heap.content_lt h a2 c2 h2
  have hput : ∀ c c' : Mat α, (h.alloc c).put h.objs.length c' = h.alloc c' :=
    fun c c' => Heap.alloc_put h c c'
  have hrd1 : ∀ (c : Mat α) i j, readCell (some a1) i j (h.alloc c)
      = Except.ok (c1.get i j, h.alloc c) := fun c i j =>
    readCell_ok _ a1 i j c1 (by rw [Heap.content_alloc_old h a1 c l1]; exact h1)
  have hrd2 : ∀ (c : Mat α) i j, readCell (some a2) i j (h.alloc c)
      = Except.ok (c2.get i j, h.alloc c) := fun c i j =>
    readCell_ok _ a2 i j c2 (by rw [Heap.content_alloc_old h a2 c l2]; exact h2)
  have hrd3 : ∀ (c : Mat α) i j, readCell (some h.objs.length) i j (h.alloc c)
      = Except.ok (c.get i j, h.alloc c) := fun c i j =>
    readCell_ok _ _ i j c (Heap.content_alloc_new h c)
  have hwr3 : ∀ (c : Mat α) i j v, writeCell (some h.objs.length) i j v (h.alloc c)
      = Except.ok ((), h.alloc (c.set i j v)) := fun c i j v => by
    rw [writeCell_ok _ _ i j c v (Heap.content_alloc_new h c), hput]
  have hzero : (forEach n fun i => forEach q fun j =>
      writeCell (some h.objs.length) i j (0 : α)) (h.alloc (SymNMF.create_matrix n q))
      = Except.ok ((), h.alloc (forLoop n (fun i M3 =>
          forLoop q (fun j (M3 : Mat α) => M3.set i j 0) M3) (SymNMF.create_matrix n q))) :=
    forEach_sim (fun c => h.alloc c) n _ _ (fun i _ c =>
      forEach_sim (fun c => h.alloc c) q _ _ (fun j _ c => hwr3 c i j 0) c) _
  have hprod : ∀ c0 : Mat α, (forEach n fun i => forEach q fun j => forEach m fun t => do
        let x ← readCell (some h.objs.length) i j
        let a ← readCell (some a1) i t
        let b ← readCell (some a2) t j
        writeCell (some h.objs.length) i j (x + a * b)) (h.alloc c0)
      = Except.ok ((), h.alloc (forLoop n (fun i M3 =>
          forLoop q (fun j M3 =>
            forLoop m (fun t (M3 : Mat α) =>
              M3.set i j (M3.get i j + c1.get i t * c2.get t j)) M3) M3) c0)) :=
    fun c0 => forEach_sim (fun c => h.alloc c) n _ _ (fun i _ c =>
      forEach_sim (fun c => h.alloc c) q _ _ (fun j _ c =>
        forEach_sim (fun c => h.alloc c) m _ _ (fun t _ c => by
          rw [Exec.bind_ok _ _ _ _ _ (hrd3 c i j), Exec.bind_ok _ _ _ _ _ (hrd1 c i t),
            Exec.bind_ok _ _ _ _ _ (hrd2 c t j)]
          exact hwr3 c i j _) c) c) c0
  unfold mat_mult
  rw [Exec.bind_ok _ _ _ _ _ (create_matrix_ok h n q hp)]
  rw [if_neg (by simp)]
  rw [Exec.bind_ok _ _ _ _ _ hzero, Exec.bind_ok _ _ _ _ _ (hprod _)]
  rfl

/-- `transpose_matrix` when the allocation succeeds and the argument is live. -/
theorem transpose_matrix_ok [Zero α] (h : Heap α) (a : Nat) (c : Mat α) (n m : Nat)
    (hc : h.content a = some c) (hp : h.plan.head? ≠ some false) :
    transpose_matrix (some a) n m h
      = Except.ok (some h.objs.length, h.alloc (SymNMF.transpose_matrix c n m)) := by
  have l1 := Heap.content_lt h a c hc
  have hrd : ∀ (c' : Mat α) i j, readCell (some a) i j (h.alloc c')
      = Except.ok (c.get i j, h.alloc c') := fun c' i j =>
    readCell_ok _ a i j c (by rw [Heap.content_alloc_old h a c' l1]; exact hc)
  have hwr : ∀ (c' : Mat α) i j v, writeCell (some h.objs.length) i j v (h.alloc c')
      = Except.ok ((), h.alloc (c'.set i j v)) := fun c' i j v => by
    rw [writeCell_ok _ _ i j c' v (Heap.content_alloc_new h c'), Heap.alloc_put]
  have hfill : (forEach n fun i => forEach m fun j => do
        let x ← readCell (some a) i j
        writeCell (some h.objs.length) j i x) (h.alloc (SymNMF.create_matrix m n))
      = Except.ok ((), h.alloc (forLoop n (fun i trans =>
          forLoop m (fun j (trans : Mat α) => trans.set j i (c.get i j)) trans)
          (SymNMF.create_matrix m n))) :=
    forEach_sim (fun c => h.alloc c) n _ _ (fun i _ c' =>
      forEach_sim (fun c => h.alloc c) m _ _ (fun j _ c' => by
        rw [Exec.bind_ok _ _ _ _ _ (hrd c' i j)]
        exact hwr c' j i _) c') _
  unfold transpose_matrix
  rw [Exec.bind_ok _ _ _ _ _ (create_matrix_ok h m n hp)]
  rw [if_neg (by simp)]
  rw [Exec.bind_ok _ _ _ _ _ hfill]
  rfl

/-- `mat_mult` when the allocation fails: both arguments are released and
`NULL` is returned. -/
theorem mat_mult_refused [Zero α] [Add α] [Mul α] (h : Heap α) (M1 M2 : Ptr) (n m q : Nat)
    (hp : h.plan.head? = some false) :
    mat_mult M1 M2 n m q h
      = (do free_matrix M1 n; free_matrix M2 m; return none : Exec α Ptr) h.refuse := by
  unfold mat_mult
  rw [Exec.bind_ok _ _ _ _ _ (create_matrix_fails h n q hp)]
  rw [if_pos rfl]

/-- `transpose_matrix` when the allocation fails: the argument is released and
`NULL` is returned. -/
theorem transpose_matrix_refused [Zero α] (h : Heap α) (M : Ptr) (n m : Nat)
    (hp : h.plan.head? = some false) :
    transpose_matrix M n m h
      = (do free_matrix M n; return none : Exec α Ptr) h.refuse := by
  unfold transpose_matrix
  rw [Exec.bind_ok _ _ _ _ _ (create_matrix_fails h m n hp)]
  rw [if_pos rfl]

/-- The loop at the head of an iteration of `calcul`: `old_H` receives a copy
of `H`. -/
theorem copy_loop_ok [Zero α] (h : Heap α) (aH aO : Nat) (cH cO : Mat α) (n k : Nat)
    (hH : h.content aH = some cH) (hO : h.content aO = some cO) (hne : aO ≠ aH) :
    (forEach n fun i => forEach k fun j => do
        let x ← readCell (some aH) i j
        writeCell (some aO) i j x) h
      = Except.ok ((), h.put aO (forLoop n (fun i old_H =>
          forLoop k (fun j (old_H : Mat α) => old_H.set i j (cH.get i j)) old_H) cO)) := by
  have lO := Heap.content_lt h aO cO hO
  have hrd : ∀ (c : Mat α) i j, readCell (some aH) i j (h.put aO c)
      = Except.ok (cH.get i j, h.put aO c) := fun c i j =>
    readCell_ok _ aH i j cH (by rw [Heap.content_put_other h aO aH c hne]; exact hH)
  have hwr : ∀ (c : Mat α) i j v, writeCell (some aO) i j v (h.put aO c)
      = Except.ok ((), h.put aO (c.set i j v)) := fun c i j v => by
    rw [writeCell_ok _ _ i j c v (Heap.content_put_same h aO c lO), Heap.put_put]
  have key := forEach_sim (fun c => h.put aO c) n
    (fun i => forEach k fun j => do
        let x ← readCell (some aH) i j
        writeCell (some aO) i j x)
    (fun i old_H => forLoop k (fun j (old_H : Mat α) => old_H.set i j (cH.get i j)) old_H)
    (fun i _ c =>
      forEach_sim (fun c => h.put aO c) k _ _ (fun j _ c => by
        rw [Exec.bind_ok _ _ _ _ _ (hrd c i j)]
        exact hwr c i j _) c) cO
  rw [Heap.put_content h aO cO hO] at key
  exact key

/-- The update loop of `calcul`. -/
theorem update_loop_ok [Zero α] [Add α] [Mul α] [Div α] [OfScientific α] (h : Heap α)
    (aH aO aM aC : Nat) (cH cO cM cC : Mat α) (n k : Nat)
    (hH : h.content aH = some cH) (hO : h.content aO = some cO)
    (hM : h.content aM = some cM) (hC : h.content aC = some cC)
    (hneO : aH ≠ aO) (hneM : aH ≠ aM) (hneC : aH ≠ aC) :
    (forEach n fun i => forEach k fun j => do
        let o ← readCell (some aO) i j
        let a ← readCell (some aM) i j
        let b ← readCell (some aC) i j
        writeCell (some aH) i j (o * (0.5 + 0.5 * (a / b)))) h
      = Except.ok ((), h.put aH (forLoop n (fun i H =>
          forLoop k (fun j (H : Mat α) =>
            H.set i j (cO.get i j * (0.5 + 0.5 * (cM.get i j / cC.get i j)))) H) cH)) := by
  have lH := Heap.content_lt h aH cH hH
  have hrdO : ∀ (c : Mat α) i j, readCell (some aO) i j (h.put aH c)
      = Except.ok (cO.get i j, h.put aH c) := fun c i j =>
    readCell_ok _ aO i j cO (by rw [Heap.content_put_other h aH aO c hneO]; exact hO)
  have hrdM : ∀ (c : Mat α) i j, readCell (some aM) i j (h.put aH c)
      = Except.ok (cM.get i j, h.put aH c) := fun c i j =>
    readCell_ok _ aM i j cM (by rw [Heap.content_put_other h aH aM c hneM]; exact hM)
  have hrdC : ∀ (c : Mat α) i j, readCell (some aC) i j (h.put aH c)
      = Except.ok (cC.get i j, h.put aH c) := fun c i j =>
    readCell_ok _ aC i j cC (by rw [Heap.content_put_other h aH aC c hneC]; exact hC)
  have hwr : ∀ (c : Mat α) i j v, writeCell (some aH) i j v (h.put aH c)
      = Except.ok ((), h.put aH (c.set i j v)) := fun c i j v => by
    rw [writeCell_ok _ _ i j c v (Heap.content_put_same h aH c lH), Heap.put_put]
  have key := forEach_sim (fun c => h.put aH c) n
    (fun i => forEach k fun j => do
        let o ← readCell (some aO) i j
        let a ← readCell (some aM) i j
        let b ← readCell (some aC) i j
        writeCell (some aH) i j (o * (0.5 + 0.5 * (a / b))))
    (fun i H => forLoop k (fun j (H : Mat α) =>
      H.set i j (cO.get i j * (0.5 + 0.5 * (cM.get i j / cC.get i j)))) H)
    (fun i _ c =>
      forEach_sim (fun c => h.put aH c) k _ _ (fun j _ c => by
        rw [Exec.bind_ok _ _ _ _ _ (hrdO c i j), Exec.bind_ok _ _ _ _ _ (hrdM c i j),
          Exec.bind_ok _ _ _ _ _ (hrdC c i j)]
        exact hwr c i j _) c) cH
  rw [Heap.put_content h aH cH hH] at key
  exact key

/-- The loop of `calcul` that leaves the change of `H` in `old_H`. -/
theorem diff_loop_ok [Zero α] [Sub α] (h : Heap α) (aH aO : Nat) (cH cO : Mat α) (n k : Nat)
    (hH : h.content aH = some cH) (hO : h.content aO = some cO) (hne : aO ≠ aH) :
    (forEach n fun i => forEach k fun j => do
        let x ← readCell (some aH) i j
        let o ← readCell (some aO) i j
        writeCell (some aO) i j (x - o)) h
      = Except.ok ((), h.put aO (forLoop n (fun i old_H =>
          forLoop k (fun j (old_H : Mat α) =>
            old_H.set i j (cH.get i j - old_H.get i j)) old_H) cO)) := by
  have lO := Heap.content_lt h aO cO hO
  have hrd : ∀ (c : Mat α) i j, readCell (some aH) i j (h.put aO c)
      = Except.ok (cH.get i j, h.put aO c) := fun c i j =>
    readCell_ok _ aH i j cH (by rw [Heap.content_put_other h aO aH c hne]; exact hH)
  have hrdO : ∀ (c : Mat α) i j, readCell (some aO) i j (h.put aO c)
      = Except.ok (c.get i j, h.put aO c) := fun c i j =>
    readCell_ok _ aO i j c (Heap.content_put_same h aO c lO)
  have hwr : ∀ (c : Mat α) i j v, writeCell (some aO) i j v (h.put aO c)
      = Except.ok ((), h.put aO (c.set i j v)) := fun c i j v => by
    rw [writeCell_ok _ _ i j c v (Heap.content_put_same h aO c lO), Heap.put_put]
  have key := forEach_sim (fun c => h.put aO c) n
    (fun i => forEach k fun j => do
        let x ← readCell (some aH) i j
        let o ← readCell (some aO) i j
        writeCell (some aO) i j (x - o))
    (fun i old_H => forLoop k (fun j (old_H : Mat α) =>
      old_H.set i j (cH.get i j - old_H.get i j)) old_H)
    (fun i _ c =>
      forEach_sim (fun c => h.put aO c) k _ _ (fun j _ c => by
        rw [Exec.bind_ok _ _ _ _ _ (hrd c i j), Exec.bind_ok _ _ _ _ _ (hrdO c i j)]
        exact hwr c i j _) c) cO
  rw [Heap.put_content h aO cO hO] at key
  exact key

/-- A loop with a local variable whose body faults at every index faults as
soon as it has an iteration to run. -/
theorem forAcc_fault {σ : Type} (cnt : Nat) (body : Nat → σ → Exec α σ) (e : Fault)
    (hb : ∀ t s h, body t s h = Except.error e) (hcnt : 0 < cnt) (s : σ) (h : Heap α) :
    forAcc cnt body s h = Except.error e := by
  induction cnt with
  | zero => omega
  | succ cnt ih =>
    show (forAcc cnt body s >>= fun s' => body cnt s') h = _
    rw [Exec.bind_apply]
    cases hres : forAcc cnt body s h with
    | error e' =>
      cases cnt with
      | zero => exact absurd hres (by simp [forAcc, Exec.pure_apply])
      | succ c => rw [ih (Nat.succ_pos c)] at hres; rw [← hres]
    | ok r => exact hb cnt r.1 r.2

theorem Heap.plan_ok_of_cons (h : Heap α) (rest : List Bool) (hp : h.plan = true :: rest) :
    h.plan.head? ≠ some false := by
  rw [hp]; simp

theorem Heap.plan_fails_of_cons (h : Heap α) (rest : List Bool) (hp : h.plan = false :: rest) :
    h.plan.head? = some false := by
  rw [hp]; rfl

/-- Indexing `NULL` in the trace loop of `forb`. -/
theorem trace_loop_null [Zero α] [Add α] (k : Nat) (hk : 0 < k) (h : Heap α) :
    forAcc k (fun i (trace : α) => do
      let x ← readCell none i i
      return trace + x) 0 h = Except.error Fault.nullIndex :=
  forAcc_fault k _ Fault.nullIndex (fun _ _ _ => rfl) hk 0 h

/-- A loop whose first iteration faults on the heap it starts from faults. -/
theorem forEach_fault (cnt : Nat) (body : Nat → Exec α Unit) (e : Fault) (h : Heap α)
    (hb : body 0 h = Except.error e) (hcnt : 0 < cnt) :
    forEach cnt body h = Except.error e := by
  induction cnt with
  | zero => omega
  | succ cnt ih =>
    show (forEach cnt body >>= fun _ => body cnt) h = _
    cases cnt with
    | zero => exact hb
    | succ c => exact Exec.bind_error _ _ _ _ (ih (Nat.succ_pos c))

/-- `mat_mult` when the allocation succeeds and the entries of `M1` cannot be
read (`M1` is `NULL` or released): the product loop faults at its first read
of `M1`. -/
theorem mat_mult_left_fault [Zero α] [Add α] [Mul α] (h : Heap α) (M1 M2 : Ptr) (n m q : Nat)
    (e : Fault) (hp : h.plan.head? ≠ some false) (hn : 0 < n) (hm : 0 < m) (hq : 0 < q)
    (hr : ∀ c i t, readCell M1 i t (h.alloc c) = Except.error e) :
    mat_mult M1 M2 n m q h = Except.error e := by
  have hwr3 : ∀ (c : Mat α) i j v, writeCell (some h.objs.length) i j v (h.alloc c)
      = Except.ok ((), h.alloc (c.set i j v)) := fun c i j v => by
    rw [writeCell_ok _ _ i j c v (Heap.content_alloc_new h c), Heap.alloc_put]
  have hzero : (forEach n fun i => forEach q fun j =>
      writeCell (some h.objs.length) i j (0 : α)) (h.alloc (SymNMF.create_matrix n q))
      = Except.ok ((), h.alloc (forLoop n (fun i M3 =>
          forLoop q (fun j (M3 : Mat α) => M3.set i j 0) M3) (SymNMF.create_matrix n q))) :=
    forEach_sim (fun c => h.alloc c) n _ _ (fun i _ c =>
      forEach_sim (fun c => h.alloc c) q _ _ (fun j _ c => hwr3 c i j 0) c) _
  have hprod : ∀ c0 : Mat α, (forEach n fun i => forEach q fun j => forEach m fun t => do
        let x ← readCell (some h.objs.length) i j
        let a ← readCell M1 i t
        let b ← readCell M2 t j
        writeCell (some h.objs.length) i j (x + a * b)) (h.alloc c0)
      = Except.error e :=
    fun c0 => forEach_fault n _ e _ (forEach_fault q _ e _ (forEach_fault m _ e _ (by
      rw [Exec.bind_ok _ _ _ _ _ (readCell_ok _ _ 0 0 c0 (Heap.content_alloc_new h c0))]
      exact Exec.bind_error _ _ _ _ (hr c0 0 0)) hm) hq) hn
  unfold mat_mult
  rw [Exec.bind_ok _ _ _ _ _ (create_matrix_ok h n q hp)]
  rw [if_neg (by simp)]
  rw [Exec.bind_ok _ _ _ _ _ hzero]
  exact Exec.bind_error _ _ _ _ (hprod _)

/-- `mat_mult` with `NULL` for `M1` after a successful allocation. -/
theorem mat_mult_null_left [Zero α] [Add α] [Mul α] (h : Heap α) (M2 : Ptr) (n m q : Nat)
    (hp : h.plan.head? ≠ some false) (hn : 0 < n) (hm : 0 < m) (hq : 0 < q) :
    mat_mult none M2 n m q h = Except.error Fault.nullIndex :=
  mat_mult_left_fault h none M2 n m q _ hp hn hm hq (fun _ _ _ => rfl)

/-- `mat_mult` with a released matrix for `M1` after a successful allocation. -/
theorem mat_mult_released_left [Zero α] [Add α] [Mul α] (h : Heap α) (a : Nat) (M2 : Ptr)
    (n m q : Nat) (ha : a < h.objs.length) (hc : h.content a = none)
    (hp : h.plan.head? ≠ some false) (hn : 0 < n) (hm : 0 < m) (hq : 0 < q) :
    mat_mult (some a) M2 n m q h = Except.error Fault.useAfterFree :=
  mat_mult_left_fault h (some a) M2 n m q _ hp hn hm hq (fun c i t => by
    have hc' : (h.alloc c).content a = none := by
      rw [Heap.content_alloc_old h a c ha]; exact hc
    simp only [readCell, hc'])

theorem Heap.plan_ok_of_nil (h : Heap α) (hp : h.plan = []) :
    h.plan.head? ≠ some false := by
  rw [hp]; simp


/-- One turn of the loop of `calcul` on the heap. -/
theorem calcul_loop_step [Zero α] [Add α] [Sub α] [Mul α] [Div α] [OfScientific α] [LT α]
    [DecidableRel (fun (x y : α) => x < y)]
    (fuel : Nat) (H W : Ptr) (n k : Nat) (mone0 mechane0 old_H : Ptr) :
    (calcul_loop (fuel + 1) H W n k mone0 mechane0 old_H : Exec α Nat) = (do
      forEach n fun i => forEach k fun j => do
        let x ← readCell H i j
        writeCell old_H i j x
      let mone ← mat_mult W old_H n n k
      if mone = none then
        (if H ≠ none then free_matrix H n else pure ())
        (if mechane0 ≠ none then free_matrix mechane0 n else pure ())
        return 0
      else
        let trans ← transpose_matrix old_H n k
        let prod ← mat_mult old_H trans n k n
        let mechane ← mat_mult prod old_H n n k
        if mechane = none then
          free_matrix H n
          free_matrix mone n
          return 0
        else
          forEach n fun i => forEach k fun j => do
            let o ← readCell old_H i j
            let a ← readCell mone i j
            let b ← readCell mechane i j
            writeCell H i j (o * (0.5 + 0.5 * (a / b)))
          forEach n fun i => forEach k fun j => do
            let x ← readCell H i j
            let o ← readCell old_H i j
            writeCell old_H i j (x - o)
          let f ← forb old_H n k
          if f < EPSILON then
            return 1
          else
            calcul_loop fuel H W n k mone mechane old_H) := rfl

end HeapRoutines

/-! ### Runs in which every allocation succeeds -/

section Granted

variable {α : Type}

theorem Heap.content_alloc (h : Heap α) (a : Nat) (c : Mat α) :
    (h.alloc c).content a = if a = h.objs.length then some c else h.content a := by
  by_cases ha : a = h.objs.length
  · rw [if_pos ha, ha]; exact Heap.content_alloc_new h c
  · rw [if_neg ha]
    by_cases hl : a < h.objs.length
    · exact Heap.content_alloc_old h a c hl
    · unfold Heap.content Heap.alloc
      have hgt : h.objs.length < a := by omega
      rw [List.getD_eq_getElem?_getD, List.getD_eq_getElem?_getD,
        List.getElem?_eq_none_iff.mpr (Nat.le_of_lt hgt),
        List.getElem?_eq_none_iff.mpr (by simp; omega)]

theorem Heap.content_put (h : Heap α) (a b : Nat) (c : Mat α) :
    (h.put a c).content b = if b = a ∧ a < h.objs.length then some c else h.content b := by
  by_cases hab : b = a
  · subst hab
    by_cases hl : b < h.objs.length
    · rw [if_pos ⟨rfl, hl⟩]; exact Heap.content_put_same h b c hl
    · rw [if_neg (fun hh => hl hh.2)]
      unfold Heap.content Heap.put
      simp [List.getD_eq_getElem?_getD, List.getElem?_set, hl,
        List.getElem?_eq_none_iff.mpr (Nat.le_of_not_lt hl)]
  · rw [if_neg (fun hh => hab hh.1)]
    exact Heap.content_put_other h a b c (Ne.symm hab)

theorem Heap.plan_alloc (h : Heap α) (c : Mat α) : (h.alloc c).plan = h.plan.tail := rfl

theorem Heap.plan_put (h : Heap α) (a : Nat) (c : Mat α) : (h.put a c).plan = h.plan := rfl

/-- `forb` when its two allocations succeed: the value is `forb` of the
contents, and the transpose and the product stay allocated. -/
theorem forb_ok [Zero α] [Add α] [Mul α] (h : Heap α) (a : Nat) (c : Mat α) (n m : Nat)
    (hc : h.content a = some c) (hp : h.plan = []) :
    forb (some a) n m h
      = Except.ok (SymNMF.forb c n m,
          (h.alloc (SymNMF.transpose_matrix c n m)).alloc
            (SymNMF.mat_mult (SymNMF.transpose_matrix c n m) c m n m)) := by
  have la := Heap.content_lt h a c hc
  have e1 := transpose_matrix_ok h a c n m hc (Heap.plan_ok_of_nil h hp)
  have e2 := mat_mult_ok (h.alloc (SymNMF.transpose_matrix c n m)) h.objs.length a
    (SymNMF.transpose_matrix c n m) c m n m (Heap.content_alloc_new h _)
    (by rw [Heap.content_alloc_old h a _ la]; exact hc)
    (Heap.plan_ok_of_nil _ (by rw [Heap.plan_alloc, hp]; rfl))
  rw [Heap.length_alloc] at e2
  unfold forb
  rw [Exec.bind_ok _ _ _ _ _ e1, Exec.bind_ok _ _ _ _ _ e2]
  exact forAcc_sim _ m _ (fun i trace => trace
      + (SymNMF.mat_mult (SymNMF.transpose_matrix c n m) c m n m).get i i)
    (fun t _ s => by
      rw [Exec.bind_ok _ _ _ _ _ (readCell_ok _ _ t t _
        (by rw [← Heap.length_alloc h (SymNMF.transpose_matrix c n m)]
            exact Heap.content_alloc_new _ _))]
      rfl) 0

/-- The loop of `calcul` when every allocation succeeds, for live and distinct
`H`, `W`, `old_H`: it returns `1`, and `H` and `old_H` hold what the loop on
contents computes; `W` and every other matrix that was there before are
unchanged. -/
theorem calcul_loop_ok [Zero α] [Add α] [Sub α] [Mul α] [Div α] [OfScientific α] [LT α]
    [DecidableRel (fun (x y : α) => x < y)]
    (aH aW aO : Nat) (cW : Mat α) (n k : Nat) (hHW : aH ≠ aW) (hHO : aH ≠ aO)
    (hWO : aW ≠ aO) :
    ∀ (fuel m : Nat) (cH cO : Mat α) (mone mechane : Ptr) (h : Heap α),
      h.content aH = some cH → h.content aW = some cW → h.content aO = some cO →
      h.plan = [] →
      ∃ h', calcul_loop fuel (some aH) (some aW) n k mone mechane (some aO) h
          = Except.ok (1, h')
        ∧ h'.content aH = some (SymNMF.calcul_loop fuel m cH cW cO n k).H
        ∧ h'.content aO = some (SymNMF.calcul_loop fuel m cH cW cO n k).old_H
        ∧ h'.plan = []
        ∧ ∀ b, b < h.objs.length → b ≠ aH → b ≠ aO → h'.content b = h.content b := by
  intro fuel
  induction fuel with
  | zero =>
    intro m cH cO mone mechane h hH _ hO hp
    exact ⟨h, rfl, hH, hO, hp, fun _ _ _ _ => rfl⟩
  | succ fuel ih =>
    intro m cH cO mone0 mechane0 h hH hW hO hp
    have lH := Heap.content_lt h aH cH hH
    have lW := Heap.content_lt h aW cW hW
    have lO := Heap.content_lt h aO cO hO
    -- the values of the iteration
    obtain ⟨O1, hO1⟩ : ∃ O1 : Mat α, O1 = forLoop n (fun i old_H =>
        forLoop k (fun j (old_H : Mat α) => old_H.set i j (cH.get i j)) old_H) cO := ⟨_, rfl⟩
    obtain ⟨M, hM⟩ : ∃ M : Mat α, M = SymNMF.mat_mult cW O1 n n k := ⟨_, rfl⟩
    obtain ⟨T, hT⟩ : ∃ T : Mat α, T = SymNMF.transpose_matrix O1 n k := ⟨_, rfl⟩
    obtain ⟨P, hP⟩ : ∃ P : Mat α, P = SymNMF.mat_mult O1 T n k n := ⟨_, rfl⟩
    obtain ⟨C, hC⟩ : ∃ C : Mat α, C = SymNMF.mat_mult P O1 n n k := ⟨_, rfl⟩
    obtain ⟨H1, hH1⟩ : ∃ H1 : Mat α, H1 = forLoop n (fun i H =>
        forLoop k (fun j (H : Mat α) =>
          H.set i j (O1.get i j * (0.5 + 0.5 * (M.get i j / C.get i j)))) H) cH := ⟨_, rfl⟩
    obtain ⟨O2, hO2⟩ : ∃ O2 : Mat α, O2 = forLoop n (fun i old_H =>
        forLoop k (fun j (old_H : Mat α) =>
          old_H.set i j (H1.get i j - old_H.get i j)) old_H) O1 := ⟨_, rfl⟩
    have hiter : SymNMF.calcul_iter cH cW cO n k = (H1, O2) := by
      subst hO1 hM hT hP hC hH1 hO2; rfl
    -- the heaps of the iteration
    obtain ⟨g1, hg1⟩ : ∃ g1 : Heap α, g1 = h.put aO O1 := ⟨_, rfl⟩
    obtain ⟨g2, hg2⟩ : ∃ g2 : Heap α, g2 = g1.alloc M := ⟨_, rfl⟩
    obtain ⟨g3, hg3⟩ : ∃ g3 : Heap α, g3 = g2.alloc T := ⟨_, rfl⟩
    obtain ⟨g4, hg4⟩ : ∃ g4 : Heap α, g4 = g3.alloc P := ⟨_, rfl⟩
    obtain ⟨g5, hg5⟩ : ∃ g5 : Heap α, g5 = g4.alloc C := ⟨_, rfl⟩
    obtain ⟨g6, hg6⟩ : ∃ g6 : Heap α, g6 = g5.put aH H1 := ⟨_, rfl⟩
    obtain ⟨g7, hg7⟩ : ∃ g7 : Heap α, g7 = g6.put aO O2 := ⟨_, rfl⟩
    obtain ⟨g9, hg9⟩ : ∃ g9 : Heap α, g9 = (g7.alloc (SymNMF.transpose_matrix O2 n k)).alloc
        (SymNMF.mat_mult (SymNMF.transpose_matrix O2 n k) O2 k n k) := ⟨_, rfl⟩
    have n1 : g1.objs.length = h.objs.length := by rw [hg1, Heap.length_put]
    have n2 : g2.objs.length = h.objs.length + 1 := by rw [hg2, Heap.length_alloc, n1]
    have n3 : g3.objs.length = h.objs.length + 2 := by rw [hg3, Heap.length_alloc, n2]
    have n4 : g4.objs.length = h.objs.length + 3 := by rw [hg4, Heap.length_alloc, n3]
    have n5 : g5.objs.length = h.objs.length + 4 := by rw [hg5, Heap.length_alloc, n4]
    have n6 : g6.objs.length = h.objs.length + 4 := by rw [hg6, Heap.length_put, n5]
    have n7 : g7.objs.length = h.objs.length + 4 := by rw [hg7, Heap.length_put, n6]
    have p1 : g1.plan = [] := by rw [hg1, Heap.plan_put, hp]
    have p2 : g2.plan = [] := by rw [hg2, Heap.plan_alloc, p1]; rfl
    have p3 : g3.plan = [] := by rw [hg3, Heap.plan_alloc, p2]; rfl
    have p4 : g4.plan = [] := by rw [hg4, Heap.plan_alloc, p3]; rfl
    have p5 : g5.plan = [] := by rw [hg5, Heap.plan_alloc, p4]; rfl
    have p7 : g7.plan = [] := by rw [hg7, Heap.plan_put, hg6, Heap.plan_put, p5]
    have p9 : g9.plan = [] := by rw [hg9, Heap.plan_alloc, Heap.plan_alloc, p7]; rfl
    -- contents along the way
    have c1 : ∀ b, g1.content b = if b = aO then some O1 else h.content b := fun b => by
      rw [hg1, Heap.content_put]
      by_cases hb : b = aO
      · rw [if_pos ⟨hb, lO⟩, if_pos hb]
      · rw [if_neg (fun hh => hb hh.1), if_neg hb]
    have c2 : ∀ b, g2.content b = if b = h.objs.length then some M else g1.content b :=
      fun b => by rw [hg2, Heap.content_alloc, n1]
    have c3 : ∀ b, g3.content b = if b = h.objs.length + 1 then some T else g2.content b :=
      fun b => by rw [hg3, Heap.content_alloc, n2]
    have c4 : ∀ b, g4.content b = if b = h.objs.length + 2 then some P else g3.content b :=
      fun b => by rw [hg4, Heap.content_alloc, n3]
    have c5 : ∀ b, g5.content b = if b = h.objs.length + 3 then some C else g4.content b :=
      fun b => by rw [hg5, Heap.content_alloc, n4]
    have c6 : ∀ b, g6.content b = if b = aH then some H1 else g5.content b := fun b => by
      rw [hg6, Heap.content_put]
      by_cases hb : b = aH
      · rw [if_pos ⟨hb, by omega⟩, if_pos hb]
      · rw [if_neg (fun hh => hb hh.1), if_neg hb]
    have c7 : ∀ b, g7.content b = if b = aO then some O2 else g6.content b := fun b => by
      rw [hg7, Heap.content_put]
      by_cases hb : b = aO
      · rw [if_pos ⟨hb, by omega⟩, if_pos hb]
      · rw [if_neg (fun hh => hb hh.1), if_neg hb]
    have c9 : ∀ b, b < h.objs.length + 4 → g9.content b = g7.content b := fun b hb => by
      rw [hg9, Heap.content_alloc, Heap.content_alloc, Heap.length_alloc, n7,
        if_neg (by omega), if_neg (by omega)]
    -- the steps of the iteration
    have e2 : (forEach n fun i => forEach k fun j => do
          let x ← readCell (some aH) i j
          writeCell (some aO) i j x) h = Except.ok ((), g1) := by
      rw [hg1, hO1]; exact copy_loop_ok h aH aO cH cO n k hH hO (Ne.symm hHO)
    have e3 : mat_mult (some aW) (some aO) n n k g1 = Except.ok (some h.objs.length, g2) := by
      rw [hg2, hM, ← n1]
      exact mat_mult_ok g1 aW aO cW O1 n n k
        (by rw [c1, if_neg hWO]; exact hW) (by rw [c1, if_pos rfl])
        (Heap.plan_ok_of_nil _ p1)
    have e4 : transpose_matrix (some aO) n k g2
        = Except.ok (some (h.objs.length + 1), g3) := by
      rw [hg3, hT, ← n2]
      exact transpose_matrix_ok g2 aO O1 n k
        (by rw [c2, if_neg (by omega), c1, if_pos rfl]) (Heap.plan_ok_of_nil _ p2)
    have e5 : mat_mult (some aO) (some (h.objs.length + 1)) n k n g3
        = Except.ok (some (h.objs.length + 2), g4) := by
      rw [hg4, hP, ← n3]
      exact mat_mult_ok g3 aO (h.objs.length + 1) O1 T n k n
        (by rw [c3, if_neg (by omega), c2, if_neg (by omega), c1, if_pos rfl])
        (by rw [c3, if_pos rfl]) (Heap.plan_ok_of_nil _ p3)
    have e6 : mat_mult (some (h.objs.length + 2)) (some aO) n n k g4
        = Except.ok (some (h.objs.length + 3), g5) := by
      rw [hg5, hC, ← n4]
      exact mat_mult_ok g4 (h.objs.length + 2) aO P O1 n n k
        (by rw [c4, if_pos rfl])
        (by rw [c4, if_neg (by omega), c3, if_neg (by omega), c2, if_neg (by omega), c1,
              if_pos rfl])
        (Heap.plan_ok_of_nil _ p4)
    have e7 : (forEach n fun i => forEach k fun j => do
          let o ← readCell (some aO) i j
          let a ← readCell (some h.objs.length) i j
          let b ← readCell (some (h.objs.length + 3)) i j
          writeCell (some aH) i j (o * (0.5 + 0.5 * (a / b)))) g5 = Except.ok ((), g6) := by
      rw [hg6, hH1]
      exact update_loop_ok g5 aH aO h.objs.length (h.objs.length + 3) cH O1 M C n k
        (by rw [c5, if_neg (by omega), c4, if_neg (by omega), c3, if_neg (by omega), c2,
              if_neg (by omega), c1, if_neg hHO]; exact hH)
        (by rw [c5, if_neg (by omega), c4, if_neg (by omega), c3, if_neg (by omega), c2,
              if_neg (by omega), c1, if_pos rfl])
        (by rw [c5, if_neg (by omega), c4, if_neg (by omega), c3, if_neg (by omega), c2,
              if_pos rfl])
        (by rw [c5, if_pos rfl])
        hHO (by omega) (by omega)
    have e8 : (forEach n fun i => forEach k fun j => do
          let x ← readCell (some aH) i j
          let o ← readCell (some aO) i j
          writeCell (some aO) i j (x - o)) g6 = Except.ok ((), g7) := by
      rw [hg7, hO2]
      exact diff_loop_ok g6 aH aO H1 O1 n k
        (by rw [c6, if_pos rfl])
        (by rw [c6, if_neg (Ne.symm hHO), c5, if_neg (by omega), c4, if_neg (by omega), c3,
              if_neg (by omega), c2, if_neg (by omega), c1, if_pos rfl])
        (Ne.symm hHO)
    have e9 : forb (some aO) n k g7 = Except.ok (SymNMF.forb O2 n k, g9) := by
      rw [hg9]
      exact forb_ok g7 aO O2 n k (by rw [c7, if_pos rfl]) p7
    -- contents after the iteration
    have old : ∀ b, b < h.objs.length → b ≠ aH → b ≠ aO → g9.content b = h.content b :=
      fun b hb hbH hbO => by
        rw [c9 b (by omega), c7, if_neg hbO, c6, if_neg hbH, c5, if_neg (by omega), c4,
          if_neg (by omega), c3, if_neg (by omega), c2, if_neg (by omega), c1, if_neg hbO]
    have k9H : g9.content aH = some H1 := by
      rw [c9 aH (by omega), c7, if_neg hHO, c6, if_pos rfl]
    have k9O : g9.content aO = some O2 := by
      rw [c9 aO (by omega), c7, if_pos rfl]
    have k9W : g9.content aW = some cW := by
      rw [old aW lW (Ne.symm hHW) hWO]; exact hW
    have l9 : h.objs.length ≤ g9.objs.length := by
      rw [hg9, Heap.length_alloc, Heap.length_alloc, n7]; omega
    rw [calcul_loop_step, Exec.bind_ok _ _ _ _ _ e2, Exec.bind_ok _ _ _ _ _ e3,
      if_neg (by simp), Exec.bind_ok _ _ _ _ _ e4, Exec.bind_ok _ _ _ _ _ e5,
      Exec.bind_ok _ _ _ _ _ e6, if_neg (by simp), Exec.bind_ok _ _ _ _ _ e7,
      Exec.bind_ok _ _ _ _ _ e8, Exec.bind_ok _ _ _ _ _ e9, calcul_loop_unfold, hiter]
    by_cases hlt : SymNMF.forb O2 n k < EPSILON
    · rw [if_pos hlt, if_pos hlt]
      exact ⟨g9, rfl, k9H, k9O, p9, old⟩
    · rw [if_neg hlt, if_neg hlt]
      obtain ⟨h', r1, r2, r3, r4, r5⟩ := ih (m + 1) H1 O2 (some h.objs.length)
        (some (h.objs.length + 3)) g9 k9H k9W k9O p9
      exact ⟨h', r1, r2, r3, r4, fun b hb hbH hbO => by
        rw [r5 b (by omega) hbH hbO, old b hb hbH hbO]⟩

/-- `opt_mat_with_H` when every allocation succeeds, for live and distinct `H`
and `W`: `calcul` returns `1`, the pointer `H` is returned, the matrix it
points to holds what `opt_mat_with_H` on contents computes, `old_H` has been
released, and `W` and every other matrix that was there before are unchanged. -/
theorem opt_mat_with_H_granted [Zero α] [Add α] [Sub α] [Mul α] [Div α] [OfScientific α]
    [LT α] [DecidableRel (fun (x y : α) => x < y)]
    (h : Heap α) (aH aW : Nat) (cH cW : Mat α) (n k : Nat)
    (hH : h.content aH = some cH) (hW : h.content aW = some cW) (hne : aH ≠ aW)
    (hp : h.plan = []) :
    ∃ h1 h', calcul (some aH) (some aW) n k none none (some h.objs.length)
          (h.alloc (SymNMF.create_matrix n k)) = Except.ok (1, h1)
      ∧ opt_mat_with_H (some aH) (some aW) n k h = Except.ok (some aH, h')
      ∧ h'.content aH = SymNMF.opt_mat_with_H cH cW n k
      ∧ h'.content h.objs.length = none
      ∧ ∀ b, b < h.objs.length → b ≠ aH → h'.content b = h.content b := by
  have lH := Heap.content_lt h aH cH hH
  have lW := Heap.content_lt h aW cW hW
  have e1 := create_matrix_ok h n k (Heap.plan_ok_of_nil h hp)
  obtain ⟨h1, r1, r2, r3, _, r5⟩ := calcul_loop_ok aH aW h.objs.length cW n k hne
    (by omega) (by omega) MAXITER 0 cH (SymNMF.create_matrix n k) none none
    (h.alloc (SymNMF.create_matrix n k))
    (by rw [Heap.content_alloc_old h aH _ lH]; exact hH)
    (by rw [Heap.content_alloc_old h aW _ lW]; exact hW)
    (Heap.content_alloc_new h _) (by rw [Heap.plan_alloc, hp]; rfl)
  have hpure : SymNMF.opt_mat_with_H cH cW n k
      = some (SymNMF.calcul_loop MAXITER 0 cH cW (SymNMF.create_matrix n k) n k).H := by
    simp only [SymNMF.opt_mat_with_H, SymNMF.calcul]
    rw [if_neg (by decide)]
  have f1 : free_matrix (some h.objs.length) n h1
      = Except.ok ((), h1.release h.objs.length) := free_matrix_ok h1 _ n _ r3
  have r1 : calcul (some aH) (some aW) n k none none (some h.objs.length)
      (h.alloc (SymNMF.create_matrix n k)) = Except.ok (1, h1) := r1
  refine ⟨h1, h1.release h.objs.length, r1, ?_, ?_, Heap.content_release_same _ _, ?_⟩
  · unfold opt_mat_with_H
    rw [Exec.bind_ok _ _ _ _ _ e1, if_neg (by simp), Exec.bind_ok _ _ _ _ _ r1,
      if_neg (by decide), Exec.bind_ok _ _ _ _ _ f1]
    rfl
  · rw [Heap.content_release_other _ _ aH (by omega), r2, hpure]
  · intro b hb hbH
    rw [Heap.content_release_other _ _ b (by omega),
      r5 b (by rw [Heap.length_alloc]; omega) hbH (by omega),
      Heap.content_alloc_old h b _ hb]

end Granted

end Mem

/-! ## Zero entries and the factor one half -/

section Scaling

variable {α : Type} [LinearOrderedField α]

open Dbl

/-- One cell of an iteration of `calcul` on finite doubles: when the
denominator of that cell is non-zero, the cell is the double of the value
computed over the field. -/
theorem calcul_iter_lift_entry (H W old_H : Mat α) (oldD : Mat (Dbl α)) (n k i j : Nat)
    (hH : H.Shape n k) (hO : old_H.Shape n k) (hOD : oldD.Shape n k) (hi : i < n) (hj : j < k)
    (hden : (mat_mult (mat_mult H (transpose_matrix H n k) n k n) H n n k).get i j ≠ 0) :
    (calcul_iter H.lift W.lift oldD n k).1.get i j
      = fin ((calcul_iter H W old_H n k).1.get i j) := by
  have h1 := calcul_iter_spec H.lift W.lift oldD n k (Mat.lift_shape H n k hH) hOD
  have h2 := calcul_iter_spec H W old_H n k hH hO
  rw [h1.2.2.1 i j hi hj, h2.2.2.1 i j hi hj, transpose_matrix_lift, mat_mult_lift,
    mat_mult_lift, mat_mult_lift]
  simp only [Mat.lift_get, Dbl.fin_div, if_neg hden]
  rfl

/-- A zero entry of `H` is zero after one iteration of `calcul`. -/
theorem calcul_iter_zero_entry (H W old_H : Mat α) (n k i j : Nat) (hH : H.Shape n k)
    (hO : old_H.Shape n k) (hi : i < n) (hj : j < k) (h0 : H.get i j = 0) :
    (calcul_iter H W old_H n k).1.get i j = 0 := by
  rw [(calcul_iter_spec H W old_H n k hH hO).2.2.1 i j hi hj, h0, zero_mul]

/-- A zero entry of `H` is zero all along the loop of `calcul`. -/
theorem calcul_loop_zero_entry (W H0 old_H : Mat α) (n k i j : Nat) (hH : H0.Shape n k)
    (hO : old_H.Shape n k) (hi : i < n) (hj : j < k) (h0 : H0.get i j = 0) :
    ∀ t, (calcul_loop t 0 H0 W old_H n k).H.get i j = 0 := by
  intro t
  induction t with
  | zero => exact h0
  | succ t ih =>
    have hs := calcul_loop_shape W n k t 0 H0 old_H hH hO
    rw [calcul_loop_succ W n k t 0 H0 old_H]
    by_cases hb : (calcul_loop t 0 H0 W old_H n k).broke = true
    · rw [if_pos hb]; exact ih
    · rw [if_neg hb]
      exact calcul_iter_zero_entry _ W _ n k i j hs.1 hs.2 hi hj ih

/-- One iteration of `calcul` leaves at least half of every entry of a
non-negative `H`, when `W` is non-negative and the denominator of the entry is
positive. -/
theorem calcul_iter_half (H W old_H : Mat α) (n k i j : Nat) (hH : H.Shape n k)
    (hO : old_H.Shape n k) (hi : i < n) (hj : j < k)
    (hH0 : ∀ a b, a < n → b < k → 0 ≤ H.get a b)
    (hW : ∀ a t, a < n → t < n → 0 ≤ W.get a t)
    (hden : 0 < (mat_mult (mat_mult H (transpose_matrix H n k) n k n) H n n k).get i j) :
    H.get i j / 2 ≤ (calcul_iter H W old_H n k).1.get i j := by
  rw [(calcul_iter_spec H W old_H n k hH hO).2.2.1 i j hi hj]
  have hnum : 0 ≤ (mat_mult W H n n k).get i j := by
    rw [mone_entry W H n k i j hi hj]
    apply Finset.sum_nonneg
    intro t ht
    exact mul_nonneg (hW i t hi (Finset.mem_range.mp ht)) (hH0 t j (Finset.mem_range.mp ht) hj)
  have hq := div_nonneg hnum (le_of_lt hden)
  have h5 : (0.5 : α) = 1 / 2 := by norm_num
  rw [h5]
  have hx := hH0 i j hi hj
  have : H.get i j / 2 = H.get i j * (1 / 2 + 1 / 2 * 0) := by ring
  rw [this]
  apply mul_le_mul_of_nonneg_left _ hx
  have : (0 : α) ≤ 1 / 2 * ((mat_mult W H n n k).get i j /
      (mat_mult (mat_mult H (transpose_matrix H n k) n k n) H n n k).get i j) :=
    mul_nonneg (by norm_num) hq
  linarith

/-- Along the loop of `calcul`, with positive denominators in every executed
iteration, the entry `(i, j)` of `H` after `t` iterations is at least
`H0[i][j] / 2 ^ t`. -/
theorem calcul_loop_half (W H0 old_H : Mat α) (n k bound : Nat)
    (hH : H0.Shape n k) (hO : old_H.Shape n k)
    (hH0 : ∀ i j, i < n → j < k → 0 ≤ H0.get i j)
    (hW : ∀ i t, i < n → t < n → 0 ≤ W.get i t)
    (hden : ∀ t, t < bound → (calcul_loop t 0 H0 W old_H n k).broke = false →
      ∀ i j, i < n → j < k →
        0 < (mat_mult (mat_mult (calcul_loop t 0 H0 W old_H n k).H
          (transpose_matrix (calcul_loop t 0 H0 W old_H n k).H n k) n k n)
          (calcul_loop t 0 H0 W old_H n k).H n n k).get i j) :
    ∀ t, t ≤ bound → ∀ i j, i < n → j < k →
      H0.get i j / 2 ^ t ≤ (calcul_loop t 0 H0 W old_H n k).H.get i j := by
  have hnn := calcul_loop_nonneg W H0 old_H n k bound hH hO hH0 hW hden
  intro t
  induction t with
  | zero => intro _ i j _ _; simp [calcul_loop]
  | succ t ih =>
    intro ht i j hi hj
    have ih' := ih (by omega) i j hi hj
    have hs := calcul_loop_shape W n k t 0 H0 old_H hH hO
    have hx := hH0 i j hi hj
    have hstep : H0.get i j / 2 ^ (t + 1) = H0.get i j / 2 ^ t / 2 := by
      rw [pow_succ, div_div]
    rw [calcul_loop_succ W n k t 0 H0 old_H]
    by_cases hb : (calcul_loop t 0 H0 W old_H n k).broke = true
    · rw [if_pos hb, hstep]
      have h2 : H0.get i j / 2 ^ t / 2 ≤ H0.get i j / 2 ^ t := by
        have : 0 ≤ H0.get i j / 2 ^ t := div_nonneg hx (by positivity)
        linarith
      exact le_trans h2 ih'
    · rw [if_neg hb]
      have hb' : (calcul_loop t 0 H0 W old_H n k).broke = false := by simpa using hb
      have hh := calcul_iter_half _ W (calcul_loop t 0 H0 W old_H n k).old_H n k i j hs.1 hs.2
        hi hj (hnn t (by omega)) hW (hden t (by omega) hb' i j hi hj)
      rw [hstep]
      have : H0.get i j / 2 ^ t / 2 ≤ (calcul_loop t 0 H0 W old_H n k).H.get i j / 2 := by
        linarith
      exact le_trans this hh

/-- What `opt_mat_with_H` returns, in terms of the loop of `calcul`. -/
theorem opt_mat_with_H_eq {β : Type} [Zero β] [Add β] [Sub β] [Mul β] [Div β] [OfScientific β] [LT β]
    [DecidableRel (fun (x y : β) => x < y)] (H W : Mat β) (n k : Nat) :
    opt_mat_with_H H W n k = some (calcul_loop 300 0 H W (create_matrix n k) n k).H := by
  simp only [opt_mat_with_H, calcul, MAXITER]
  rw [if_neg (by decide)]

/-- The run of `opt_mat_with_H` on finite doubles is the run over the field,
when the denominators of every executed iteration are non-zero. -/
theorem opt_mat_with_H_lift (W H : Mat α) (n k : Nat) (hH : H.Shape n k)
    (hden : ∀ t, t < 300 → (calcul_loop t 0 H W (create_matrix n k) n k).broke = false →
      ∀ i j, i < n → j < k →
        (mat_mult (mat_mult (calcul_loop t 0 H W (create_matrix n k) n k).H
          (transpose_matrix (calcul_loop t 0 H W (create_matrix n k) n k).H n k) n k n)
          (calcul_loop t 0 H W (create_matrix n k) n k).H n n k).get i j ≠ 0) :
    opt_mat_with_H H.lift W.lift n k
      = some (calcul_loop 300 0 H W (create_matrix n k) n k).H.lift := by
  rw [opt_mat_with_H_eq, ← create_matrix_lift,
    calcul_loop_lift W n k 300 0 H (create_matrix n k) hH (Mat.shape_create n k) hden]
  rfl

end Scaling

/-! ## A worked example with a zero entry -/

section ZeroEntryExample

/-- `H · Hᵗ` for `H = [[1, 0], [1, 1]]`. -/
theorem zero_entry_gram :
    mat_mult ([[1, 0], [1, 1]] : Mat ℚ) (transpose_matrix [[1, 0], [1, 1]] 2 2) 2 2 2
      = [[1, 1], [1, 2]] := by
  simp [mat_mult, transpose_matrix, create_matrix, forLoop, Mat.set, Mat.get]
  norm_num

/-- The denominators `(H · Hᵗ) · H` for `H = [[1, 0], [1, 1]]`. -/
theorem zero_entry_mechane :
    mat_mult (mat_mult ([[1, 0], [1, 1]] : Mat ℚ) (transpose_matrix [[1, 0], [1, 1]] 2 2) 2 2 2)
      [[1, 0], [1, 1]] 2 2 2 = [[2, 1], [3, 2]] := by
  rw [zero_entry_gram]
  simp [mat_mult, create_matrix, forLoop, Mat.set, Mat.get]
  norm_num

theorem zero_entry_shape : Mat.Shape ([[1, 0], [1, 1]] : Mat ℚ) 2 2 := by
  decide

theorem zero_entry_mechane_ne (i j : Nat) (hi : i < 2) (hj : j < 2) :
    (mat_mult (mat_mult ([[1, 0], [1, 1]] : Mat ℚ) (transpose_matrix [[1, 0], [1, 1]] 2 2) 2 2 2)
      [[1, 0], [1, 1]] 2 2 2).get i j ≠ 0 := by
  rw [zero_entry_mechane]
  interval_cases i <;> interval_cases j <;> simp [Mat.get]

/-- The denominators of every executed iteration of the example run are
non-zero: the loop breaks in its first iteration. -/
theorem zero_entry_run (t : Nat)
    (hb : (calcul_loop t 0 ([[1, 0], [1, 1]] : Mat ℚ) [[1, 1], [1, 2]]
      (create_matrix 2 2) 2 2).broke = false) (i j : Nat) (hi : i < 2) (hj : j < 2) :
    (mat_mult (mat_mult (calcul_loop t 0 ([[1, 0], [1, 1]] : Mat ℚ) [[1, 1], [1, 2]]
        (create_matrix 2 2) 2 2).H
      (transpose_matrix (calcul_loop t 0 ([[1, 0], [1, 1]] : Mat ℚ) [[1, 1], [1, 2]]
        (create_matrix 2 2) 2 2).H 2 2) 2 2 2)
      (calcul_loop t 0 ([[1, 0], [1, 1]] : Mat ℚ) [[1, 1], [1, 2]]
        (create_matrix 2 2) 2 2).H 2 2 2).get i j ≠ 0 := by
  cases t with
  | zero => exact zero_entry_mechane_ne i j hi hj
  | succ t =>
    rw [calcul_loop_exact [[1, 0], [1, 1]] [[1, 1], [1, 2]] (create_matrix 2 2) 2 2 t 0
      zero_entry_shape (Mat.shape_create 2 2) zero_entry_gram.symm zero_entry_mechane_ne] at hb
    exact absurd hb (by simp)

/-- The denominators of every executed iteration of the run from the column
`(1, 2)` with `W = H · Hᵗ` are positive: the loop breaks in its first
iteration. -/
theorem example_run_pos (t : Nat)
    (hb : (calcul_loop t 0 ([[1], [2]] : Mat ℚ) [[1, 2], [2, 4]]
      (create_matrix 2 1) 2 1).broke = false) (i j : Nat) (hi : i < 2) (hj : j < 1) :
    0 < (mat_mult (mat_mult (calcul_loop t 0 ([[1], [2]] : Mat ℚ) [[1, 2], [2, 4]]
        (create_matrix 2 1) 2 1).H
      (transpose_matrix (calcul_loop t 0 ([[1], [2]] : Mat ℚ) [[1, 2], [2, 4]]
        (create_matrix 2 1) 2 1).H 2 1) 2 1 2)
      (calcul_loop t 0 ([[1], [2]] : Mat ℚ) [[1, 2], [2, 4]]
        (create_matrix 2 1) 2 1).H 2 2 1).get i j := by
  cases t with
  | zero => exact example_mechane_pos i j hi hj
  | succ t =>
    rw [calcul_loop_exact [[1], [2]] [[1, 2], [2, 4]] (create_matrix 2 1) 2 1 t 0
      example_shape (Mat.shape_create 2 1) example_gram.symm
      (fun i j hi hj => ne_of_gt (example_mechane_pos i j hi hj))] at hb
    exact absurd hb (by simp)

end ZeroEntryExample

/-! ## The stated properties of the matrix routines -/

section Claims

/-- C6. For every `n × m` matrix `M1` and `m × q` matrix `M2` (indeed for any
two matrices, whatever their shape), `mat_mult(M1, M2, n, m, q)` is an `n × q`
matrix whose entry `(i, j)` is `Σ_{t<m} M1[i][t] * M2[t][j]`; and the product
of the `2 × 3` and the `3 × 2` all-ones matrices is the `2 × 2` matrix of
threes.  The scalars are any commutative additive monoid with a
multiplication. -/
theorem mat_mult_entries :
    (∀ (α : Type) [AddCommMonoid α] [Mul α] (M1 M2 : Mat α) (n m q : Nat),
      (mat_mult M1 M2 n m q).Shape n q ∧
      ∀ i j, i < n → j < q →
        (mat_mult M1 M2 n m q).get i j = ∑ t in Finset.range m, M1.get i t * M2.get t j) ∧
    mat_mult [[1, 1, 1], [1, 1, 1]] [[1, 1], [1, 1], [1, 1]] 2 3 2 = ([[3, 3], [3, 3]] : Mat ℚ) := by
  refine ⟨?_, ?_⟩
  · intro α _ _ M1 M2 n m q
    have h := mat_mult_spec M1 M2 n m q
    refine ⟨h.1, fun i j hi hj => ?_⟩
    rw [h.2 i j, if_pos ⟨hi, hj⟩, forLoop_acc_eq_sum, zero_add]
  · simp [mat_mult, create_matrix, forLoop, Mat.set, Mat.get]
    norm_num

/-- Witness for C6: the entry formula at row 1, column 0 of a `2 × 2` by
`2 × 1` product. -/
theorem mat_mult_entries_witness :
    (mat_mult ([[1, 2], [3, 4]] : Mat ℚ) [[5], [6]] 2 2 1).get 1 0
      = ∑ t in Finset.range 2, Mat.get ([[1, 2], [3, 4]] : Mat ℚ) 1 t * Mat.get [[5], [6]] t 0 :=
  (mat_mult_entries.1 ℚ [[1, 2], [3, 4]] [[5], [6]] 2 2 1).2 1 0 (by decide) (by decide)

/-- C5. For every matrix `A` (no symmetry or sign assumption) and every `n`,
`diag_mat(A, n)` is an `n × n` matrix `D` with `D[i][i] = Σ_{j<n} A[i][j]` for
every `i < n` and `D[i][j] = 0` for every `i ≠ j`. -/
theorem diag_mat_entries (α : Type) [AddCommMonoid α] (A : Mat α) (n : Nat) :
    (diag_mat A n).Shape n n ∧
      (∀ i, i < n → (diag_mat A n).get i i = ∑ j in Finset.range n, A.get i j) ∧
      (∀ i j, i ≠ j → (diag_mat A n).get i j = 0) := by
  have h := diag_mat_spec A n
  refine ⟨h.1, fun i hi => ?_, fun i j hij => ?_⟩
  · rw [h.2 i i, if_pos ⟨rfl, hi⟩, forLoop_acc_eq_sum, zero_add]
  · rw [h.2 i j, if_neg (fun hh => hij hh.1)]

/-- Witness for C5: row 1 of a non-symmetric matrix with a negative entry. -/
theorem diag_mat_entries_witness :
    (diag_mat ([[1, -2], [3, 4]] : Mat ℚ) 2).get 1 1
      = ∑ j in Finset.range 2, Mat.get ([[1, -2], [3, 4]] : Mat ℚ) 1 j :=
  (diag_mat_entries ℚ [[1, -2], [3, 4]] 2).2.1 1 (by decide)

/-- C7. For every matrix `M` and all `n`, `m`, `forb(M, n, m)`, computed as the
trace of `transpose(M) * M`, is the sum of the squares `M[i][j] * M[i][j]` of
the `n * m` entries of `M`: the squared Frobenius norm, without a square
root. -/
theorem forb_eq_sum_squares (α : Type) [AddCommMonoid α] [Mul α] (M : Mat α) (n m : Nat) :
    forb M n m = ∑ i in Finset.range n, ∑ j in Finset.range m, M.get i j * M.get i j := by
  rw [forb_spec, forLoop_acc_eq_sum, zero_add, Finset.sum_comm]
  apply Finset.sum_congr rfl
  intro j _
  rw [forLoop_acc_eq_sum, zero_add]

/-- C4. For every set of `n` points of dimension `dim` and every `exp`,
`sym_mat` is the `n × n` matrix with `A[i][j] = exp(-0.5 * Σ_c (p_i[c] -
p_j[c])²)` for `i ≠ j` and `A[i][i] = 0`; for the points `(0,0)`, `(1,0)`,
`(0,1)` it has `exp(-0.5)` at `(0,1)`, `(1,0)`, `(0,2)`, `(2,0)`, `exp(-1.0)` at
`(1,2)`, `(2,1)` and a zero diagonal. -/
theorem sym_mat_entries :
    (∀ (α : Type) [LinearOrderedField α] (exp : α → α) (points : Mat α) (n dim : Nat),
      (sym_mat exp points n dim).Shape n n ∧
      (∀ i j, i < n → j < n → i ≠ j →
        (sym_mat exp points n dim).get i j
          = exp (-0.5 * ∑ c in Finset.range dim, (points.get i c - points.get j c) ^ 2)) ∧
      (∀ i, i < n → (sym_mat exp points n dim).get i i = 0)) ∧
    (∀ (α : Type) [LinearOrderedField α] (exp : α → α),
      sym_mat exp [[0, 0], [1, 0], [0, 1]] 3 2
        = [[0, exp (-0.5), exp (-0.5)],
           [exp (-0.5), 0, exp (-1.0)],
           [exp (-0.5), exp (-1.0), 0]]) := by
  refine ⟨?_, ?_⟩
  · intro α _ exp points n dim
    have h := sym_mat_spec exp points n dim
    refine ⟨h.1, fun i j hi hj hij => ?_, fun i hi => ?_⟩
    · rw [h.2 i j, if_pos ⟨hi, hj⟩, if_pos hij]
      unfold squared_euc_dis
      rw [forLoop_acc_eq_sum, zero_add]
      rfl
    · rw [h.2 i i, if_pos ⟨hi, hi⟩, if_neg (fun hh => hh rfl)]
  · intro α _ exp
    exact sym_mat_three_points exp

/-- Witness for C4: the off-diagonal entry `(0, 1)` for two points on a line. -/
theorem sym_mat_entries_witness :
    (sym_mat (fun x => x) ([[0], [2]] : Mat ℚ) 2 1).get 0 1
      = (fun x => x) (-0.5 * ∑ c in Finset.range 1,
          (Mat.get ([[0], [2]] : Mat ℚ) 0 c - Mat.get ([[0], [2]] : Mat ℚ) 1 c) ^ 2) :=
  (sym_mat_entries.1 ℚ (fun x => x) [[0], [2]] 2 1).2.1 0 1 (by decide) (by decide) (by decide)

/-- C3. For every `n` and all matrices `D`, `A` with every `D[i][i] > 0`
(`i < n`), `norm_mat(D, A, n)` is the `n × n` matrix `W = D^(-1/2) A D^(-1/2)`:
`W[i][j] = A[i][j] / (√D[i][i] * √D[j][j])`, the divisor being positive; here
`sqrt` is any function that is positive on positive arguments, and the run on
doubles gives the same matrix.  On the points `(0,0)`, `(1,0)`, `(0,1)`, with
`a = exp(-0.5)` and `b = exp(-1.0)`, the degrees `a + a`, `a + b`, `a + b` are
positive and the normalized matrix has the entries `a / (√(a+a) √(a+b))` and
`b / (√(a+b) √(a+b))` off a zero diagonal. -/
theorem norm_mat_entries :
    (∀ (α : Type) [LinearOrderedField α] (sqrt : α → α) (D A : Mat α) (n : Nat),
      (∀ x, 0 < x → 0 < sqrt x) → (∀ i, i < n → 0 < D.get i i) →
      (norm_mat sqrt D A n).Shape n n ∧
      (∀ i j, i < n → j < n →
        0 < sqrt (D.get i i) * sqrt (D.get j j) ∧
        (norm_mat sqrt D A n).get i j
          = A.get i j / (sqrt (D.get i i) * sqrt (D.get j j))) ∧
      (∀ sqrtD : Dbl α → Dbl α, (∀ x, 0 < x → sqrtD (Dbl.fin x) = Dbl.fin (sqrt x)) →
        norm_mat sqrtD D.lift A.lift n = (norm_mat sqrt D A n).lift)) ∧
    (∀ (α : Type) [LinearOrderedField α] (exp sqrt : α → α),
      (∀ x, 0 < exp x) → (∀ x, 0 < x → 0 < sqrt x) →
      (∀ i, i < 3 → 0 < (diag_mat (sym_mat exp [[0, 0], [1, 0], [0, 1]] 3 2) 3).get i i) ∧
      norm_mat sqrt (diag_mat (sym_mat exp [[0, 0], [1, 0], [0, 1]] 3 2) 3)
          (sym_mat exp [[0, 0], [1, 0], [0, 1]] 3 2) 3
        = [[0, exp (-0.5) / (sqrt (exp (-0.5) + exp (-0.5)) * sqrt (exp (-0.5) + exp (-1.0))),
              exp (-0.5) / (sqrt (exp (-0.5) + exp (-0.5)) * sqrt (exp (-0.5) + exp (-1.0)))],
           [exp (-0.5) / (sqrt (exp (-0.5) + exp (-1.0)) * sqrt (exp (-0.5) + exp (-0.5))), 0,
              exp (-1.0) / (sqrt (exp (-0.5) + exp (-1.0)) * sqrt (exp (-0.5) + exp (-1.0)))],
           [exp (-0.5) / (sqrt (exp (-0.5) + exp (-1.0)) * sqrt (exp (-0.5) + exp (-0.5))),
              exp (-1.0) / (sqrt (exp (-0.5) + exp (-1.0)) * sqrt (exp (-0.5) + exp (-1.0))),
              0]]) := by
  refine ⟨?_, ?_⟩
  · intro α _ sqrt D A n hsqrt hD
    have h := norm_mat_spec sqrt D A n
    refine ⟨h.1, fun i j hi hj => ?_,
      fun sqrtD hsqrtD => norm_mat_lift sqrt sqrtD D A n hsqrt hsqrtD hD⟩
    have hi0 := hsqrt _ (hD i hi)
    have hj0 := hsqrt _ (hD j hj)
    refine ⟨mul_pos hi0 hj0, ?_⟩
    rw [h.2 i j hi hj]
    field_simp
  · intro α _ exp sqrt hexp _
    rw [sym_mat_three_points, diag_mat_three, norm_mat_three]
    refine ⟨fun i hi => ?_, rfl⟩
    have ha := hexp (-0.5)
    have hb := hexp (-1.0)
    interval_cases i
    · simpa [Mat.get] using add_pos ha ha
    · simpa [Mat.get] using add_pos ha hb
    · simpa [Mat.get] using add_pos ha hb

/-- Witness for C3: degrees `4` and `4`, a stand-in square root with
`sqrt 4 = 2`, entry `(0, 1)`. -/
theorem norm_mat_entries_witness :
    0 < (fun x : ℚ => if x = 4 then (2 : ℚ) else 1) (Mat.get ([[4, 0], [0, 4]] : Mat ℚ) 0 0)
        * (fun x : ℚ => if x = 4 then (2 : ℚ) else 1) (Mat.get ([[4, 0], [0, 4]] : Mat ℚ) 1 1) ∧
    (norm_mat (fun x : ℚ => if x = 4 then (2 : ℚ) else 1) [[4, 0], [0, 4]] [[0, 1], [1, 0]] 2).get 0 1
      = Mat.get ([[0, 1], [1, 0]] : Mat ℚ) 0 1
        / ((fun x : ℚ => if x = 4 then (2 : ℚ) else 1) (Mat.get ([[4, 0], [0, 4]] : Mat ℚ) 0 0)
          * (fun x : ℚ => if x = 4 then (2 : ℚ) else 1) (Mat.get ([[4, 0], [0, 4]] : Mat ℚ) 1 1)) :=
  (norm_mat_entries.1 ℚ (fun x : ℚ => if x = 4 then (2 : ℚ) else 1) [[4, 0], [0, 4]] [[0, 1], [1, 0]] 2
    (by intro x _; by_cases h : x = 4 <;> simp [h])
    (by intro i hi; interval_cases i <;> simp [Mat.get])).2.1 0 1 (by decide) (by decide)

/-- C1. One iteration of the loop of `calcul`, started from any `n × k`
matrix `H_prev` with any `W` (and the `n × k` scratch matrix `old_H`), sets
every entry `(i, j)`, `i < n`, `j < k`, to
`H_prev[i][j] * (0.5 + 0.5 * (numerator / denominator))` with
`numerator = (W · H_prev)[i][j]` and
`denominator = ((H_prev · H_prevᵗ) · H_prev)[i][j]`.  The statement holds for
every arithmetic whose addition is a commutative monoid, whatever its
division does at zero. -/
theorem calcul_iter_update (α : Type) [AddCommMonoid α] [Sub α] [Mul α] [Div α]
    [OfScientific α] (W H_prev old_H : Mat α) (n k : Nat)
    (hH : H_prev.Shape n k) (hO : old_H.Shape n k) :
    ∀ i j, i < n → j < k →
      (calcul_iter H_prev W old_H n k).1.get i j =
        H_prev.get i j * (0.5 + 0.5 *
          ((∑ t in Finset.range n, W.get i t * H_prev.get t j) /
            (∑ l in Finset.range n,
              (∑ c in Finset.range k, H_prev.get i c * H_prev.get l c) * H_prev.get l j))) :=
  fun i j hi hj => calcul_iter_entry H_prev W old_H n k hH hO i j hi hj

/-- Witness for C1: a `2 × 1` factor, entry `(1, 0)`. -/
theorem calcul_iter_update_witness :
    (calcul_iter ([[1], [2]] : Mat ℚ) [[1, 0], [0, 1]] [[0], [0]] 2 1).1.get 1 0 =
      Mat.get ([[1], [2]] : Mat ℚ) 1 0 * (0.5 + 0.5 *
        ((∑ t in Finset.range 2, Mat.get ([[1, 0], [0, 1]] : Mat ℚ) 1 t
            * Mat.get ([[1], [2]] : Mat ℚ) t 0) /
          (∑ l in Finset.range 2,
            (∑ c in Finset.range 1, Mat.get ([[1], [2]] : Mat ℚ) 1 c
              * Mat.get ([[1], [2]] : Mat ℚ) l c) * Mat.get ([[1], [2]] : Mat ℚ) l 0))) :=
  calcul_iter_update ℚ [[1, 0], [0, 1]] [[1], [2]] [[0], [0]] 2 1
    (by decide) (by decide) 1 0 (by decide) (by decide)

/-- C2. For every `W` and every `n × k` matrix `H0`, `opt_mat_with_H` returns
`step^t(H0)`, where `step` is one multiplicative update and `t` is the least
index in `1..300` at which the squared Frobenius norm of
`step^t(H0) - step^(t-1)(H0)` is below `0.0001`, or `300` when there is none:
no index before `t` meets the threshold, and `t` meets it or is `300`. -/
theorem opt_mat_with_H_refines (α : Type) [AddCommMonoid α] [Sub α] [Mul α] [Div α]
    [OfScientific α] [LT α] [DecidableRel (fun (x y : α) => x < y)]
    (W H0 : Mat α) (n k : Nat) (hH : H0.Shape n k) :
    ∃ t, 1 ≤ t ∧ t ≤ 300 ∧
      opt_mat_with_H H0 W n k = some ((spec_step W n k)^[t] H0) ∧
      (∀ s, 1 ≤ s → s < t → ¬ spec_sq_change W n k H0 s < 0.0001) ∧
      (spec_sq_change W n k H0 t < 0.0001 ∨ t = 300) := by
  obtain ⟨t, h1, h2, h3, h4, h5⟩ :=
    calcul_loop_spec W n k MAXITER 0 H0 (create_matrix n k) hH (Mat.shape_create n k)
  refine ⟨t, h2 (by decide), h1, ?_, h4, ?_⟩
  · simp only [opt_mat_with_H, calcul]
    rw [if_neg (by decide), h3]
  · rcases h5 with ⟨_, _, hb, _⟩ | ⟨_, hb, _, _⟩
    · exact Or.inl hb
    · exact Or.inr hb

/-- Witness for C2: a `1 × 1` factorization over the rationals. -/
theorem opt_mat_with_H_refines_witness :
    ∃ t, 1 ≤ t ∧ t ≤ 300 ∧
      opt_mat_with_H ([[1]] : Mat ℚ) [[4]] 1 1 = some ((spec_step [[4]] 1 1)^[t] [[1]]) ∧
      (∀ s, 1 ≤ s → s < t → ¬ spec_sq_change ([[4]] : Mat ℚ) 1 1 [[1]] s < 0.0001) ∧
      (spec_sq_change ([[4]] : Mat ℚ) 1 1 [[1]] t < 0.0001 ∨ t = 300) :=
  opt_mat_with_H_refines ℚ [[4]] [[1]] 1 1 (by decide)

/-- C11. For every `W` and every `n × k` matrix `H0` the optimizer performs
some number `t` of update iterations with `1 ≤ t ≤ 300` and then terminates:
`calcul` returns `1` and `opt_mat_with_H` returns the matrix after the `t`-th
update.  When no iteration's squared change in `H` falls below `0.0001` it
performs exactly 300 iterations, leaves the loop without `break` (`m = 300`),
`calcul` still returns `1` and `opt_mat_with_H` returns the matrix after the
300th update. -/
theorem opt_mat_with_H_iteration_limit (α : Type) [AddCommMonoid α] [Sub α] [Mul α] [Div α]
    [OfScientific α] [LT α] [DecidableRel (fun (x y : α) => x < y)]
    (W H0 : Mat α) (n k : Nat) (hH : H0.Shape n k) :
    (∃ t, 1 ≤ t ∧ t ≤ 300 ∧
      (calcul H0 W n k (create_matrix n k)).1 = 1 ∧
      (calcul H0 W n k (create_matrix n k)).2.m
        + (if (calcul H0 W n k (create_matrix n k)).2.broke = true then 1 else 0) = t ∧
      opt_mat_with_H H0 W n k = some ((spec_step W n k)^[t] H0)) ∧
    ((∀ s, 1 ≤ s → s ≤ 300 → ¬ spec_sq_change W n k H0 s < 0.0001) →
      (calcul H0 W n k (create_matrix n k)).1 = 1 ∧
      (calcul H0 W n k (create_matrix n k)).2.broke = false ∧
      (calcul H0 W n k (create_matrix n k)).2.m = 300 ∧
      opt_mat_with_H H0 W n k = some ((spec_step W n k)^[300] H0)) := by
  obtain ⟨t, h1, h2, h3, _, h5⟩ :=
    calcul_loop_spec W n k MAXITER 0 H0 (create_matrix n k) hH (Mat.shape_create n k)
  have hopt : opt_mat_with_H H0 W n k = some ((spec_step W n k)^[t] H0) := by
    simp only [opt_mat_with_H, calcul]
    rw [if_neg (by decide), h3]
  have ht : 1 ≤ t := h2 (by decide)
  refine ⟨⟨t, ht, h1, rfl, ?_, hopt⟩, fun hnever => ?_⟩
  · rcases h5 with ⟨hb, _, _, hm⟩ | ⟨hb, ht', _, hm⟩
    · simp only [calcul, hb, if_true]; omega
    · simp only [calcul, hb]; simp; omega
  · rcases h5 with ⟨_, _, hc, _⟩ | ⟨hb, ht', _, hm⟩
    · exact absurd hc (hnever t ht h1)
    · have e : t = 300 := ht'
      refine ⟨rfl, hb, ?_, ?_⟩
      · simp only [calcul]; rw [hm]; rfl
      · rw [hopt, e]

/-- Witness for C11: the `1 × 1` factor `2 ^ 300` with `W = 0` is halved 300
times without meeting the threshold. -/
theorem opt_mat_with_H_iteration_limit_witness :
    (calcul ([[2 ^ 300]] : Mat ℚ) [[0]] 1 1 (create_matrix 1 1)).1 = 1 ∧
    (calcul ([[2 ^ 300]] : Mat ℚ) [[0]] 1 1 (create_matrix 1 1)).2.broke = false ∧
    (calcul ([[2 ^ 300]] : Mat ℚ) [[0]] 1 1 (create_matrix 1 1)).2.m = 300 ∧
    opt_mat_with_H ([[2 ^ 300]] : Mat ℚ) [[0]] 1 1
      = some ((spec_step ([[0]] : Mat ℚ) 1 1)^[300] [[2 ^ 300]]) :=
  (opt_mat_with_H_iteration_limit ℚ [[0]] [[2 ^ 300]] 1 1 (by decide)).2
    halving_never_converges

/-- C12. For every point set (every `n`, every dimension, all coordinates) and
every `exp`, `sym_mat(points)[i][j] = sym_mat(points)[j][i]` and
`sym_mat(points)[i][i] = 0` for all `i`, `j < n`. -/
theorem sym_mat_symmetric (α : Type) [LinearOrderedField α] (exp : α → α) (points : Mat α)
    (n dim : Nat) :
    ∀ i j, i < n → j < n →
      (sym_mat exp points n dim).get i j = (sym_mat exp points n dim).get j i ∧
      (sym_mat exp points n dim).get i i = 0 :=
  fun i j hi hj =>
    ⟨sym_mat_get_comm exp points n dim i j hi hj, sym_mat_get_diag exp points n dim i⟩

/-- Witness for C12: three points in the plane, entries `(0, 2)` and `(2, 0)`. -/
theorem sym_mat_symmetric_witness :
    (sym_mat (fun x : ℚ => x) [[0, 0], [1, 0], [0, 1]] 3 2).get 0 2
        = (sym_mat (fun x : ℚ => x) [[0, 0], [1, 0], [0, 1]] 3 2).get 2 0 ∧
      (sym_mat (fun x : ℚ => x) [[0, 0], [1, 0], [0, 1]] 3 2).get 0 0 = 0 :=
  sym_mat_symmetric ℚ (fun x => x) [[0, 0], [1, 0], [0, 1]] 3 2 0 2 (by decide) (by decide)

/-- C15 as stated fails on the code.  For `n = 1`, `D = [[0]]` and `A = [[0]]`
(the degree and affinity matrices of a single point) `norm_mat` does not fail:
it computes `1 / sqrt(0) = +∞` and returns the matrix `[[NaN]]`. -/
theorem norm_mat_zero_degree_counterexample :
    norm_mat (fun x => x) ([[Dbl.fin 0]] : Mat (Dbl ℚ)) [[Dbl.fin 0]] 1 = [[Dbl.nan]] := by
  simp [norm_mat, mat_mult, create_matrix, forLoop, Mat.set, Mat.get, Dbl.zero_def,
    Dbl.one_def, Dbl.fin_add, Dbl.fin_mul, Dbl.fin_div, Dbl.scaleInf, Dbl.nan_add,
    Dbl.add_nan, Dbl.nan_mul, Dbl.mul_nan]
  rfl

/-- The amended C15.  `norm_mat` has no check of the degrees: for every `n`,
all matrices `D`, `A` of doubles and every `i < n` with `D[i][i] = 0` it
returns an `n × n` matrix, and entry `(i, i)` of that matrix is not finite
(an infinity or `NaN`), the result of the division `1 / sqrt(0)`. -/
theorem norm_mat_zero_degree_unguarded (α : Type) [LinearOrderedField α]
    (sqrtD : Dbl α → Dbl α) (D A : Mat (Dbl α)) (n i : Nat)
    (hi : i < n) (hsqrt : sqrtD 0 = 0) (hD : D.get i i = 0) :
    (norm_mat sqrtD D A n).Shape n n ∧ ((norm_mat sqrtD D A n).get i i).isFin = false :=
  ⟨(mat_mult_spec _ _ n n n).1, norm_mat_zero_degree sqrtD D A n i hi hsqrt hD⟩

/-- Witness for the amended C15: one point, degree `0`. -/
theorem norm_mat_zero_degree_unguarded_witness :
    (norm_mat (fun x => x) ([[Dbl.fin 0]] : Mat (Dbl ℚ)) [[Dbl.fin 0]] 1).Shape 1 1 ∧
      ((norm_mat (fun x => x) ([[Dbl.fin 0]] : Mat (Dbl ℚ)) [[Dbl.fin 0]] 1).get 0 0).isFin
        = false :=
  norm_mat_zero_degree_unguarded ℚ (fun x => x) [[Dbl.fin 0]] [[Dbl.fin 0]] 1 0 (by decide)
    rfl rfl

/-- C16 as stated fails on the code.  For the `1 × 1` factor `H = [[0]]` with
`W = [[1]]` the denominator `((H · Hᵗ) · H)[0][0]` is `0`; the update divides
all the same, `0/0 = NaN`, the entry is not left unchanged but becomes `NaN`,
and nothing is reported: `calcul` returns `1` and `opt_mat_with_H` returns
the matrix `[[NaN]]`. -/
theorem calcul_zero_denominator_counterexample :
    (mat_mult (mat_mult ([[Dbl.fin 0]] : Mat (Dbl ℚ)) (transpose_matrix [[Dbl.fin 0]] 1 1)
      1 1 1) [[Dbl.fin 0]] 1 1 1).get 0 0 = 0 ∧
    (calcul_iter ([[Dbl.fin 0]] : Mat (Dbl ℚ)) [[Dbl.fin 1]] (create_matrix 1 1) 1 1).1
      = [[Dbl.nan]] ∧
    (calcul ([[Dbl.fin 0]] : Mat (Dbl ℚ)) [[Dbl.fin 1]] 1 1 (create_matrix 1 1)).1 = 1 ∧
    opt_mat_with_H ([[Dbl.fin 0]] : Mat (Dbl ℚ)) [[Dbl.fin 1]] 1 1 = some [[Dbl.nan]] := by
  refine ⟨?_, ?_, rfl, ?_⟩
  · rw [zero_run_mechane]; rfl
  · rw [zero_run_iter1]
  · simp only [opt_mat_with_H, calcul, MAXITER, zero_run_calcul]
    rw [if_neg (by decide)]

/-- The amended C16.  The update step of `calcul` has no zero-denominator
check: for all `n × k` matrices of doubles and every cell `(i, j)` whose
denominator `((H · Hᵗ) · H)[i][j]` is zero, the division is performed and the
updated entry `H[i][j]` is not finite (an infinity or `NaN`); `calcul`
reports nothing and returns `1`. -/
theorem calcul_zero_denominator_unguarded (α : Type) [LinearOrderedField α]
    (H W old_H : Mat (Dbl α)) (n k i j : Nat)
    (hH : H.Shape n k) (hO : old_H.Shape n k) (hi : i < n) (hj : j < k)
    (hden : (mat_mult (mat_mult H (transpose_matrix H n k) n k n) H n n k).get i j = 0) :
    ((calcul_iter H W old_H n k).1.get i j).isFin = false ∧
      (calcul H W n k old_H).1 = 1 :=
  ⟨calcul_iter_zero_denominator H W old_H n k i j hH hO hi hj hden, rfl⟩

/-- Witness for the amended C16: the `1 × 1` factor `H = [[0]]`. -/
theorem calcul_zero_denominator_unguarded_witness :
    ((calcul_iter ([[Dbl.fin 0]] : Mat (Dbl ℚ)) [[Dbl.fin 1]] [[Dbl.fin 0]] 1 1).1.get 0 0).isFin
        = false ∧
      (calcul ([[Dbl.fin 0]] : Mat (Dbl ℚ)) [[Dbl.fin 1]] 1 1 [[Dbl.fin 0]]).1 = 1 :=
  calcul_zero_denominator_unguarded ℚ [[Dbl.fin 0]] [[Dbl.fin 1]] [[Dbl.fin 0]] 1 1 0 0
    (by decide) (by decide) (by decide) (by decide) (by rw [zero_run_mechane]; rfl)

/-- C23. Transposition is an involution: for every matrix `M` and all `n`,
`m`, `transpose_matrix(transpose_matrix(M, n, m), m, n)` is an `n × m` matrix
whose entry `(i, j)` is `M[i][j]` for all `i < n`, `j < m`; when `M` is an
`n × m` matrix it is `M` itself. -/
theorem transpose_matrix_involution (α : Type) [Zero α] (M : Mat α) (n m : Nat) :
    (transpose_matrix (transpose_matrix M n m) m n).Shape n m ∧
    (∀ i j, i < n → j < m →
      (transpose_matrix (transpose_matrix M n m) m n).get i j = M.get i j) ∧
    (M.Shape n m → transpose_matrix (transpose_matrix M n m) m n = M) := by
  have h1 := transpose_matrix_spec M n m
  have h2 := transpose_matrix_spec (transpose_matrix M n m) m n
  have he : ∀ i j, i < n → j < m →
      (transpose_matrix (transpose_matrix M n m) m n).get i j = M.get i j := by
    intro i j hi hj
    rw [h2.2 i j, if_pos ⟨hi, hj⟩, h1.2 j i, if_pos ⟨hj, hi⟩]
  exact ⟨h2.1, he, fun hM => Mat.ext _ _ n m h2.1 hM he⟩

end Claims

/-! ## Ownership and allocation failure -/

namespace Mem

section HeapClaims

/-- C17 as stated fails on the code.  With two live `1 × 1` matrices (objects
0 and 1) and an allocator that refuses the result matrix, `mat_mult` returns
`NULL` and both of its inputs have been released. -/
theorem mat_mult_ownership_counterexample :
    mat_mult (some 0) (some 1) 1 1 1 (Heap.mk [some ([[2]] : Mat ℚ), some [[3]]] [false])
      = Except.ok (none, Heap.mk [none, none] []) := rfl

/-- The amended C17.  For live inputs `M1`, `M2`: when the allocation of the
result succeeds, `mat_mult` returns a new matrix holding the product and every
matrix that was there before the call, `M1` and `M2` among them, is live and
unchanged; when the allocation fails (and `M1`, `M2` are two matrices),
`mat_mult` returns `NULL`, `M1` and `M2` have been released and every other
matrix is as it was. -/
theorem mat_mult_ownership (α : Type) [Zero α] [Add α] [Mul α] (h : Heap α) (a1 a2 : Nat)
    (c1 c2 : Mat α) (n m q : Nat)
    (h1 : h.content a1 = some c1) (h2 : h.content a2 = some c2) :
    (h.plan.head? ≠ some false →
      ∃ h', mat_mult (some a1) (some a2) n m q h = Except.ok (some h.objs.length, h')
        ∧ h'.content h.objs.length = some (SymNMF.mat_mult c1 c2 n m q)
        ∧ h'.content a1 = some c1 ∧ h'.content a2 = some c2
        ∧ ∀ b, b < h.objs.length → h'.content b = h.content b)
    ∧ (h.plan.head? = some false → a1 ≠ a2 →
      ∃ h', mat_mult (some a1) (some a2) n m q h = Except.ok (none, h')
        ∧ h'.content a1 = none ∧ h'.content a2 = none
        ∧ ∀ b, b ≠ a1 → b ≠ a2 → h'.content b = h.content b) := by
  refine ⟨fun hp => ⟨_, mat_mult_ok h a1 a2 c1 c2 n m q h1 h2 hp, ?_, ?_, ?_, ?_⟩,
    fun hp hne => ⟨(h.refuse.release a1).release a2, ?_, ?_, ?_, ?_⟩⟩
  · exact Heap.content_alloc_new h _
  · rw [Heap.content_alloc_old h a1 _ (Heap.content_lt h a1 c1 h1)]; exact h1
  · rw [Heap.content_alloc_old h a2 _ (Heap.content_lt h a2 c2 h2)]; exact h2
  · exact fun b hb => Heap.content_alloc_old h b _ hb
  · have f1 : free_matrix (some a1) n h.refuse = Except.ok ((), h.refuse.release a1) :=
      free_matrix_ok _ a1 n c1 h1
    have f2 : free_matrix (some a2) m (h.refuse.release a1)
        = Except.ok ((), (h.refuse.release a1).release a2) :=
      free_matrix_ok _ a2 m c2 (by rw [Heap.content_release_other _ a1 a2 hne]; exact h2)
    rw [mat_mult_refused h _ _ n m q hp, Exec.bind_ok _ _ _ _ _ f1, Exec.bind_ok _ _ _ _ _ f2]
    rfl
  · rw [Heap.content_release_other _ a2 a1 (Ne.symm hne)]
    exact Heap.content_release_same _ a1
  · exact Heap.content_release_same _ a2
  · intro b hb1 hb2
    rw [Heap.content_release_other _ a2 b (Ne.symm hb2),
      Heap.content_release_other _ a1 b (Ne.symm hb1)]
    rfl

/-- Witness for the amended C17: two live `1 × 1` matrices, once with an
allocator that grants the result matrix and once with one that refuses it. -/
theorem mat_mult_ownership_witness :
    (∃ h', mat_mult (some 0) (some 1) 1 1 1
          (Heap.mk [some ([[2]] : Mat ℚ), some [[3]]] [true])
        = Except.ok (some 2, h')
      ∧ h'.content 2 = some (SymNMF.mat_mult ([[2]] : Mat ℚ) [[3]] 1 1 1)
      ∧ h'.content 0 = some [[2]] ∧ h'.content 1 = some [[3]]
      ∧ ∀ b, b < 2 →
          h'.content b = (Heap.mk [some ([[2]] : Mat ℚ), some [[3]]] [true]).content b)
    ∧ (∃ h', mat_mult (some 0) (some 1) 1 1 1
          (Heap.mk [some ([[2]] : Mat ℚ), some [[3]]] [false])
        = Except.ok (none, h')
      ∧ h'.content 0 = none ∧ h'.content 1 = none
      ∧ ∀ b, b ≠ 0 → b ≠ 1 →
          h'.content b = (Heap.mk [some ([[2]] : Mat ℚ), some [[3]]] [false]).content b) :=
  ⟨(mat_mult_ownership ℚ (Heap.mk [some [[2]], some [[3]]] [true]) 0 1 [[2]] [[3]] 1 1 1
      rfl rfl).1 (by decide),
    (mat_mult_ownership ℚ (Heap.mk [some [[2]], some [[3]]] [false]) 0 1 [[2]] [[3]] 1 1 1
      rfl rfl).2 rfl (by decide)⟩

/-- C18, evaluated on the code.  `opt_mat_with_H(H, W, n, k)` with `n, k ≥ 1`
is run from a heap holding `H` (object 0) and `W` (object 1); the allocation
of `old_H` succeeds and one allocation of the first iteration of `calcul`
fails.  The claim holds at two of the six allocations and fails at four:

* numerator product: `calcul` returns 0 and `opt_mat_with_H` returns `NULL`
  (`W`, `old_H` and `H` have been released);
* transpose: `old_H` is released by `transpose_matrix` and then indexed by
  `mat_mult`;
* inner denominator product: the outer `mat_mult` indexes the `NULL` it is
  given for `M1`;
* outer denominator product: `calcul` returns 0 and `opt_mat_with_H` returns
  `NULL`;
* transpose inside `forb`: `mat_mult` indexes the `NULL` it is given for `M1`;
* product inside `forb`: the trace loop indexes `NULL`. -/
theorem calcul_allocation_failure_paths (α : Type) [Zero α] [Add α] [Sub α] [Mul α] [Div α]
    [OfScientific α] [LT α] [DecidableRel (fun (x y : α) => x < y)]
    (cH cW : Mat α) (n k : Nat) (hn : 0 < n) (hk : 0 < k) :
    opt_mat_with_H (some 0) (some 1) n k (Heap.mk [some cH, some cW] [true, false])
        = Except.ok (none, Heap.mk [none, none, none] [])
    ∧ opt_mat_with_H (some 0) (some 1) n k (Heap.mk [some cH, some cW] [true, true, false])
        = Except.error Fault.useAfterFree
    ∧ opt_mat_with_H (some 0) (some 1) n k
          (Heap.mk [some cH, some cW] [true, true, true, false])
        = Except.error Fault.nullIndex
    ∧ (∃ T : Mat α, opt_mat_with_H (some 0) (some 1) n k
          (Heap.mk [some cH, some cW] [true, true, true, true, false])
        = Except.ok (none, Heap.mk [none, some cW, none, none, some T, none] []))
    ∧ opt_mat_with_H (some 0) (some 1) n k
          (Heap.mk [some cH, some cW] [true, true, true, true, true, false])
        = Except.error Fault.nullIndex
    ∧ opt_mat_with_H (some 0) (some 1) n k
          (Heap.mk [some cH, some cW] [true, true, true, true, true, true, false])
        = Except.error Fault.nullIndex := by
  -- `old_H` is object 2
  have e1 : ∀ p, create_matrix n k (Heap.mk [some cH, some cW] (true :: p))
      = Except.ok (some 2, Heap.mk [some cH, some cW, some (SymNMF.create_matrix n k)] p) :=
    fun p => create_matrix_ok _ n k (Heap.plan_ok_of_cons _ _ rfl)
  -- the copy loop
  obtain ⟨O1, e2⟩ : ∃ O1, ∀ p, (forEach n fun i => forEach k fun j => do
        let x ← readCell (some 0) i j
        writeCell (some 2) i j x)
      (Heap.mk [some cH, some cW, some (SymNMF.create_matrix n k)] p)
      = Except.ok ((), Heap.mk [some cH, some cW, some O1] p) :=
    ⟨_, fun p => (copy_loop_ok _ 0 2 cH (SymNMF.create_matrix n k) n k (by rfl) (by rfl)
      (by decide)).trans (by rfl)⟩
  -- `mone` is object 3
  obtain ⟨M, e3⟩ : ∃ M, ∀ p, mat_mult (some 1) (some 2) n n k
      (Heap.mk [some cH, some cW, some O1] (true :: p))
      = Except.ok (some 3, Heap.mk [some cH, some cW, some O1, some M] p) :=
    ⟨_, fun p => (mat_mult_ok _ 1 2 cW O1 n n k (by rfl) (by rfl)
      (Heap.plan_ok_of_cons _ _ (by rfl))).trans (by rfl)⟩
  -- the transpose is object 4, the inner product object 5, `mechane` object 6
  obtain ⟨T, e4⟩ : ∃ T, ∀ p, transpose_matrix (some 2) n k
      (Heap.mk [some cH, some cW, some O1, some M] (true :: p))
      = Except.ok (some 4, Heap.mk [some cH, some cW, some O1, some M, some T] p) :=
    ⟨_, fun p => (transpose_matrix_ok _ 2 O1 n k (by rfl)
      (Heap.plan_ok_of_cons _ _ (by rfl))).trans (by rfl)⟩
  obtain ⟨P, e5⟩ : ∃ P, ∀ p, mat_mult (some 2) (some 4) n k n
      (Heap.mk [some cH, some cW, some O1, some M, some T] (true :: p))
      = Except.ok (some 5, Heap.mk [some cH, some cW, some O1, some M, some T, some P] p) :=
    ⟨_, fun p => (mat_mult_ok _ 2 4 O1 T n k n (by rfl) (by rfl)
      (Heap.plan_ok_of_cons _ _ (by rfl))).trans (by rfl)⟩
  obtain ⟨C, e6⟩ : ∃ C, ∀ p, mat_mult (some 5) (some 2) n n k
      (Heap.mk [some cH, some cW, some O1, some M, some T, some P] (true :: p))
      = Except.ok (some 6,
          Heap.mk [some cH, some cW, some O1, some M, some T, some P, some C] p) :=
    ⟨_, fun p => (mat_mult_ok _ 5 2 P O1 n n k (by rfl) (by rfl)
      (Heap.plan_ok_of_cons _ _ (by rfl))).trans (by rfl)⟩
  -- the update of `H` and the change left in `old_H`
  obtain ⟨H1, e7⟩ : ∃ H1, ∀ p, (forEach n fun i => forEach k fun j => do
        let o ← readCell (some 2) i j
        let a ← readCell (some 3) i j
        let b ← readCell (some 6) i j
        writeCell (some 0) i j (o * (0.5 + 0.5 * (a / b))))
      (Heap.mk [some cH, some cW, some O1, some M, some T, some P, some C] p)
      = Except.ok ((),
          Heap.mk [some H1, some cW, some O1, some M, some T, some P, some C] p) :=
    ⟨_, fun p => (update_loop_ok _ 0 2 3 6 cH O1 M C n k (by rfl) (by rfl) (by rfl) (by rfl)
      (by decide) (by decide) (by decide)).trans (by rfl)⟩
  obtain ⟨O2, e8⟩ : ∃ O2, ∀ p, (forEach n fun i => forEach k fun j => do
        let x ← readCell (some 0) i j
        let o ← readCell (some 2) i j
        writeCell (some 2) i j (x - o))
      (Heap.mk [some H1, some cW, some O1, some M, some T, some P, some C] p)
      = Except.ok ((),
          Heap.mk [some H1, some cW, some O2, some M, some T, some P, some C] p) :=
    ⟨_, fun p => (diff_loop_ok _ 0 2 H1 O1 n k (by rfl) (by rfl) (by decide)).trans (by rfl)⟩
  -- how `opt_mat_with_H` ends once the run of `calcul` is known
  have fault : ∀ p e, calcul_loop (299 + 1) (some 0) (some 1) n k none none (some 2)
        (Heap.mk [some cH, some cW, some (SymNMF.create_matrix n k)] p) = Except.error e →
      opt_mat_with_H (some 0) (some 1) n k (Heap.mk [some cH, some cW] (true :: p))
        = Except.error e := fun p e hc => by
    unfold opt_mat_with_H
    rw [Exec.bind_ok _ _ _ _ _ (e1 p), if_neg (by simp)]
    exact Exec.bind_error _ _ _ _ hc
  have gave0 : ∀ p h', calcul_loop (299 + 1) (some 0) (some 1) n k none none (some 2)
        (Heap.mk [some cH, some cW, some (SymNMF.create_matrix n k)] p) = Except.ok (0, h') →
      opt_mat_with_H (some 0) (some 1) n k (Heap.mk [some cH, some cW] (true :: p))
        = Except.ok (none, h') := fun p h' hc => by
    unfold opt_mat_with_H
    rw [Exec.bind_ok _ _ _ _ _ (e1 p), if_neg (by simp)]
    exact (Exec.bind_ok _ _ _ _ _ hc).trans (by rfl)
  refine ⟨gave0 _ _ ?_, fault _ _ ?_, fault _ _ ?_, ⟨T, gave0 _ _ ?_⟩, fault _ _ ?_,
    fault _ _ ?_⟩
  · -- the numerator product is refused: `W` and `old_H` are released by `mat_mult`
    have r : mat_mult (some 1) (some 2) n n k (Heap.mk [some cH, some cW, some O1] [false])
        = Except.ok (none, Heap.mk [some cH, none, none] []) :=
      (mat_mult_refused _ _ _ n n k (Heap.plan_fails_of_cons _ _ (by rfl))).trans (by rfl)
    rw [calcul_loop_step 299 (some 0) (some 1) n k none none (some 2),
      Exec.bind_ok _ _ _ _ _ (e2 _), Exec.bind_ok _ _ _ _ _ r, if_pos rfl]
    rfl
  · -- the transpose is refused: `old_H` is released, then read by `mat_mult`
    have r : transpose_matrix (some 2) n k
        (Heap.mk [some cH, some cW, some O1, some M] [false])
        = Except.ok (none, Heap.mk [some cH, some cW, none, some M] []) :=
      (transpose_matrix_refused _ _ n k (Heap.plan_fails_of_cons _ _ (by rfl))).trans (by rfl)
    have r2 : mat_mult (some 2) none n k n (Heap.mk [some cH, some cW, none, some M] [])
        = Except.error Fault.useAfterFree :=
      mat_mult_released_left _ 2 none n k n (show 2 < 4 by omega) (by rfl)
        (Heap.plan_ok_of_nil _ (by rfl)) hn hk hn
    rw [calcul_loop_step 299 (some 0) (some 1) n k none none (some 2),
      Exec.bind_ok _ _ _ _ _ (e2 _), Exec.bind_ok _ _ _ _ _ (e3 _), if_neg (by simp),
      Exec.bind_ok _ _ _ _ _ r, Exec.bind_error _ _ _ _ r2]
  · -- the inner product is refused: the outer `mat_mult` gets `NULL` for `M1`
    have r : mat_mult (some 2) (some 4) n k n
        (Heap.mk [some cH, some cW, some O1, some M, some T] [false])
        = Except.ok (none, Heap.mk [some cH, some cW, none, some M, none] []) :=
      (mat_mult_refused _ _ _ n k n (Heap.plan_fails_of_cons _ _ (by rfl))).trans (by rfl)
    have r2 : mat_mult none (some 2) n n k (Heap.mk [some cH, some cW, none, some M, none] [])
        = Except.error Fault.nullIndex :=
      mat_mult_null_left _ _ n n k (Heap.plan_ok_of_nil _ (by rfl)) hn hn hk
    rw [calcul_loop_step 299 (some 0) (some 1) n k none none (some 2),
      Exec.bind_ok _ _ _ _ _ (e2 _), Exec.bind_ok _ _ _ _ _ (e3 _), if_neg (by simp),
      Exec.bind_ok _ _ _ _ _ (e4 _), Exec.bind_ok _ _ _ _ _ r, Exec.bind_error _ _ _ _ r2]
  · -- the outer product is refused: the tested case, `H` and `mone` are released
    have r : mat_mult (some 5) (some 2) n n k
        (Heap.mk [some cH, some cW, some O1, some M, some T, some P] [false])
        = Except.ok (none, Heap.mk [some cH, some cW, none, some M, some T, none] []) :=
      (mat_mult_refused _ _ _ n n k (Heap.plan_fails_of_cons _ _ (by rfl))).trans (by rfl)
    rw [calcul_loop_step 299 (some 0) (some 1) n k none none (some 2),
      Exec.bind_ok _ _ _ _ _ (e2 _), Exec.bind_ok _ _ _ _ _ (e3 _), if_neg (by simp),
      Exec.bind_ok _ _ _ _ _ (e4 _), Exec.bind_ok _ _ _ _ _ (e5 _),
      Exec.bind_ok _ _ _ _ _ r, if_pos rfl]
    rfl
  · -- the transpose inside `forb` is refused: `mat_mult` gets `NULL` for `M1`
    have r : transpose_matrix (some 2) n k
        (Heap.mk [some H1, some cW, some O2, some M, some T, some P, some C] [false])
        = Except.ok (none,
            Heap.mk [some H1, some cW, none, some M, some T, some P, some C] []) :=
      (transpose_matrix_refused _ _ n k (Heap.plan_fails_of_cons _ _ (by rfl))).trans (by rfl)
    have r2 : mat_mult none (some 2) k n k
        (Heap.mk [some H1, some cW, none, some M, some T, some P, some C] [])
        = Except.error Fault.nullIndex :=
      mat_mult_null_left _ _ k n k (Heap.plan_ok_of_nil _ (by rfl)) hk hn hk
    have r3 : forb (some 2) n k
        (Heap.mk [some H1, some cW, some O2, some M, some T, some P, some C] [false])
        = Except.error Fault.nullIndex := by
      unfold forb
      rw [Exec.bind_ok _ _ _ _ _ r]
      exact Exec.bind_error _ _ _ _ r2
    rw [calcul_loop_step 299 (some 0) (some 1) n k none none (some 2),
      Exec.bind_ok _ _ _ _ _ (e2 _), Exec.bind_ok _ _ _ _ _ (e3 _), if_neg (by simp),
      Exec.bind_ok _ _ _ _ _ (e4 _), Exec.bind_ok _ _ _ _ _ (e5 _),
      Exec.bind_ok _ _ _ _ _ (e6 _), if_neg (by simp), Exec.bind_ok _ _ _ _ _ (e7 _),
      Exec.bind_ok _ _ _ _ _ (e8 _), Exec.bind_error _ _ _ _ r3]
  · -- the product inside `forb` is refused: the trace loop indexes `NULL`
    obtain ⟨T2, r⟩ : ∃ T2, transpose_matrix (some 2) n k
        (Heap.mk [some H1, some cW, some O2, some M, some T, some P, some C] [true, false])
        = Except.ok (some 7,
            Heap.mk [some H1, some cW, some O2, some M, some T, some P, some C, some T2]
              [false]) :=
      ⟨_, (transpose_matrix_ok _ 2 O2 n k (by rfl)
        (Heap.plan_ok_of_cons _ _ (by rfl))).trans (by rfl)⟩
    have r2 : mat_mult (some 7) (some 2) k n k
        (Heap.mk [some H1, some cW, some O2, some M, some T, some P, some C, some T2] [false])
        = Except.ok (none,
            Heap.mk [some H1, some cW, none, some M, some T, some P, some C, none] []) :=
      (mat_mult_refused _ _ _ k n k (Heap.plan_fails_of_cons _ _ (by rfl))).trans (by rfl)
    have r3 : forb (some 2) n k
        (Heap.mk [some H1, some cW, some O2, some M, some T, some P, some C] [true, false])
        = Except.error Fault.nullIndex := by
      unfold forb
      rw [Exec.bind_ok _ _ _ _ _ r, Exec.bind_ok _ _ _ _ _ r2]
      exact trace_loop_null k hk _
    rw [calcul_loop_step 299 (some 0) (some 1) n k none none (some 2),
      Exec.bind_ok _ _ _ _ _ (e2 _), Exec.bind_ok _ _ _ _ _ (e3 _), if_neg (by simp),
      Exec.bind_ok _ _ _ _ _ (e4 _), Exec.bind_ok _ _ _ _ _ (e5 _),
      Exec.bind_ok _ _ _ _ _ (e6 _), if_neg (by simp), Exec.bind_ok _ _ _ _ _ (e7 _),
      Exec.bind_ok _ _ _ _ _ (e8 _), Exec.bind_error _ _ _ _ r3]

/-- Witness for C18: `n = k = 1`, `H = [[1.0]]`, `W = [[1.0]]` on doubles. -/
theorem calcul_allocation_failure_paths_witness :
    opt_mat_with_H (some 0) (some 1) 1 1
        (Heap.mk [some ([[Dbl.fin 1]] : Mat (Dbl ℚ)), some [[Dbl.fin 1]]] [true, false])
        = Except.ok (none, Heap.mk [none, none, none] [])
    ∧ opt_mat_with_H (some 0) (some 1) 1 1
        (Heap.mk [some ([[Dbl.fin 1]] : Mat (Dbl ℚ)), some [[Dbl.fin 1]]] [true, true, false])
        = Except.error Fault.useAfterFree
    ∧ opt_mat_with_H (some 0) (some 1) 1 1
        (Heap.mk [some ([[Dbl.fin 1]] : Mat (Dbl ℚ)), some [[Dbl.fin 1]]]
          [true, true, true, false])
        = Except.error Fault.nullIndex
    ∧ (∃ T : Mat (Dbl ℚ), opt_mat_with_H (some 0) (some 1) 1 1
        (Heap.mk [some ([[Dbl.fin 1]] : Mat (Dbl ℚ)), some [[Dbl.fin 1]]]
          [true, true, true, true, false])
        = Except.ok (none, Heap.mk [none, some [[Dbl.fin 1]], none, none, some T, none] []))
    ∧ opt_mat_with_H (some 0) (some 1) 1 1
        (Heap.mk [some ([[Dbl.fin 1]] : Mat (Dbl ℚ)), some [[Dbl.fin 1]]]
          [true, true, true, true, true, false])
        = Except.error Fault.nullIndex
    ∧ opt_mat_with_H (some 0) (some 1) 1 1
        (Heap.mk [some ([[Dbl.fin 1]] : Mat (Dbl ℚ)), some [[Dbl.fin 1]]]
          [true, true, true, true, true, true, false])
        = Except.error Fault.nullIndex :=
  calcul_allocation_failure_paths (Dbl ℚ) [[Dbl.fin 1]] [[Dbl.fin 1]] 1 1 (by decide)
    (by decide)

end HeapClaims

end Mem

end SymNMF
